import Mathlib

/-!
# Maze game (`src/procgen/src/games/maze.cpp`)

A shallow embedding of `MazeGame` and of the collaborators it calls, followed by
theorems about reward, termination, action handling, maze generation, world composition
and checkpointing.

Conventions of the embedding:

* C++ `int` values are `Int`; every integer the game computes is bounded by the world
  side (at most 31 in the configurations `choose_world_dim` selects), so no
  wrap-around arises.  Integer division is `Int.tdiv` (truncation, as in C++).
* C++ `float` values (`agent->x`, `action_vx`, `step_data.reward`, ...) are exact
  rationals; the game only assigns, compares with zero, adds `REWARD` and truncates.
  The one float addition, `step_data.reward += REWARD` (line 174), rounds in the source;
  the rational sum is the source's value when the reward before it is 0, the value every
  tick starts with (`0 + 10.0f` is exact), and the theorem that states the value of
  the sum assumes that reward.
* Member functions of `MazeGame` are functions from the state before the call to the
  state after it.  Functions of the base class and of other files that are not part of
  `maze.cpp` are passed as parameters or modelled from the specification; each such
  definition says so in its doc comment.
-/

namespace Maze

/-! ## Constants -/

/-- The reward constant, `const float REWARD = 10.0;` (line 6). -/
def REWARD : ℚ := 10

/-- The goal cell tag, `const int GOAL = 2;` (line 8). -/
def GOAL : Int := 2

/-- Modelled from the spec: the cell tags `WALL_OBJ` and `SPACE`, the macro `MAZE_OFFSET`
and the distribution-mode codes are declared in headers outside `maze.cpp`, so their
values are parameters.  The specification's data model states that cell tags are
mutually exclusive, which is recorded as the three distinctness fields. -/
structure ObjectIds where
  WALL_OBJ : Int
  SPACE : Int
  MAZE_OFFSET : Int
  EasyMode : Int
  HardMode : Int
  MemoryMode : Int
  wall_ne_goal : WALL_OBJ ≠ GOAL
  space_ne_goal : SPACE ≠ GOAL
  wall_ne_space : WALL_OBJ ≠ SPACE

/-- A concrete choice of the external constants, used to evaluate the model. -/
def sampleIds : ObjectIds where
  WALL_OBJ := 51
  SPACE := 100
  MAZE_OFFSET := 1
  EasyMode := 0
  HardMode := 1
  MemoryMode := 10
  wall_ne_goal := by decide
  space_ne_goal := by decide
  wall_ne_space := by decide

/-! ## Grid -/

/-- Modelled from the spec: the grid class behind `get_obj` / `set_obj` is not part of
`maze.cpp`.  A grid is a `w` by `h` array of cell tags stored row by row; its storage
always has exactly `w * h` cells. -/
structure Grid where
  w : Int
  h : Int
  data : List Int
  wf : 0 ≤ w ∧ 0 ≤ h ∧ (data.length : Int) = w * h

namespace Grid

/-- Whether `(x, y)` is a coordinate of the grid. -/
def contains (g : Grid) (x y : Int) : Bool :=
  decide (0 ≤ x) && decide (x < g.w) && decide (0 ≤ y) && decide (y < g.h)

/-- Row-major index of `(x, y)`. -/
def to_index (g : Grid) (x y : Int) : Int := y * g.w + x

/-- Read the cell with linear index `i`. -/
def get_index (g : Grid) (i : Int) : Int := g.data.getD i.toNat 0

/-- Read the cell at `(x, y)`. -/
def get (g : Grid) (x y : Int) : Int := g.get_index (g.to_index x y)

/-- Write the cell with linear index `i`; an index outside the storage writes nothing. -/
def set_index (g : Grid) (i : Int) (v : Int) : Grid :=
  if 0 ≤ i ∧ i < g.w * g.h then
    { g with
      data := g.data.set i.toNat v
      wf := by simpa using g.wf }
  else g

/-- Write the cell at `(x, y)`; a coordinate outside the grid writes nothing. -/
def set (g : Grid) (x y : Int) (v : Int) : Grid :=
  if g.contains x y then g.set_index (g.to_index x y) v else g

end Grid

/-! ## Random numbers -/

/-- Modelled from the spec: the seeded random-number source is not part of `maze.cpp`.
Its state is the tape of raw values it will produce; quantifying over tapes covers
every seed and every generator state. -/
structure RandGen where
  tape : List Nat

/-- Modelled from the spec: `randn(n)` returns an integer in `[0, n)` and advances the
generator. -/
def RandGen.randn (g : RandGen) (n : Int) : Int × RandGen :=
  match g.tape with
  | [] => (0, g)
  | t :: ts => ((t : Int) % n, { tape := ts })

/-! ## Game state -/

/-- The fields of the agent entity that `MazeGame` reads or writes. -/
structure Agent where
  x : ℚ
  y : ℚ
  rx : ℚ
  ry : ℚ
  is_reflected : Bool

/-- The per-tick result record `step_data`. -/
structure StepData where
  reward : ℚ
  done : Bool
  level_complete : Bool

/-- The maze generator object: the random stream it is bound to, its dimension and the
grid it owns (`maze_gen->grid`). -/
structure MazeGen where
  rand_gen : RandGen
  maze_dim : Int
  grid : Grid

/-- The members of `MazeGen` that `game_reset` calls; they are defined outside
`maze.cpp`, so `game_reset` takes them as a parameter. -/
structure MazeGenOps where
  create : RandGen → Int → MazeGen
  generate_maze : MazeGen → MazeGen
  place_objects : MazeGen → Int → Int → MazeGen

/-- The state of a `MazeGame`: its own members (`maze_gen`, `maze_dim`, `world_dim`) and
the members inherited from the base class that `maze.cpp` touches. -/
structure MazeGame where
  maze_gen : Option MazeGen
  maze_dim : Int
  world_dim : Int
  main_width : Int
  main_height : Int
  grid_size : Int
  grid : Grid
  grid_step : Bool
  distribution_mode : Int
  center_agent : Bool
  rand_gen : RandGen
  agent : Agent
  action_vx : ℚ
  action_vy : ℚ
  step_data : StepData

/-- The C++ conversion `int(v)` of a float: truncation toward zero. -/
def truncToInt (q : ℚ) : Int := if 0 ≤ q then ⌊q⌋ else ⌈q⌉

namespace MazeGame

/-- The constructor sets `out_of_bounds_object = WALL_OBJ` (line 78) and no member
function of `MazeGame` reassigns it. -/
def out_of_bounds_object (ids : ObjectIds) : Int := ids.WALL_OBJ

/-- Modelled from the spec: `get_obj(x, y)` of the base class; a coordinate outside the
world reads as `out_of_bounds_object`. -/
def get_obj (ids : ObjectIds) (s : MazeGame) (x y : Int) : Int :=
  if s.grid.contains x y then s.grid.get x y else out_of_bounds_object ids

/-- Modelled from the spec: `set_obj(x, y, type)` of the base class. -/
def set_obj (s : MazeGame) (x y : Int) (type : Int) : MazeGame :=
  { s with grid := s.grid.set x y type }

/-- Modelled from the spec: `set_obj(index, type)` of the base class. -/
def set_obj_index (s : MazeGame) (i : Int) (type : Int) : MazeGame :=
  { s with grid := s.grid.set_index i type }

/-- The member function `MazeGame::choose_world_dim` (lines 96-109). -/
def choose_world_dim (ids : ObjectIds) (s : MazeGame) : MazeGame :=
  let dist_diff := s.distribution_mode
  let world_dim :=
    if dist_diff = ids.EasyMode then 15
    else if dist_diff = ids.HardMode then 25
    else if dist_diff = ids.MemoryMode then 31
    else s.world_dim
  { s with world_dim := world_dim, main_width := world_dim, main_height := world_dim }

/-- The member function `MazeGame::set_action_xy` (lines 155-159); `base` is
`BasicAbstractGame::set_action_xy`, which decodes the action into `action_vx`,
`action_vy`. -/
def set_action_xy (base : MazeGame → Int → MazeGame) (s : MazeGame) (move_action : Int) :
    MazeGame :=
  let b := base s move_action
  if b.action_vx ≠ 0 then { b with action_vy := 0 } else b

/-- The orientation update of `MazeGame::game_step` (lines 164-167). -/
def after_orientation (b : MazeGame) : MazeGame :=
  let s1 := if b.action_vx > 0 then { b with agent := { b.agent with is_reflected := true } } else b
  if s1.action_vx < 0 then { s1 with agent := { s1.agent with is_reflected := false } } else s1

/-- Lines 164-178 of `MazeGame::game_step`: everything after the call of the base step.
The sum of line 174 is a 32-bit float sum in the source and a rational sum here; the two
agree when the reward before the test is 0. -/
def game_step_maze (ids : ObjectIds) (b : MazeGame) : MazeGame :=
  let s2 := after_orientation b
  let ix := truncToInt s2.agent.x
  let iy := truncToInt s2.agent.y
  let s3 :=
    if get_obj ids s2 ix iy = GOAL then
      let t := set_obj s2 ix iy ids.SPACE
      { t with step_data :=
          { t.step_data with reward := t.step_data.reward + REWARD, level_complete := true } }
    else s2
  { s3 with step_data := { s3.step_data with done := decide (s3.step_data.reward > 0) } }

/-- The member function `MazeGame::game_step` (lines 161-179); `base` is `BasicAbstractGame::game_step`. -/
def game_step (ids : ObjectIds) (base : MazeGame → MazeGame) (s : MazeGame) : MazeGame :=
  game_step_maze ids (base s)

/-! ### Episode runs -/

/-- Modelled from the spec: the host's per-tick protocol is not part of `maze.cpp`; every
tick starts with a fresh step reward of 0 before `game_step` runs. -/
def begin_tick (s : MazeGame) : MazeGame :=
  { s with step_data := { s.step_data with reward := 0 } }

/-- The state that `game_step` inspects in a tick: the fresh tick after the base step. -/
def checked_state (base : MazeGame → MazeGame) (s : MazeGame) : MazeGame :=
  base (begin_tick s)

/-- One tick of an episode: fresh step reward, then `game_step`. -/
def tick (ids : ObjectIds) (base : MazeGame → MazeGame) (s : MazeGame) : MazeGame :=
  game_step ids base (begin_tick s)

/-- Whether the cell at the agent's truncated position holds `GOAL` (the test of
line 172). -/
def goal_at_agent (ids : ObjectIds) (b : MazeGame) : Bool :=
  decide (get_obj ids b (truncToInt b.agent.x) (truncToInt b.agent.y) = GOAL)

/-- The states after each tick of a run; `bases` gives the base step of every tick (it
depends on the action of that tick). -/
def run (ids : ObjectIds) : List (MazeGame → MazeGame) → MazeGame → List MazeGame
  | [], _ => []
  | base :: rest, s => tick ids base s :: run ids rest (tick ids base s)

/-- The states inspected by the test of line 172 in each tick of a run. -/
def checks (ids : ObjectIds) : List (MazeGame → MazeGame) → MazeGame → List MazeGame
  | [], _ => []
  | base :: rest, s => checked_state base s :: checks ids rest (tick ids base s)

/-- For each tick of a run, whether the test of line 172 found `GOAL`. -/
def hits (ids : ObjectIds) (bases : List (MazeGame → MazeGame)) (s : MazeGame) : List Bool :=
  (checks ids bases s).map (goal_at_agent ids)

/-- The step reward reported by each tick of a run. -/
def rewards (ids : ObjectIds) (bases : List (MazeGame → MazeGame)) (s : MazeGame) : List ℚ :=
  (run ids bases s).map (fun t => t.step_data.reward)

/-- A base step that neither writes `GOAL` cells nor adds reward. -/
def BaseInert (ids : ObjectIds) (base : MazeGame → MazeGame) : Prop :=
  ∀ s : MazeGame, (base s).step_data.reward = s.step_data.reward ∧
    ∀ x y : Int, get_obj ids (base s) x y = GOAL → get_obj ids s x y = GOAL

/-- No cell of the world holds `GOAL`. -/
def NoGoal (ids : ObjectIds) (s : MazeGame) : Prop :=
  ∀ x y : Int, get_obj ids s x y ≠ GOAL

/-- At most one cell of the world holds `GOAL`. -/
def AtMostOneGoal (ids : ObjectIds) (s : MazeGame) : Prop :=
  ∀ x y x1 y1 : Int, get_obj ids s x y = GOAL → get_obj ids s x1 y1 = GOAL → x = x1 ∧ y = y1

/-! ### Reset -/

/-- The state `s` with its world grid replaced by `g`. -/
def with_grid (s : MazeGame) (g : Grid) : MazeGame := { s with grid := g }

/-- The precondition of the maze-specific part of `game_reset`: the configuration gives
a world side of at least 3 and the base reset has sized the world grid to `world_dim` by
`world_dim`, with `grid_size` cells. -/
def WorldSized (b : MazeGame) : Prop :=
  3 ≤ b.world_dim ∧ b.grid.w = b.world_dim ∧ b.grid.h = b.world_dim ∧
    b.grid_size = b.world_dim * b.world_dim

/-- Whether `(x, y)` lies in the square of side `maze_dim` whose corner is
`(margin, margin)`. -/
abbrev in_maze_region (maze_dim margin x y : Int) : Prop :=
  margin ≤ x ∧ x < margin + maze_dim ∧ margin ≤ y ∧ y < margin + maze_dim

/-- The maze dimension computed from the random draw (line 116). -/
def maze_dim_of_draw (r : Int) : Int := r * 2 + 3

/-- The margin between the world border and the maze (line 117). -/
def margin_of (world_dim maze_dim : Int) : Int := Int.tdiv (world_dim - maze_dim) 2

/-- The wall fill (lines 132-134). -/
def fill_walls (ids : ObjectIds) (s : MazeGame) : MazeGame :=
  (List.range s.grid_size.toNat).foldl
    (fun (t : MazeGame) (i : Nat) => set_obj_index t (i : Int) ids.WALL_OBJ) s

/-- The copy of the maze grid into the world (lines 136-142). -/
def copy_maze (ids : ObjectIds) (mg : MazeGen) (maze_dim margin : Int) (s : MazeGame) :
    MazeGame :=
  (List.range maze_dim.toNat).foldl
    (fun (t : MazeGame) (i : Nat) =>
      (List.range maze_dim.toNat).foldl
        (fun (u : MazeGame) (j : Nat) =>
          let type := mg.grid.get ((i : Int) + ids.MAZE_OFFSET) ((j : Int) + ids.MAZE_OFFSET)
          set_obj u (margin + (i : Int)) (margin + (j : Int)) type)
        t)
    s

/-- One iteration of the frame loop (lines 146-150). -/
def stamp_frame_step (ids : ObjectIds) (maze_dim margin : Int) (t : MazeGame) (i : Int) :
    MazeGame :=
  let t := set_obj t (margin - 1) (margin + i - 1) ids.WALL_OBJ
  let t := set_obj t (margin + maze_dim) (margin + i - 1) ids.WALL_OBJ
  let t := set_obj t (margin + i - 1) (margin - 1) ids.WALL_OBJ
  set_obj t (margin + i - 1) (margin + maze_dim) ids.WALL_OBJ

/-- The frame stamping (lines 144-152). -/
def stamp_frame (ids : ObjectIds) (maze_dim margin : Int) (s : MazeGame) : MazeGame :=
  if margin > 0 then
    (List.range (maze_dim + 2).toNat).foldl
      (fun (t : MazeGame) (i : Nat) => stamp_frame_step ids maze_dim margin t (i : Int)) s
  else s

/-- The member function `MazeGame::game_reset` (lines 111-153); `base` is
`BasicAbstractGame::game_reset` and `ops` are the members of `MazeGen`. -/
def game_reset (ids : ObjectIds) (base : MazeGame → MazeGame) (ops : MazeGenOps)
    (s0 : MazeGame) : MazeGame :=
  let b := base s0
  let draw := b.rand_gen.randn (Int.tdiv (b.world_dim - 1) 2)
  let maze_dim := maze_dim_of_draw draw.1
  let margin := margin_of b.world_dim maze_dim
  let mg := ops.create draw.2 maze_dim
  let agent : Agent :=
    { b.agent with rx := 1 / 2, ry := 1 / 2, x := margin + 1 / 2, y := margin + 1 / 2 }
  let mg := ops.generate_maze mg
  let mg := ops.place_objects mg GOAL 1
  let s : MazeGame :=
    { b with
      grid_step := true
      maze_dim := maze_dim
      maze_gen := some mg
      rand_gen := mg.rand_gen
      center_agent := decide (b.distribution_mode = ids.MemoryMode)
      agent := agent }
  stamp_frame ids maze_dim margin (copy_maze ids mg maze_dim margin (fill_walls ids s))

/-- The random draw of a reset from the state `b` left by the base reset (line 116). -/
def reset_draw (b : MazeGame) : Int × RandGen :=
  b.rand_gen.randn (Int.tdiv (b.world_dim - 1) 2)

/-- The generator of a reset after `generate_maze` and `place_objects(GOAL, 1)`
(lines 119-130), from the state `b` left by the base reset. -/
def reset_maze_gen (ops : MazeGenOps) (b : MazeGame) : MazeGen :=
  ops.place_objects
    (ops.generate_maze (ops.create (reset_draw b).2 (maze_dim_of_draw (reset_draw b).1))) GOAL 1

end MazeGame

/-! ## Checkpoint buffers -/

/-- Modelled from the spec: the write buffer of the host is not part of `maze.cpp`; it is
the sequence of integers written so far. -/
structure WriteBuffer where
  data : List Int

/-- Modelled from the spec: `write_int` appends one integer. -/
def WriteBuffer.write_int (b : WriteBuffer) (v : Int) : WriteBuffer :=
  { data := b.data ++ [v] }

/-- Modelled from the spec: the read buffer of the host is not part of `maze.cpp`; it is a
sequence of integers and a read position. -/
structure ReadBuffer where
  data : List Int
  pos : Nat

/-- Modelled from the spec: `read_int` returns the integer at the read position and
advances it; reading past the end fails. -/
def ReadBuffer.read_int (b : ReadBuffer) : Option (Int × ReadBuffer) :=
  match b.data.get? b.pos with
  | some v => some (v, { b with pos := b.pos + 1 })
  | none => none

namespace MazeGame

/-- The member function `MazeGame::serialize` (lines 181-185); `base` is
`BasicAbstractGame::serialize`. -/
def serialize (base : MazeGame → WriteBuffer → WriteBuffer) (s : MazeGame) (b : WriteBuffer) :
    WriteBuffer :=
  let b := base s b
  let b := b.write_int s.maze_dim
  b.write_int s.world_dim

/-- The member function `MazeGame::deserialize` (lines 187-191); `base` is
`BasicAbstractGame::deserialize`. -/
def deserialize (base : MazeGame → ReadBuffer → Option (MazeGame × ReadBuffer))
    (s : MazeGame) (b : ReadBuffer) : Option (MazeGame × ReadBuffer) :=
  match base s b with
  | none => none
  | some (s1, b1) =>
    match b1.read_int with
    | none => none
    | some (maze_dim, b2) =>
      match b2.read_int with
      | none => none
      | some (world_dim, b3) =>
        some ({ s1 with maze_dim := maze_dim, world_dim := world_dim }, b3)

end MazeGame

/-! ## Maze generator

The generator (`mazegen.h`, `mazegen.cpp`) is not part of `maze.cpp`; this section models
it from sections 4.1 and 4.2 of the specification: a union-find over the rooms and
randomized Kruskal over the walls between adjacent rooms.  Maze-local coordinates are
natural numbers; the cell `(i, j)` of the maze is stored at
`(i + MAZE_OFFSET, j + MAZE_OFFSET)` of the generator's grid. -/

/-- Modelled from the spec: the union-find of section 4.1, which is not part of
`maze.cpp`.  It is an array indexed by room id; `label[i]` is the representative of the
set that holds `i`. -/
structure UnionFind where
  label : List Nat

namespace UnionFind

/-- Modelled from the spec: `make_set(id)` makes `id` a set of its own. -/
def make_set (u : UnionFind) (id : Nat) : UnionFind :=
  { label := u.label.set id id }

/-- Modelled from the spec: the preallocated array for `n` rooms, after `make_set` of
every id. -/
def create (n : Nat) : UnionFind :=
  (List.range n).foldl make_set { label := List.replicate n 0 }

/-- Modelled from the spec: `find(id)` returns the representative of the set of `id`. -/
def find (u : UnionFind) (id : Nat) : Nat := u.label.getD id id

/-- Modelled from the spec: `union(a, b)` merges the sets of `a` and `b` and returns
whether a merge happened, i.e. whether they were in different sets. -/
def union (u : UnionFind) (a b : Nat) : UnionFind × Bool :=
  let ra := u.find a
  let rb := u.find b
  if ra = rb then (u, false)
  else ({ label := u.label.map (fun l => if l = rb then ra else l) }, true)

end UnionFind

/-- Modelled from the spec: a grid of `w` by `h` cells that all hold `v`. -/
def Grid.filled (w h : Nat) (v : Int) : Grid where
  w := w
  h := h
  data := List.replicate (w * h) v
  wf := ⟨Int.natCast_nonneg w, Int.natCast_nonneg h, by simp⟩

namespace MazeGen

/-- Modelled from the spec: the number of rooms per side, `(maze_dim + 1) / 2`. -/
def rooms_per_side (maze_dim : Nat) : Nat := (maze_dim + 1) / 2

/-- Modelled from the spec: the id of the room at the even cell `(i, j)`, for `n` rooms
per side. -/
def room_id (n i j : Nat) : Nat := (j / 2) * n + i / 2

/-- Modelled from the spec: the candidate edge list, one entry per pair of adjacent rooms.
An entry is the cell between the two rooms: a cell of the maze with exactly one odd
coordinate. -/
def candidate_walls (maze_dim : Nat) : List (Nat × Nat) :=
  (List.product (List.range maze_dim) (List.range maze_dim)).filter
    (fun p => (p.1 + p.2) % 2 = 1)

/-- Modelled from the spec: the ids of the two rooms that the wall cell `w` separates. -/
def wall_rooms (n : Nat) (w : Nat × Nat) : Nat × Nat :=
  if w.1 % 2 = 1 then (room_id n (w.1 - 1) w.2, room_id n (w.1 + 1) w.2)
  else (room_id n w.1 (w.2 - 1), room_id n w.1 (w.2 + 1))

/-- Modelled from the spec: the Fisher-Yates shuffle of step 4, drawing from the random
source; `k` is the number of entries still to place. -/
def shuffle {α : Type} : Nat → RandGen → List α → List α × RandGen
  | 0, rg, _ => ([], rg)
  | k + 1, rg, l =>
    match l.get? (rg.randn l.length).1.toNat with
    | none => ([], (rg.randn l.length).2)
    | some x =>
      (x :: (shuffle k (rg.randn l.length).2 (l.eraseIdx (rg.randn l.length).1.toNat)).1,
        (shuffle k (rg.randn l.length).2 (l.eraseIdx (rg.randn l.length).1.toNat)).2)

/-- The cell `(i, j)` of the maze in the generator's grid `g`. -/
def cell_get (ids : ObjectIds) (g : Grid) (i j : Nat) : Int :=
  g.get ((i : Int) + ids.MAZE_OFFSET) ((j : Int) + ids.MAZE_OFFSET)

/-- Write the cell `(i, j)` of the maze in the generator's grid `g`. -/
def cell_set (ids : ObjectIds) (g : Grid) (i j : Nat) (v : Int) : Grid :=
  g.set ((i : Int) + ids.MAZE_OFFSET) ((j : Int) + ids.MAZE_OFFSET) v

/-- Modelled from the spec: step 2, every cell is `WALL_OBJ` and then every room cell is
`SPACE`. -/
def initial_grid (ids : ObjectIds) (maze_dim : Nat) : Grid :=
  (List.product (List.range (rooms_per_side maze_dim))
      (List.range (rooms_per_side maze_dim))).foldl
    (fun (g : Grid) (r : Nat × Nat) => cell_set ids g (2 * r.1) (2 * r.2) ids.SPACE)
    (Grid.filled (maze_dim + 2 * ids.MAZE_OFFSET.toNat) (maze_dim + 2 * ids.MAZE_OFFSET.toNat)
      ids.WALL_OBJ)

/-- Modelled from the spec: step 5 for one edge; if `union` merges the two rooms, the wall
cell between them becomes `SPACE`, otherwise it stays `WALL_OBJ`. -/
def process_wall (ids : ObjectIds) (n : Nat) (st : UnionFind × Grid) (w : Nat × Nat) :
    UnionFind × Grid :=
  if (st.1.union (wall_rooms n w).1 (wall_rooms n w).2).2 = true then
    ((st.1.union (wall_rooms n w).1 (wall_rooms n w).2).1, cell_set ids st.2 w.1 w.2 ids.SPACE)
  else ((st.1.union (wall_rooms n w).1 (wall_rooms n w).2).1, st.2)

/-- Modelled from the spec: `generate_maze()` of section 4.2, randomized Kruskal over the
shuffled candidate edge list, run until the list is exhausted. -/
def generate_maze (ids : ObjectIds) (mg : MazeGen) : MazeGen :=
  let d := mg.maze_dim.toNat
  let n := rooms_per_side d
  let walls := shuffle (candidate_walls d).length mg.rand_gen (candidate_walls d)
  let final := walls.1.foldl (process_wall ids n) (UnionFind.create (n * n), initial_grid ids d)
  { mg with rand_gen := walls.2, grid := final.2 }

/-- The cell `(i, j)` of the maze held by the generator `mg`, as `game_reset` reads it. -/
def maze_cell (ids : ObjectIds) (mg : MazeGen) (i j : Nat) : Int :=
  cell_get ids mg.grid i j

/-- Two cells of the maze that share a side. -/
def adjacent (p q : Nat × Nat) : Prop :=
  (p.1 = q.1 ∧ (p.2 + 1 = q.2 ∨ q.2 + 1 = p.2)) ∨ (p.2 = q.2 ∧ (p.1 + 1 = q.1 ∨ q.1 + 1 = p.1))

/-- A cell of the maze that reads `SPACE`. -/
def open_cell (ids : ObjectIds) (mg : MazeGen) (p : Nat × Nat) : Prop :=
  (p.1 : Int) < mg.maze_dim ∧ (p.2 : Int) < mg.maze_dim ∧ maze_cell ids mg p.1 p.2 = ids.SPACE

/-- One move between two open cells that share a side. -/
def open_step (ids : ObjectIds) (mg : MazeGen) (p q : Nat × Nat) : Prop :=
  open_cell ids mg p ∧ open_cell ids mg q ∧ adjacent p q

/-- The cell `q` is reachable from the cell `p` through open cells. -/
def reachable (ids : ObjectIds) (mg : MazeGen) (p q : Nat × Nat) : Prop :=
  Relation.ReflTransGen (open_step ids mg) p q

/-- The number of open passages: the cells between two adjacent rooms that read `SPACE`. -/
def open_passages (ids : ObjectIds) (mg : MazeGen) : Nat :=
  (candidate_walls mg.maze_dim.toNat).countP
    (fun p => decide (maze_cell ids mg p.1 p.2 = ids.SPACE))

/-- The generator `mg` with the passage `w` closed again. -/
def close_passage (ids : ObjectIds) (mg : MazeGen) (w : Nat × Nat) : MazeGen :=
  { mg with grid := cell_set ids mg.grid w.1 w.2 ids.WALL_OBJ }

end MazeGen

namespace UnionFind

/-- The representation invariant of the union-find over `N` ids: every representative is
an id and is its own representative. -/
def Valid (u : UnionFind) (N : Nat) : Prop :=
  u.label.length = N ∧ ∀ i, i < N → u.find i < N ∧ u.find (u.find i) = u.find i

/-- The representatives among the ids below `N`. -/
def roots (u : UnionFind) (N : Nat) : Finset Nat :=
  (Finset.range N).filter (fun i => u.find i = i)

end UnionFind

namespace MazeGen

/-- The rooms `a` and `b` are separated by one wall of the list `E`. -/
def joined (n : Nat) (E : List (Nat × Nat)) (a b : Nat) : Prop :=
  ∃ w ∈ E, wall_rooms n w = (a, b) ∨ wall_rooms n w = (b, a)

/-- The rooms `a` and `b` are linked by a chain of walls of the list `E`. -/
def connected (n : Nat) (E : List (Nat × Nat)) (a b : Nat) : Prop :=
  Relation.ReflTransGen (joined n E) a b

/-- Step 5 on the union-find alone: the union-find after the edge `w` and the list of the
walls opened so far. -/
def kruskal_step (n : Nat) (st : UnionFind × List (Nat × Nat)) (w : Nat × Nat) :
    UnionFind × List (Nat × Nat) :=
  if (st.1.union (wall_rooms n w).1 (wall_rooms n w).2).2 = true then
    ((st.1.union (wall_rooms n w).1 (wall_rooms n w).2).1, w :: st.2)
  else ((st.1.union (wall_rooms n w).1 (wall_rooms n w).2).1, st.2)

/-- The union-find and the opened walls after the edges `ws`, from singleton sets. -/
def kruskal (n : Nat) (ws : List (Nat × Nat)) : UnionFind × List (Nat × Nat) :=
  ws.foldl (kruskal_step n) (UnionFind.create (n * n), [])

/-- The invariant of Kruskal's loop after the edges `ps`: the union-find is well formed,
the two rooms of every processed wall share a representative, rooms that share a
representative are linked by opened walls, every opened wall removed one representative,
and the opened walls are distinct processed walls. -/
def KruskalInv (n : Nat) (ps : List (Nat × Nat)) (st : UnionFind × List (Nat × Nat)) : Prop :=
  st.1.Valid (n * n) ∧
  (∀ w ∈ ps, st.1.find (wall_rooms n w).1 = st.1.find (wall_rooms n w).2) ∧
  (∀ r1 r2, r1 < n * n → r2 < n * n → st.1.find r1 = st.1.find r2 → connected n st.2 r1 r2) ∧
  (st.1.roots (n * n)).card + st.2.length = n * n ∧
  (∀ w ∈ st.2, w ∈ ps) ∧ st.2.Nodup ∧ st.2.length ≤ ps.length

/-- The walls that `generate_maze` opens for the generator `mg`. -/
def opened_walls (mg : MazeGen) : List (Nat × Nat) :=
  (kruskal (rooms_per_side mg.maze_dim.toNat)
    (shuffle (candidate_walls mg.maze_dim.toNat).length mg.rand_gen
      (candidate_walls mg.maze_dim.toNat)).1).2

/-- The cell of the room with id `r`. -/
def room_cell (n r : Nat) : Nat × Nat := (2 * (r % n), 2 * (r / n))

end MazeGen

/-- A generator for a 3 by 3 maze whose random tape is `tape`. -/
def sampleMazeGen (tape : List Nat) : MazeGen where
  rand_gen := { tape := tape }
  maze_dim := 3
  grid := Grid.filled 0 0 0

/-! ## Further definitions on resets and runs -/

namespace MazeGame

/-- The members that `game_reset` assigns before its three loops (lines 114-130), from
the state `b` left by the base reset. -/
def reset_members (ids : ObjectIds) (ops : MazeGenOps) (b : MazeGame) : MazeGame :=
  { b with
    grid_step := true
    maze_dim := maze_dim_of_draw (reset_draw b).1
    maze_gen := some (reset_maze_gen ops b)
    rand_gen := (reset_maze_gen ops b).rand_gen
    center_agent := decide (b.distribution_mode = ids.MemoryMode)
    agent :=
      { b.agent with
        rx := 1 / 2
        ry := 1 / 2
        x := margin_of b.world_dim (maze_dim_of_draw (reset_draw b).1) + 1 / 2
        y := margin_of b.world_dim (maze_dim_of_draw (reset_draw b).1) + 1 / 2 } }

/-- The reset of `game_reset` with the frame stamping of lines 144-152 left out: the wall
fill and the maze copy only. -/
def game_reset_without_frame (ids : ObjectIds) (base : MazeGame → MazeGame) (ops : MazeGenOps)
    (s0 : MazeGame) : MazeGame :=
  let b := base s0
  let draw := b.rand_gen.randn (Int.tdiv (b.world_dim - 1) 2)
  let maze_dim := maze_dim_of_draw draw.1
  let margin := margin_of b.world_dim maze_dim
  let mg := ops.create draw.2 maze_dim
  let agent : Agent :=
    { b.agent with rx := 1 / 2, ry := 1 / 2, x := margin + 1 / 2, y := margin + 1 / 2 }
  let mg := ops.generate_maze mg
  let mg := ops.place_objects mg GOAL 1
  let s : MazeGame :=
    { b with
      grid_step := true
      maze_dim := maze_dim
      maze_gen := some mg
      rand_gen := mg.rand_gen
      center_agent := decide (b.distribution_mode = ids.MemoryMode)
      agent := agent }
  copy_maze ids mg maze_dim margin (fill_walls ids s)

/-- The state at the end of a run; `bases` gives the base step of every tick. -/
def run_end (ids : ObjectIds) (bases : List (MazeGame → MazeGame)) (s : MazeGame) : MazeGame :=
  bases.foldl (fun (t : MazeGame) (base : MazeGame → MazeGame) => tick ids base t) s

/-- The horizontal velocity `action_vx` that each tick of a run sees in `game_step`. -/
def velocities (ids : ObjectIds) (bases : List (MazeGame → MazeGame)) (s : MazeGame) : List ℚ :=
  (checks ids bases s).map (fun b => b.action_vx)

/-- The orientation flag that mirrors the sign of the last nonzero entry of `vxs`,
starting from the flag `r`. -/
def orientation_after (r : Bool) (vxs : List ℚ) : Bool :=
  vxs.foldl (fun (r : Bool) (vx : ℚ) => if vx > 0 then true else if vx < 0 then false else r) r

/-- The state `b` with the orientation flag of the agent replaced by `flag`. -/
def with_reflected (b : MazeGame) (flag : Bool) : MazeGame :=
  { b with agent := { b.agent with is_reflected := flag } }

/-- The state `b` with the `done` flag of the step record replaced by `d`. -/
def with_done (b : MazeGame) (d : Bool) : MazeGame :=
  { b with step_data := { b.step_data with done := d } }

end MazeGame

/-! ## Sample states -/

/-- A 3 by 3 world: a maze of four rooms whose goal lies at `(0, 2)`. -/
def sampleWorld : Grid where
  w := 3
  h := 3
  data := [100, 100, 100, 51, 51, 100, 2, 100, 100]
  wf := by decide

/-- A game over `sampleWorld` with the agent at `(x, y)` and step reward `reward`. -/
def sampleGame (x y reward : ℚ) : MazeGame where
  maze_gen := none
  maze_dim := 3
  world_dim := 3
  main_width := 3
  main_height := 3
  grid_size := 9
  grid := sampleWorld
  grid_step := true
  distribution_mode := 0
  center_agent := false
  rand_gen := { tape := [] }
  agent := { x := x, y := y, rx := 1 / 2, ry := 1 / 2, is_reflected := false }
  action_vx := 0
  action_vy := 0
  step_data := { reward := reward, done := false, level_complete := false }

/-- A base step that moves the agent to `(x, y)` and changes nothing else. -/
def sampleMove (x y : ℚ) (s : MazeGame) : MazeGame :=
  { s with agent := { s.agent with x := x, y := y } }

/-- A 5 by 5 world before the maze-specific part of a reset; the random tape is
exhausted, so the draw is 0, the maze is 3 by 3 and the margin is 1. -/
def sampleResetGame : MazeGame where
  maze_gen := none
  maze_dim := 0
  world_dim := 5
  main_width := 5
  main_height := 5
  grid_size := 25
  grid := { w := 5, h := 5, data := List.replicate 25 0, wf := by decide }
  grid_step := false
  distribution_mode := 0
  center_agent := false
  rand_gen := { tape := [] }
  agent := { x := 0, y := 0, rx := 0, ry := 0, is_reflected := false }
  action_vx := 0
  action_vy := 0
  step_data := { reward := 0, done := false, level_complete := false }

/-- The grid of a generator that holds a 3 by 3 maze at offset 1, with the goal at
maze-local `(0, 2)`. -/
def sampleMazeGrid : Grid where
  w := 5
  h := 5
  data := [51, 51, 51, 51, 51,
           51, 100, 100, 100, 51,
           51, 51, 51, 100, 51,
           51, 2, 100, 100, 51,
           51, 51, 51, 51, 51]
  wf := by decide

/-- Generator members that always produce `sampleMazeGrid`. -/
def sampleOps : MazeGenOps where
  create := fun rg maze_dim => MazeGen.mk rg maze_dim sampleMazeGrid
  generate_maze := fun mg => mg
  place_objects := fun mg _ _ => mg

/-- A base `serialize` that writes one integer (the agent's orientation flag). -/
def sampleBaseSerialize (s : MazeGame) (b : WriteBuffer) : WriteBuffer :=
  b.write_int (if s.agent.is_reflected then 1 else 0)

/-- The base `deserialize` that reads back what `sampleBaseSerialize` wrote. -/
def sampleBaseDeserialize (s : MazeGame) (b : ReadBuffer) : Option (MazeGame × ReadBuffer) :=
  match b.read_int with
  | none => none
  | some (v, b1) => some ({ s with agent := { s.agent with is_reflected := decide (v = 1) } }, b1)

/-- A base step that sets the horizontal velocity to `vx` and changes nothing else. -/
def samplePush (vx : ℚ) (s : MazeGame) : MazeGame :=
  { s with action_vx := vx }

/-- The state `sampleResetGame` with other leftovers of a previous episode: another world
content, another maze dimension and another agent position. -/
def sampleResetGameUsed : MazeGame :=
  { sampleResetGame with
    maze_dim := 5
    grid := { w := 5, h := 5, data := List.replicate 25 2, wf := by decide }
    agent := { x := 7 / 2, y := 3 / 2, rx := 1 / 2, ry := 1 / 2, is_reflected := true } }

/-- A hard-mode game before the maze-specific part of a reset: a 25 by 25 world and a
random source that will produce the raw values of `tape`. -/
def sampleHardGame (tape : List Nat) : MazeGame where
  maze_gen := none
  maze_dim := 0
  world_dim := 25
  main_width := 25
  main_height := 25
  grid_size := 625
  grid := Grid.filled 25 25 0
  grid_step := false
  distribution_mode := 1
  center_agent := false
  rand_gen := { tape := tape }
  agent := { x := 0, y := 0, rx := 0, ry := 0, is_reflected := false }
  action_vx := 0
  action_vy := 0
  step_data := { reward := 0, done := false, level_complete := false }

/-! ## Grid lemmas -/

namespace Grid

theorem contains_iff (g : Grid) (x y : Int) :
    g.contains x y = true ↔ 0 ≤ x ∧ x < g.w ∧ 0 ≤ y ∧ y < g.h := by
  simp [contains, and_assoc]

theorem to_index_bounds (g : Grid) (x y : Int) (hc : g.contains x y = true) :
    0 ≤ g.to_index x y ∧ g.to_index x y < g.w * g.h := by
  rw [contains_iff] at hc
  obtain ⟨hx0, hxw, hy0, hyh⟩ := hc
  unfold to_index
  constructor
  · have := mul_nonneg hy0 (le_trans hx0 hxw.le)
    omega
  · have h1 : (y + 1) * g.w ≤ g.h * g.w :=
      mul_le_mul_of_nonneg_right (by omega) (le_trans hx0 hxw.le)
    nlinarith

theorem to_index_inj (g : Grid) (x y x1 y1 : Int) (hc : g.contains x y = true)
    (hc1 : g.contains x1 y1 = true) (h : g.to_index x y = g.to_index x1 y1) :
    x = x1 ∧ y = y1 := by
  rw [contains_iff] at hc hc1
  obtain ⟨hx0, hxw, -, -⟩ := hc
  obtain ⟨hx10, hx1w, -, -⟩ := hc1
  unfold to_index at h
  have e1 : (y * g.w + x) % g.w = x := by
    rw [add_comm, Int.add_mul_emod_self, Int.emod_eq_of_lt hx0 hxw]
  have e2 : (y1 * g.w + x1) % g.w = x1 := by
    rw [add_comm, Int.add_mul_emod_self, Int.emod_eq_of_lt hx10 hx1w]
  have hx : x = x1 := by rw [← e1, ← e2, h]
  subst hx
  have hw : g.w ≠ 0 := by omega
  have : y * g.w = y1 * g.w := by omega
  exact ⟨rfl, mul_right_cancel₀ hw this⟩

theorem set_index_w (g : Grid) (i v : Int) : (g.set_index i v).w = g.w := by
  unfold set_index; split <;> rfl

theorem set_index_h (g : Grid) (i v : Int) : (g.set_index i v).h = g.h := by
  unfold set_index; split <;> rfl

theorem set_w (g : Grid) (x y v : Int) : (g.set x y v).w = g.w := by
  unfold set; split
  · exact set_index_w _ _ _
  · rfl

theorem set_h (g : Grid) (x y v : Int) : (g.set x y v).h = g.h := by
  unfold set; split
  · exact set_index_h _ _ _
  · rfl

theorem set_index_contains (g : Grid) (i v x y : Int) :
    (g.set_index i v).contains x y = g.contains x y := by
  simp [contains, set_index_w, set_index_h]

theorem set_contains (g : Grid) (a b v x y : Int) :
    (g.set a b v).contains x y = g.contains x y := by
  simp [contains, set_w, set_h]

/-- Reading linear index `j` after writing linear index `i`. -/
theorem get_index_set_index (g : Grid) (i j v : Int)
    (hj : 0 ≤ j ∧ j < g.w * g.h) :
    (g.set_index i v).get_index j = if j = i then v else g.get_index j := by
  obtain ⟨-, -, hlen⟩ := g.wf
  unfold set_index
  split
  · rename_i hi
    simp only [get_index, List.getD_eq_getElem?_getD, List.getElem?_set]
    by_cases hji : j = i
    · subst hji
      have : j.toNat < g.data.length := by omega
      simp [this]
    · have : i.toNat ≠ j.toNat := by omega
      simp [this, hji]
  · rename_i hi
    have : j ≠ i := by
      intro h; subst h; exact hi hj
    simp [this]

/-- Reading `(x1, y1)` after writing linear index `i`. -/
theorem get_set_index (g : Grid) (i v x1 y1 : Int)
    (hc : g.contains x1 y1 = true) :
    (g.set_index i v).get x1 y1 = if g.to_index x1 y1 = i then v else g.get x1 y1 := by
  have hb := to_index_bounds g x1 y1 hc
  unfold get
  have : (g.set_index i v).to_index x1 y1 = g.to_index x1 y1 := by
    simp [to_index, set_index_w]
  rw [this, get_index_set_index g i _ v hb]

/-- Reading `(x1, y1)` after writing `(x, y)`. -/
theorem get_set (g : Grid) (x y v x1 y1 : Int)
    (hc : g.contains x1 y1 = true) :
    (g.set x y v).get x1 y1 = if x1 = x ∧ y1 = y then v else g.get x1 y1 := by
  unfold set
  split
  · rename_i hxy
    rw [get_set_index g _ _ _ _ hc]
    by_cases h : x1 = x ∧ y1 = y
    · obtain ⟨rfl, rfl⟩ := h
      simp
    · have : g.to_index x1 y1 ≠ g.to_index x y := by
        intro he
        exact h (to_index_inj g x1 y1 x y hc hxy he)
      simp [this, h]
  · rename_i hxy
    have : ¬ (x1 = x ∧ y1 = y) := by
      rintro ⟨rfl, rfl⟩
      exact hxy hc
    simp [this]

end Grid

/-! ## Lemmas on the step -/

theorem truncToInt_eq (q : ℚ) (z : Int) (h0 : 0 ≤ q) (h1 : (z : ℚ) ≤ q) (h2 : q < z + 1) :
    truncToInt q = z := by
  unfold truncToInt
  rw [if_pos h0]
  exact Int.floor_eq_iff.mpr ⟨h1, h2⟩

namespace MazeGame

theorem after_orientation_grid (b : MazeGame) : (after_orientation b).grid = b.grid := by
  simp only [after_orientation]; split_ifs <;> rfl

theorem after_orientation_x (b : MazeGame) : (after_orientation b).agent.x = b.agent.x := by
  simp only [after_orientation]; split_ifs <;> rfl

theorem after_orientation_y (b : MazeGame) : (after_orientation b).agent.y = b.agent.y := by
  simp only [after_orientation]; split_ifs <;> rfl

theorem after_orientation_step_data (b : MazeGame) :
    (after_orientation b).step_data = b.step_data := by
  simp only [after_orientation]; split_ifs <;> rfl

theorem get_obj_congr (ids : ObjectIds) (s t : MazeGame) (h : s.grid = t.grid) (x y : Int) :
    get_obj ids s x y = get_obj ids t x y := by
  unfold get_obj; rw [h]

theorem get_obj_after_orientation (ids : ObjectIds) (b : MazeGame) (x y : Int) :
    get_obj ids (after_orientation b) x y = get_obj ids b x y :=
  get_obj_congr ids _ _ (after_orientation_grid b) x y

/-- A cell that reads `GOAL` lies inside the world. -/
theorem contains_of_get_obj_goal (ids : ObjectIds) (s : MazeGame) (x y : Int)
    (h : get_obj ids s x y = GOAL) : s.grid.contains x y = true := by
  by_contra hc
  unfold get_obj at h
  rw [if_neg hc] at h
  exact ids.wall_ne_goal h

/-- Reading a cell after `set_obj`. -/
theorem get_obj_set_obj (ids : ObjectIds) (s : MazeGame) (x y v x1 y1 : Int) :
    get_obj ids (set_obj s x y v) x1 y1 =
      if s.grid.contains x y = true ∧ x1 = x ∧ y1 = y then v else get_obj ids s x1 y1 := by
  unfold get_obj set_obj
  simp only [Grid.set_contains]
  by_cases hc1 : s.grid.contains x1 y1 = true
  · rw [if_pos hc1, if_pos hc1, Grid.get_set _ _ _ _ _ _ hc1]
    by_cases hxy : x1 = x ∧ y1 = y
    · obtain ⟨rfl, rfl⟩ := hxy
      simp [hc1]
    · simp [hxy]
  · rw [if_neg hc1, if_neg hc1]
    have : ¬ (s.grid.contains x y = true ∧ x1 = x ∧ y1 = y) := by
      rintro ⟨h, rfl, rfl⟩
      exact hc1 h
    rw [if_neg this]

/-- The maze-specific part of the step when the test of line 172 succeeds. -/
theorem game_step_maze_of_goal (ids : ObjectIds) (b : MazeGame)
    (h : goal_at_agent ids b = true) :
    game_step_maze ids b =
      { set_obj (after_orientation b) (truncToInt b.agent.x) (truncToInt b.agent.y) ids.SPACE with
        step_data :=
          { reward := b.step_data.reward + REWARD
            level_complete := true
            done := decide (b.step_data.reward + REWARD > 0) } } := by
  have h1 : get_obj ids (after_orientation b) (truncToInt (after_orientation b).agent.x)
      (truncToInt (after_orientation b).agent.y) = GOAL := by
    rw [after_orientation_x, after_orientation_y, get_obj_after_orientation]
    simpa [goal_at_agent] using h
  unfold game_step_maze
  simp only [if_pos h1]
  simp [set_obj, after_orientation_x, after_orientation_y, after_orientation_step_data]

/-- The maze-specific part of the step when the test of line 172 fails. -/
theorem game_step_maze_of_no_goal (ids : ObjectIds) (b : MazeGame)
    (h : goal_at_agent ids b = false) :
    game_step_maze ids b =
      { after_orientation b with
        step_data := { b.step_data with done := decide (b.step_data.reward > 0) } } := by
  have h1 : ¬ get_obj ids (after_orientation b) (truncToInt (after_orientation b).agent.x)
      (truncToInt (after_orientation b).agent.y) = GOAL := by
    rw [after_orientation_x, after_orientation_y, get_obj_after_orientation]
    simpa [goal_at_agent] using h
  unfold game_step_maze
  simp only [if_neg h1]
  simp [after_orientation_step_data]

end MazeGame

/-! ## Goal collection (C1, C2) -/

namespace MazeGame

theorem sample_trunc_half : truncToInt (1 / 2 : ℚ) = 0 :=
  truncToInt_eq _ 0 (by norm_num) (by norm_num) (by norm_num)

theorem sample_trunc_five_halves : truncToInt (5 / 2 : ℚ) = 2 :=
  truncToInt_eq _ 2 (by norm_num) (by norm_num) (by norm_num)

theorem sample_on_goal (r : ℚ) :
    get_obj sampleIds (id (sampleGame (1 / 2) (5 / 2) r))
      (truncToInt (id (sampleGame (1 / 2) (5 / 2) r)).agent.x)
      (truncToInt (id (sampleGame (1 / 2) (5 / 2) r)).agent.y) = GOAL := by
  show get_obj sampleIds (sampleGame (1 / 2) (5 / 2) r) (truncToInt (1 / 2)) (truncToInt (5 / 2)) = GOAL
  rw [sample_trunc_half, sample_trunc_five_halves]
  rfl

theorem sample_off_goal (r : ℚ) :
    get_obj sampleIds (id (sampleGame (1 / 2) (1 / 2) r))
      (truncToInt (id (sampleGame (1 / 2) (1 / 2) r)).agent.x)
      (truncToInt (id (sampleGame (1 / 2) (1 / 2) r)).agent.y) ≠ GOAL := by
  show get_obj sampleIds (sampleGame (1 / 2) (1 / 2) r) (truncToInt (1 / 2)) (truncToInt (1 / 2)) ≠ GOAL
  rw [sample_trunc_half]
  exact ne_of_eq_of_ne (b := (100 : Int)) rfl (by decide)

theorem goal_at_agent_eq_true (ids : ObjectIds) (b : MazeGame) :
    goal_at_agent ids b = true ↔
      get_obj ids b (truncToInt b.agent.x) (truncToInt b.agent.y) = GOAL := by
  simp [goal_at_agent]

theorem goal_at_agent_eq_false (ids : ObjectIds) (b : MazeGame) :
    goal_at_agent ids b = false ↔
      get_obj ids b (truncToInt b.agent.x) (truncToInt b.agent.y) ≠ GOAL := by
  simp [goal_at_agent]

/-- C2: when the cell at the agent's truncated position does not hold `GOAL`, the
maze-specific part of `game_step` leaves the step reward and `level_complete` as the
base step produced them and modifies no world cell; when the base step's reward is 0
the tick's reward is 0 and `done` is false. -/
theorem game_step_without_goal (ids : ObjectIds) (base : MazeGame → MazeGame) (s : MazeGame)
    (hno : get_obj ids (base s) (truncToInt (base s).agent.x)
      (truncToInt (base s).agent.y) ≠ GOAL) :
    (game_step ids base s).step_data.reward = (base s).step_data.reward ∧
    (game_step ids base s).step_data.level_complete = (base s).step_data.level_complete ∧
    (game_step ids base s).grid = (base s).grid ∧
    (∀ x y : Int, get_obj ids (game_step ids base s) x y = get_obj ids (base s) x y) ∧
    ((base s).step_data.reward = 0 →
      (game_step ids base s).step_data.reward = 0 ∧
      (game_step ids base s).step_data.done = false) := by
  have hg := (goal_at_agent_eq_false ids (base s)).mpr hno
  have hgrid : (game_step ids base s).grid = (base s).grid := by
    unfold game_step
    rw [game_step_maze_of_no_goal ids (base s) hg]
    exact after_orientation_grid (base s)
  refine ⟨?_, ?_, hgrid, fun x y => get_obj_congr ids _ _ hgrid x y, ?_⟩
  · unfold game_step
    rw [game_step_maze_of_no_goal ids (base s) hg]
  · unfold game_step
    rw [game_step_maze_of_no_goal ids (base s) hg]
  · intro h0
    unfold game_step
    rw [game_step_maze_of_no_goal ids (base s) hg]
    simp [h0]

/-- Witness of C2: the agent stands on the start room of the sample world, away from the
goal, with a fresh reward of 0. -/
theorem game_step_without_goal_witness :
    (game_step sampleIds id (sampleGame (1 / 2) (1 / 2) 0)).step_data.reward = 0 ∧
      (game_step sampleIds id (sampleGame (1 / 2) (1 / 2) 0)).step_data.done = false :=
  (game_step_without_goal sampleIds id (sampleGame (1 / 2) (1 / 2) 0) (sample_off_goal 0)).2.2.2.2
    rfl

/-! ## Axis exclusivity (C5) -/

/-- C5: after `MazeGame::set_action_xy`, `action_vx` is the value decoded by the base;
`action_vy` is 0 when `action_vx` is nonzero and is the value decoded by the base when
`action_vx` is 0; so at most one of the two is nonzero. -/
theorem set_action_xy_axis_exclusive (base : MazeGame → Int → MazeGame) (s : MazeGame)
    (move_action : Int) :
    (set_action_xy base s move_action).action_vx = (base s move_action).action_vx ∧
    (set_action_xy base s move_action).action_vy =
      (if (base s move_action).action_vx ≠ 0 then 0 else (base s move_action).action_vy) ∧
    ((set_action_xy base s move_action).action_vx = 0 ∨
      (set_action_xy base s move_action).action_vy = 0) := by
  unfold set_action_xy
  by_cases h : (base s move_action).action_vx ≠ 0
  · simp [h]
  · simp only [if_neg h]
    simp only [ne_eq, not_not] at h
    simp [h]

end MazeGame

/-! ## Lemmas on runs -/

namespace MazeGame

/-- World cells after the maze-specific part of a step that found the goal. -/
theorem get_obj_step_of_goal (ids : ObjectIds) (b : MazeGame) (h : goal_at_agent ids b = true)
    (x y : Int) :
    get_obj ids (game_step_maze ids b) x y =
      if x = truncToInt b.agent.x ∧ y = truncToInt b.agent.y then ids.SPACE
      else get_obj ids b x y := by
  have hc : (after_orientation b).grid.contains (truncToInt b.agent.x)
      (truncToInt b.agent.y) = true := by
    rw [after_orientation_grid]
    exact contains_of_get_obj_goal ids _ _ _ ((goal_at_agent_eq_true ids b).mp h)
  have e : get_obj ids (game_step_maze ids b) x y =
      get_obj ids (set_obj (after_orientation b) (truncToInt b.agent.x)
        (truncToInt b.agent.y) ids.SPACE) x y := by
    apply get_obj_congr
    rw [game_step_maze_of_goal ids b h]
  rw [e, get_obj_set_obj]
  by_cases hxy : x = truncToInt b.agent.x ∧ y = truncToInt b.agent.y
  · rw [if_pos ⟨hc, hxy⟩, if_pos hxy]
  · rw [if_neg (fun h => hxy h.2), if_neg hxy, get_obj_after_orientation]

/-- World cells after the maze-specific part of a step that found no goal. -/
theorem get_obj_step_of_no_goal (ids : ObjectIds) (b : MazeGame)
    (h : goal_at_agent ids b = false) (x y : Int) :
    get_obj ids (game_step_maze ids b) x y = get_obj ids b x y := by
  apply get_obj_congr
  rw [game_step_maze_of_no_goal ids b h]
  exact after_orientation_grid b

theorem step_reward_of_goal (ids : ObjectIds) (b : MazeGame) (h : goal_at_agent ids b = true) :
    (game_step_maze ids b).step_data.reward = b.step_data.reward + REWARD := by
  rw [game_step_maze_of_goal ids b h]

theorem step_reward_of_no_goal (ids : ObjectIds) (b : MazeGame)
    (h : goal_at_agent ids b = false) :
    (game_step_maze ids b).step_data.reward = b.step_data.reward := by
  rw [game_step_maze_of_no_goal ids b h]

theorem step_done (ids : ObjectIds) (b : MazeGame) :
    (game_step_maze ids b).step_data.done =
      decide ((game_step_maze ids b).step_data.reward > 0) := by
  cases h : goal_at_agent ids b
  · rw [game_step_maze_of_no_goal ids b h]
  · rw [game_step_maze_of_goal ids b h]

theorem tick_eq (ids : ObjectIds) (base : MazeGame → MazeGame) (s : MazeGame) :
    tick ids base s = game_step_maze ids (checked_state base s) := rfl

theorem checked_reward (ids : ObjectIds) (base : MazeGame → MazeGame) (s : MazeGame)
    (hb : BaseInert ids base) : (checked_state base s).step_data.reward = 0 :=
  (hb (begin_tick s)).1

theorem checked_goal_subset (ids : ObjectIds) (base : MazeGame → MazeGame) (s : MazeGame)
    (hb : BaseInert ids base) (x y : Int) (h : get_obj ids (checked_state base s) x y = GOAL) :
    get_obj ids s x y = GOAL :=
  (hb (begin_tick s)).2 x y h

/-- The reward of a tick is 10 if the test found the goal and 0 otherwise. -/
theorem tick_reward (ids : ObjectIds) (base : MazeGame → MazeGame) (s : MazeGame)
    (hb : BaseInert ids base) :
    (tick ids base s).step_data.reward =
      if goal_at_agent ids (checked_state base s) = true then 10 else 0 := by
  rw [tick_eq]
  cases h : goal_at_agent ids (checked_state base s)
  · rw [step_reward_of_no_goal ids _ h, checked_reward ids base s hb]
    simp
  · rw [step_reward_of_goal ids _ h, checked_reward ids base s hb]
    simp [REWARD]

/-- A tick creates no goal. -/
theorem tick_goal_subset (ids : ObjectIds) (base : MazeGame → MazeGame) (s : MazeGame)
    (hb : BaseInert ids base) (x y : Int) (h : get_obj ids (tick ids base s) x y = GOAL) :
    get_obj ids s x y = GOAL := by
  rw [tick_eq] at h
  apply checked_goal_subset ids base s hb
  cases hg : goal_at_agent ids (checked_state base s)
  · rwa [get_obj_step_of_no_goal ids _ hg] at h
  · rw [get_obj_step_of_goal ids _ hg] at h
    split at h
    · exact absurd h ids.space_ne_goal
    · exact h

/-- A tick that finds the only goal leaves a world without goal. -/
theorem tick_no_goal_of_hit (ids : ObjectIds) (base : MazeGame → MazeGame) (s : MazeGame)
    (hb : BaseInert ids base) (h1 : AtMostOneGoal ids s)
    (hg : goal_at_agent ids (checked_state base s) = true) : NoGoal ids (tick ids base s) := by
  intro x y h
  rw [tick_eq, get_obj_step_of_goal ids _ hg] at h
  split at h
  · exact ids.space_ne_goal h
  · rename_i hxy
    have ha := checked_goal_subset ids base s hb _ _ ((goal_at_agent_eq_true ids _).mp hg)
    have hb2 := checked_goal_subset ids base s hb _ _ h
    exact hxy (h1 _ _ _ _ hb2 ha)

theorem tick_at_most_one (ids : ObjectIds) (base : MazeGame → MazeGame) (s : MazeGame)
    (hb : BaseInert ids base) (h1 : AtMostOneGoal ids s) : AtMostOneGoal ids (tick ids base s) :=
  fun x y x1 y1 h h2 =>
    h1 x y x1 y1 (tick_goal_subset ids base s hb x y h) (tick_goal_subset ids base s hb x1 y1 h2)

theorem tick_no_goal (ids : ObjectIds) (base : MazeGame → MazeGame) (s : MazeGame)
    (hb : BaseInert ids base) (hn : NoGoal ids s) : NoGoal ids (tick ids base s) :=
  fun x y h => hn x y (tick_goal_subset ids base s hb x y h)

theorem no_hit_of_no_goal (ids : ObjectIds) (base : MazeGame → MazeGame) (s : MazeGame)
    (hb : BaseInert ids base) (hn : NoGoal ids s) :
    goal_at_agent ids (checked_state base s) = false := by
  rw [goal_at_agent_eq_false]
  intro h
  exact hn _ _ (checked_goal_subset ids base s hb _ _ h)

theorem rewards_eq_map_hits (ids : ObjectIds) (bases : List (MazeGame → MazeGame))
    (s : MazeGame) (hb : ∀ base ∈ bases, BaseInert ids base) :
    rewards ids bases s =
      (hits ids bases s).map (fun h => if h = true then (10 : ℚ) else 0) := by
  induction bases generalizing s with
  | nil => rfl
  | cons base rest ih =>
    have hb0 := hb base (List.mem_cons_self _ _)
    have ih1 := ih (tick ids base s) (fun c hc => hb c (List.mem_cons_of_mem _ hc))
    simp only [rewards, hits, run, checks, List.map_cons] at ih1 ⊢
    rw [ih1, tick_reward ids base s hb0]

theorem run_of_no_goal (ids : ObjectIds) (bases : List (MazeGame → MazeGame)) (s : MazeGame)
    (hb : ∀ base ∈ bases, BaseInert ids base) (hn : NoGoal ids s) :
    hits ids bases s = List.replicate bases.length false ∧
      ∀ st ∈ run ids bases s, NoGoal ids st := by
  induction bases generalizing s with
  | nil => exact ⟨rfl, fun st h => by simp [run] at h⟩
  | cons base rest ih =>
    have hb0 := hb base (List.mem_cons_self _ _)
    have hn1 := tick_no_goal ids base s hb0 hn
    obtain ⟨ih1, ih2⟩ := ih (tick ids base s) (fun c hc => hb c (List.mem_cons_of_mem _ hc)) hn1
    constructor
    · simp only [hits, checks, List.map_cons, List.length_cons, List.replicate_succ] at ih1 ⊢
      rw [ih1, no_hit_of_no_goal ids base s hb0 hn]
    · intro st hst
      simp only [run, List.mem_cons] at hst
      rcases hst with rfl | hst
      · exact hn1
      · exact ih2 st hst

/-- The hits of a run from a world with at most one goal: none, or exactly one, after
which no state of the run holds a goal. -/
theorem hits_pattern (ids : ObjectIds) (bases : List (MazeGame → MazeGame)) (s : MazeGame)
    (hb : ∀ base ∈ bases, BaseInert ids base) (h1 : AtMostOneGoal ids s) :
    (∀ h ∈ hits ids bases s, h = false) ∨
      ∃ k m : Nat, hits ids bases s = List.replicate k false ++ true :: List.replicate m false ∧
        ∀ st ∈ (run ids bases s).drop k, NoGoal ids st := by
  induction bases generalizing s with
  | nil => left; intro h hh; simp [hits, checks] at hh
  | cons base rest ih =>
    have hb0 := hb base (List.mem_cons_self _ _)
    have hrest : ∀ c ∈ rest, BaseInert ids c := fun c hc => hb c (List.mem_cons_of_mem _ hc)
    cases hg : goal_at_agent ids (checked_state base s)
    · rcases ih (tick ids base s) hrest (tick_at_most_one ids base s hb0 h1) with hall | ⟨k, m, hk, hd⟩
      · left
        intro h hh
        simp only [hits, checks, List.map_cons, List.mem_cons] at hh
        rcases hh with rfl | hh
        · exact hg
        · exact hall h hh
      · right
        refine ⟨k + 1, m, ?_, ?_⟩
        · simp only [hits, checks, List.map_cons, List.replicate_succ, List.cons_append] at hk ⊢
          rw [hk, hg]
        · simpa [run] using hd
    · right
      have hn := tick_no_goal_of_hit ids base s hb0 h1 hg
      obtain ⟨e1, e2⟩ := run_of_no_goal ids rest (tick ids base s) hrest hn
      refine ⟨0, rest.length, ?_, ?_⟩
      · simp only [hits, checks, List.map_cons, List.replicate_zero, List.nil_append] at e1 ⊢
        rw [e1, hg]
      · intro st hst
        simp only [run, List.drop_zero, List.mem_cons] at hst
        rcases hst with rfl | hst
        · exact hn
        · exact e2 st hst

theorem checks_goal_subset (ids : ObjectIds) (bases : List (MazeGame → MazeGame)) (s : MazeGame)
    (hb : ∀ base ∈ bases, BaseInert ids base) :
    ∀ b ∈ checks ids bases s, ∀ x y : Int, get_obj ids b x y = GOAL → get_obj ids s x y = GOAL := by
  induction bases generalizing s with
  | nil => intro b hb; simp [checks] at hb
  | cons base rest ih =>
    have hb0 := hb base (List.mem_cons_self _ _)
    intro b hbm x y h
    simp only [checks, List.mem_cons] at hbm
    rcases hbm with rfl | hbm
    · exact checked_goal_subset ids base s hb0 x y h
    · exact tick_goal_subset ids base s hb0 x y
        (ih (tick ids base s) (fun c hc => hb c (List.mem_cons_of_mem _ hc)) b hbm x y h)

/-- When base steps never remove a goal, the first tick at which the agent's cell is a
goal cell of the initial world finds the goal there. -/
theorem first_visit_is_hit (ids : ObjectIds) (pre : List MazeGame) :
    ∀ (bases : List (MazeGame → MazeGame)) (s : MazeGame) (p : Int × Int),
      (∀ base ∈ bases, ∀ (t : MazeGame) (x y : Int),
        get_obj ids t x y = GOAL → get_obj ids (base t) x y = GOAL) →
      get_obj ids s p.1 p.2 = GOAL →
      ∀ (b : MazeGame) (post : List MazeGame), checks ids bases s = pre ++ b :: post →
        (∀ c ∈ pre, (truncToInt c.agent.x, truncToInt c.agent.y) ≠ p) →
        (truncToInt b.agent.x, truncToInt b.agent.y) = p → goal_at_agent ids b = true := by
  induction pre with
  | nil =>
    intro bases s p hkeep hp b post hc _ hb
    cases bases with
    | nil => simp [checks] at hc
    | cons base rest =>
      simp only [checks, List.nil_append, List.cons.injEq] at hc
      obtain ⟨rfl, -⟩ := hc
      rw [goal_at_agent_eq_true]
      have := hkeep base (List.mem_cons_self _ _) (begin_tick s) p.1 p.2 hp
      have e1 : truncToInt (checked_state base s).agent.x = p.1 := by rw [← hb]
      have e2 : truncToInt (checked_state base s).agent.y = p.2 := by rw [← hb]
      rw [e1, e2]
      exact this
  | cons c pre ih =>
    intro bases s p hkeep hp b post hc hpre hb
    cases bases with
    | nil => simp [checks] at hc
    | cons base rest =>
      simp only [checks, List.cons_append, List.cons.injEq] at hc
      obtain ⟨hc0, hc1⟩ := hc
      have hcp : (truncToInt (checked_state base s).agent.x,
          truncToInt (checked_state base s).agent.y) ≠ p := by
        rw [hc0]; exact hpre c (List.mem_cons_self _ _)
      have hchk : get_obj ids (checked_state base s) p.1 p.2 = GOAL :=
        hkeep base (List.mem_cons_self _ _) (begin_tick s) p.1 p.2 hp
      have hnext : get_obj ids (tick ids base s) p.1 p.2 = GOAL := by
        rw [tick_eq]
        cases hg : goal_at_agent ids (checked_state base s)
        · rw [get_obj_step_of_no_goal ids _ hg]; exact hchk
        · rw [get_obj_step_of_goal ids _ hg, if_neg]
          · exact hchk
          · rintro ⟨h1, h2⟩
            exact hcp (Prod.ext h1.symm h2.symm)
      exact ih rest (tick ids base s) p
        (fun base1 hm => hkeep base1 (List.mem_cons_of_mem _ hm)) hnext b post hc1
        (fun c1 hm => hpre c1 (List.mem_cons_of_mem _ hm)) hb

theorem at_most_one_of_unique (ids : ObjectIds) (s : MazeGame)
    (h1 : ∃! p : Int × Int, get_obj ids s p.1 p.2 = GOAL) : AtMostOneGoal ids s := by
  obtain ⟨p, -, hu⟩ := h1
  intro x y x1 y1 h h2
  have e1 := hu (x, y) h
  have e2 := hu (x1, y1) h2
  have : (x, y) = (x1, y1) := e1.trans e2.symm
  exact ⟨congrArg Prod.fst this, congrArg Prod.snd this⟩

end MazeGame

/-! ## Reward at most once and termination (C3, C4) -/

namespace MazeGame

/-- C3: over every run of ticks from a world with exactly one `GOAL` cell, with base
steps that neither write `GOAL` cells nor add reward, the reward of every tick is 10 if
the test of line 172 found the goal and 0 otherwise; the test succeeds on at most one
tick, after which no state of the run holds a `GOAL` cell; on that tick the agent's
truncated cell is the goal's cell; and (when base steps do not remove the goal either)
it is the first tick on which the agent's truncated cell equals the goal's cell. -/
theorem reward_granted_at_most_once (ids : ObjectIds) (bases : List (MazeGame → MazeGame))
    (s0 : MazeGame) (hb : ∀ base ∈ bases, BaseInert ids base)
    (h1 : ∃! p : Int × Int, get_obj ids s0 p.1 p.2 = GOAL) :
    rewards ids bases s0 =
        (hits ids bases s0).map (fun h => if h = true then (10 : ℚ) else 0) ∧
    ((∀ h ∈ hits ids bases s0, h = false) ∨
      ∃ k m : Nat,
        hits ids bases s0 = List.replicate k false ++ true :: List.replicate m false ∧
        ∀ st ∈ (run ids bases s0).drop k, ∀ x y : Int, get_obj ids st x y ≠ GOAL) ∧
    (∀ p : Int × Int, get_obj ids s0 p.1 p.2 = GOAL →
      ∀ b ∈ checks ids bases s0, goal_at_agent ids b = true →
        (truncToInt b.agent.x, truncToInt b.agent.y) = p) ∧
    (∀ p : Int × Int, get_obj ids s0 p.1 p.2 = GOAL →
      (∀ base ∈ bases, ∀ (t : MazeGame) (x y : Int),
        get_obj ids t x y = GOAL → get_obj ids (base t) x y = GOAL) →
      ∀ (pre : List MazeGame) (b : MazeGame) (post : List MazeGame),
        checks ids bases s0 = pre ++ b :: post →
        (∀ c ∈ pre, (truncToInt c.agent.x, truncToInt c.agent.y) ≠ p) →
        (truncToInt b.agent.x, truncToInt b.agent.y) = p → goal_at_agent ids b = true) := by
  have hone := at_most_one_of_unique ids s0 h1
  refine ⟨rewards_eq_map_hits ids bases s0 hb, hits_pattern ids bases s0 hb hone, ?_, ?_⟩
  · intro p hp b hbm hg
    have h2 := checks_goal_subset ids bases s0 hb b hbm _ _ ((goal_at_agent_eq_true ids b).mp hg)
    obtain ⟨e1, e2⟩ := hone _ _ _ _ h2 hp
    exact Prod.ext e1 e2
  · intro p hp hkeep pre b post hc hpre hbp
    exact first_visit_is_hit ids pre bases s0 p hkeep hp b post hc hpre hbp

theorem sample_unique_goal (x y r : ℚ) :
    ∃! p : Int × Int, get_obj sampleIds (sampleGame x y r) p.1 p.2 = GOAL := by
  refine ⟨(0, 2), rfl, ?_⟩
  rintro ⟨a, b⟩ h
  have hc := contains_of_get_obj_goal sampleIds _ _ _ h
  rw [Grid.contains_iff] at hc
  obtain ⟨h1, h2, h3, h4⟩ := hc
  have h2 : a < 3 := h2
  have h4 : b < 3 := h4
  have hv : sampleWorld.get a b = GOAL := by
    have : get_obj sampleIds (sampleGame x y r) a b = sampleWorld.get a b := by
      unfold get_obj
      rw [if_pos]
      · rfl
      · exact (Grid.contains_iff _ _ _).mpr ⟨h1, h2, h3, h4⟩
    rw [← this]; exact h
  interval_cases a <;> interval_cases b <;> first | rfl | (exact absurd hv (by decide))

theorem sampleMove_inert (x y : ℚ) : BaseInert sampleIds (sampleMove x y) :=
  fun _ => ⟨rfl, fun _ _ h => h⟩

theorem id_inert : BaseInert sampleIds id :=
  fun _ => ⟨rfl, fun _ _ h => h⟩

/-- Witness of C3: the agent waits in the start room, moves onto the goal of the sample
world, then stays there; the rewards of the three ticks are 0, 10, 0. -/
theorem reward_granted_at_most_once_witness :
    (∃! p : Int × Int, get_obj sampleIds (sampleGame (1 / 2) (1 / 2) 0) p.1 p.2 = GOAL) ∧
    rewards sampleIds [id, sampleMove (1 / 2) (5 / 2), id] (sampleGame (1 / 2) (1 / 2) 0) =
      (hits sampleIds [id, sampleMove (1 / 2) (5 / 2), id] (sampleGame (1 / 2) (1 / 2) 0)).map
        (fun h => if h = true then (10 : ℚ) else 0) :=
  ⟨sample_unique_goal _ _ _,
    (reward_granted_at_most_once sampleIds [id, sampleMove (1 / 2) (5 / 2), id]
      (sampleGame (1 / 2) (1 / 2) 0)
      (by
        intro base hm
        simp only [List.mem_cons, List.mem_singleton, List.not_mem_nil, or_false] at hm
        rcases hm with rfl | rfl | rfl
        · exact id_inert
        · exact sampleMove_inert _ _
        · exact id_inert)
      (sample_unique_goal _ _ _)).1⟩

/-- C4 (amended): after a goal-collecting `game_step`, a
further `game_step` with a fresh per-tick reward of 0 reports `done = true` exactly when
that further step itself finds `GOAL` under the agent; when the collected goal was the
only one and the further base step writes no `GOAL` cell, it reports `done = false`.
So `done` is recomputed on every tick and does not remain true. -/
theorem done_after_further_step (ids : ObjectIds) (base base2 : MazeGame → MazeGame)
    (s : MazeGame)
    (hgoal : get_obj ids (base s) (truncToInt (base s).agent.x)
      (truncToInt (base s).agent.y) = GOAL)
    (hfresh : (checked_state base2 (game_step ids base s)).step_data.reward = 0) :
    (tick ids base2 (game_step ids base s)).step_data.done =
        goal_at_agent ids (checked_state base2 (game_step ids base s)) ∧
    (AtMostOneGoal ids (base s) →
      (∀ x y : Int, get_obj ids (checked_state base2 (game_step ids base s)) x y = GOAL →
        get_obj ids (game_step ids base s) x y = GOAL) →
      (tick ids base2 (game_step ids base s)).step_data.done = false) := by
  have key : (tick ids base2 (game_step ids base s)).step_data.done =
      goal_at_agent ids (checked_state base2 (game_step ids base s)) := by
    rw [tick_eq, step_done]
    cases hg : goal_at_agent ids (checked_state base2 (game_step ids base s))
    · rw [step_reward_of_no_goal ids _ hg, hfresh]; simp
    · rw [step_reward_of_goal ids _ hg, hfresh]; simp [REWARD]
  refine ⟨key, ?_⟩
  intro hone hsub
  rw [key, goal_at_agent_eq_false]
  intro h
  have h2 := hsub _ _ h
  have hg := (goal_at_agent_eq_true ids (base s)).mpr hgoal
  unfold game_step at h2
  rw [get_obj_step_of_goal ids _ hg] at h2
  split at h2
  · exact ids.space_ne_goal h2
  · rename_i hxy
    exact hxy (hone _ _ _ _ h2 hgoal)

/-- C4 (counterexample): in the sample world the agent collects the goal (`done = true`);
the next `game_step`, with a fresh reward of 0, reports `done = false`. -/
theorem done_not_absorbing :
    get_obj sampleIds (id (sampleGame (1 / 2) (5 / 2) 0))
        (truncToInt (id (sampleGame (1 / 2) (5 / 2) 0)).agent.x)
        (truncToInt (id (sampleGame (1 / 2) (5 / 2) 0)).agent.y) = GOAL ∧
    (game_step sampleIds id (sampleGame (1 / 2) (5 / 2) 0)).step_data.done = true ∧
    (game_step sampleIds id
      (begin_tick (game_step sampleIds id (sampleGame (1 / 2) (5 / 2) 0)))).step_data.done
        = false := by
  have hon := sample_on_goal 0
  have hg := (goal_at_agent_eq_true sampleIds _).mpr hon
  have hd : (game_step sampleIds id (sampleGame (1 / 2) (5 / 2) 0)).step_data.done = true := by
    unfold game_step
    rw [game_step_maze_of_goal sampleIds _ hg]
    simp [REWARD, sampleGame]
  refine ⟨hon, hd, ?_⟩
  have hno : goal_at_agent sampleIds
      (id (begin_tick (game_step sampleIds id (sampleGame (1 / 2) (5 / 2) 0)))) = false := by
    rw [goal_at_agent_eq_false]
    intro h
    have h2 : get_obj sampleIds (game_step_maze sampleIds (id (sampleGame (1 / 2) (5 / 2) 0)))
        (truncToInt (id (sampleGame (1 / 2) (5 / 2) 0)).agent.x)
        (truncToInt (id (sampleGame (1 / 2) (5 / 2) 0)).agent.y) = GOAL := by
      have ex : (id (begin_tick (game_step sampleIds id (sampleGame (1 / 2) (5 / 2) 0)))).agent.x
          = (id (sampleGame (1 / 2) (5 / 2) 0)).agent.x := by
        show (game_step_maze sampleIds _).agent.x = _
        rw [game_step_maze_of_goal sampleIds _ hg]
        exact after_orientation_x _
      have ey : (id (begin_tick (game_step sampleIds id (sampleGame (1 / 2) (5 / 2) 0)))).agent.y
          = (id (sampleGame (1 / 2) (5 / 2) 0)).agent.y := by
        show (game_step_maze sampleIds _).agent.y = _
        rw [game_step_maze_of_goal sampleIds _ hg]
        exact after_orientation_y _
      rw [ex, ey] at h
      exact h
    rw [get_obj_step_of_goal sampleIds _ hg, if_pos ⟨rfl, rfl⟩] at h2
    exact sampleIds.space_ne_goal h2
  show (game_step_maze sampleIds
    (id (begin_tick (game_step sampleIds id (sampleGame (1 / 2) (5 / 2) 0))))).step_data.done = false
  rw [game_step_maze_of_no_goal sampleIds _ hno]
  simp [begin_tick]

/-- Witness of C4 (amended): the run of the counterexample; the second step reports
`done = false`. -/
theorem done_after_further_step_witness :
    (tick sampleIds id (game_step sampleIds id (sampleGame (1 / 2) (5 / 2) 0))).step_data.done
      = false := by
  have hon := sample_on_goal 0
  exact (done_after_further_step sampleIds id id (sampleGame (1 / 2) (5 / 2) 0) hon rfl).2
    (at_most_one_of_unique sampleIds _ (sample_unique_goal _ _ _)) (fun _ _ h => h)

end MazeGame

/-! ## Lemmas on the reset -/

namespace MazeGame

theorem randn_range (g : RandGen) (n : Int) (hn : 0 < n) :
    0 ≤ (g.randn n).1 ∧ (g.randn n).1 < n := by
  unfold RandGen.randn
  cases g.tape with
  | nil => exact ⟨le_refl _, hn⟩
  | cons t ts => exact ⟨Int.emod_nonneg _ (by omega), Int.emod_lt_of_pos _ hn⟩

/-- The draw bound, the maze dimension and the margin of a reset over a world of side at
least 3. -/
theorem reset_arith (world_dim r : Int) (hw : 3 ≤ world_dim) (h0 : 0 ≤ r)
    (h1 : r < Int.tdiv (world_dim - 1) 2) :
    maze_dim_of_draw r % 2 = 1 ∧ 3 ≤ maze_dim_of_draw r ∧ maze_dim_of_draw r ≤ world_dim ∧
      0 ≤ margin_of world_dim (maze_dim_of_draw r) ∧
      margin_of world_dim (maze_dim_of_draw r) + maze_dim_of_draw r ≤ world_dim := by
  rw [Int.tdiv_eq_ediv (by omega) (by norm_num)] at h1
  have hm : maze_dim_of_draw r ≤ world_dim := by unfold maze_dim_of_draw; omega
  unfold margin_of
  rw [Int.tdiv_eq_ediv (by omega) (by norm_num)]
  unfold maze_dim_of_draw at hm ⊢
  omega

theorem set_obj_frame (s : MazeGame) (x y v : Int) :
    ∃ g, set_obj s x y v = with_grid s g := ⟨_, rfl⟩

theorem set_obj_index_frame (s : MazeGame) (i v : Int) :
    ∃ g, set_obj_index s i v = with_grid s g := ⟨_, rfl⟩

/-- A loop whose body only writes the world grid only changes the world grid. -/
theorem foldl_frame {α : Type} (f : MazeGame → α → MazeGame)
    (hf : ∀ t a, ∃ g, f t a = with_grid t g) (l : List α) (s : MazeGame) :
    ∃ g, l.foldl f s = with_grid s g := by
  induction l generalizing s with
  | nil => exact ⟨s.grid, rfl⟩
  | cons a l ih =>
    simp only [List.foldl_cons]
    obtain ⟨g1, h1⟩ := hf s a
    obtain ⟨g2, h2⟩ := ih (f s a)
    exact ⟨g2, by rw [h2, h1]; rfl⟩

theorem set_obj_contains (s : MazeGame) (a b v x y : Int) :
    (set_obj s a b v).grid.contains x y = s.grid.contains x y :=
  Grid.set_contains _ _ _ _ _ _

/-- A loop whose body keeps the world dimensions keeps them. -/
theorem foldl_contains {α : Type} (f : MazeGame → α → MazeGame)
    (hf : ∀ t a x y, (f t a).grid.contains x y = t.grid.contains x y) (l : List α)
    (s : MazeGame) (x y : Int) : (l.foldl f s).grid.contains x y = s.grid.contains x y := by
  induction l generalizing s with
  | nil => rfl
  | cons a l ih =>
    simp only [List.foldl_cons]
    rw [ih (f s a), hf]

/-- The wall fill up to index `n`. -/
theorem fill_upto (ids : ObjectIds) (s : MazeGame) (n : Nat) :
    ((List.range n).foldl (fun (t : MazeGame) (i : Nat) => set_obj_index t (i : Int) ids.WALL_OBJ) s).grid.w
        = s.grid.w ∧
    ((List.range n).foldl (fun (t : MazeGame) (i : Nat) => set_obj_index t (i : Int) ids.WALL_OBJ) s).grid.h
        = s.grid.h ∧
    ∀ j : Int, 0 ≤ j → j < s.grid.w * s.grid.h →
      ((List.range n).foldl (fun (t : MazeGame) (i : Nat) => set_obj_index t (i : Int) ids.WALL_OBJ) s).grid.get_index j
        = if j < n then ids.WALL_OBJ else s.grid.get_index j := by
  induction n with
  | zero =>
    refine ⟨rfl, rfl, fun j h0 _ => ?_⟩
    have : ¬ j < ((0 : Nat) : Int) := by omega
    rw [if_neg this]
    rfl
  | succ n ih =>
    obtain ⟨hw, hh, hget⟩ := ih
    rw [List.range_succ, List.foldl_concat]
    refine ⟨?_, ?_, ?_⟩
    · show (Grid.set_index _ _ _).w = _
      rw [Grid.set_index_w, hw]
    · show (Grid.set_index _ _ _).h = _
      rw [Grid.set_index_h, hh]
    · intro j h0 h1
      show (Grid.set_index _ _ _).get_index j = _
      rw [Grid.get_index_set_index _ _ _ _ (by rw [hw, hh]; exact ⟨h0, h1⟩), hget j h0 h1]
      by_cases hj : j = (n : Int)
      · have : j < ((n + 1 : Nat) : Int) := by omega
        rw [if_pos hj, if_pos this]
      · by_cases hlt : j < (n : Int)
        · have : j < ((n + 1 : Nat) : Int) := by omega
          rw [if_neg hj, if_pos hlt, if_pos this]
        · have : ¬ j < ((n + 1 : Nat) : Int) := by omega
          rw [if_neg hj, if_neg hlt, if_neg this]

/-- After the wall fill every cell reads `WALL_OBJ`. -/
theorem fill_walls_get_obj (ids : ObjectIds) (s : MazeGame)
    (hgs : s.grid_size = s.grid.w * s.grid.h) (x y : Int) :
    get_obj ids (fill_walls ids s) x y = ids.WALL_OBJ := by
  obtain ⟨hw, hh, hget⟩ := fill_upto ids s s.grid_size.toNat
  unfold get_obj
  split
  · rename_i hc
    have hc2 : s.grid.contains x y = true := by
      rw [Grid.contains_iff] at hc ⊢
      unfold fill_walls at hc
      rw [hw, hh] at hc
      exact hc
    have hb := Grid.to_index_bounds s.grid x y hc2
    unfold fill_walls Grid.get
    have e : Grid.to_index ((List.range s.grid_size.toNat).foldl
        (fun (t : MazeGame) (i : Nat) => set_obj_index t (i : Int) ids.WALL_OBJ) s).grid x y = s.grid.to_index x y := by
      unfold Grid.to_index; rw [hw]
    rw [e, hget _ hb.1 hb.2, if_pos]
    omega
  · rfl

theorem fill_walls_contains (ids : ObjectIds) (s : MazeGame) (x y : Int) :
    (fill_walls ids s).grid.contains x y = s.grid.contains x y := by
  obtain ⟨hw, hh, -⟩ := fill_upto ids s s.grid_size.toNat
  unfold fill_walls Grid.contains
  rw [hw, hh]

/-- One row of the maze copy: the cells `(a, margin + j)` for `j < m`. -/
theorem copy_row_get_obj (ids : ObjectIds) (f : Nat → Int) (a margin : Int) (s : MazeGame)
    (m : Nat) (x y : Int) :
    get_obj ids ((List.range m).foldl
        (fun (u : MazeGame) (j : Nat) => set_obj u a (margin + (j : Int)) (f j)) s) x y =
      if s.grid.contains x y = true ∧ x = a ∧ margin ≤ y ∧ y < margin + (m : Int) then
        f (y - margin).toNat
      else get_obj ids s x y := by
  induction m with
  | zero =>
    have : ¬ (s.grid.contains x y = true ∧ x = a ∧ margin ≤ y ∧ y < margin + ((0 : Nat) : Int)) := by
      rintro ⟨-, -, h1, h2⟩; omega
    rw [if_neg this]; rfl
  | succ m ih =>
    rw [List.range_succ, List.foldl_concat, get_obj_set_obj, ih]
    have hc : ((List.range m).foldl
        (fun (u : MazeGame) (j : Nat) => set_obj u a (margin + (j : Int)) (f j)) s).grid.contains
          a (margin + (m : Int)) = s.grid.contains a (margin + (m : Int)) :=
      foldl_contains _ (fun t j x y => set_obj_contains t _ _ _ x y) _ _ _ _
    rw [hc]
    by_cases h1 : s.grid.contains a (margin + (m : Int)) = true ∧ x = a ∧ y = margin + (m : Int)
    · obtain ⟨h1a, rfl, rfl⟩ := h1
      rw [if_pos ⟨h1a, rfl, rfl⟩, if_pos ⟨h1a, rfl, by omega, by push_cast; omega⟩]
      congr 1
      omega
    · rw [if_neg h1]
      by_cases h2 : s.grid.contains x y = true ∧ x = a ∧ margin ≤ y ∧ y < margin + (m : Int)
      · rw [if_pos h2, if_pos ⟨h2.1, h2.2.1, h2.2.2.1, by push_cast; omega⟩]
      · rw [if_neg h2, if_neg]
        rintro ⟨h3, h4, h5, h6⟩
        push_cast at h6
        by_cases h7 : y = margin + (m : Int)
        · subst h7; subst h4
          exact h1 ⟨h3, rfl, rfl⟩
        · exact h2 ⟨h3, h4, h5, by omega⟩

/-- The maze copy over `n` columns of `m` cells each. -/
theorem copy_rows_get_obj (ids : ObjectIds) (F : Nat → Nat → Int) (margin : Int) (s : MazeGame)
    (n m : Nat) (x y : Int) :
    get_obj ids ((List.range n).foldl
        (fun (t : MazeGame) (i : Nat) =>
          (List.range m).foldl
            (fun (u : MazeGame) (j : Nat) =>
              set_obj u (margin + (i : Int)) (margin + (j : Int)) (F i j)) t) s) x y =
      if s.grid.contains x y = true ∧ margin ≤ x ∧ x < margin + (n : Int) ∧
          margin ≤ y ∧ y < margin + (m : Int) then
        F (x - margin).toNat (y - margin).toNat
      else get_obj ids s x y := by
  induction n with
  | zero =>
    have : ¬ (s.grid.contains x y = true ∧ margin ≤ x ∧ x < margin + ((0 : Nat) : Int) ∧
        margin ≤ y ∧ y < margin + (m : Int)) := by
      rintro ⟨-, h1, h2, -⟩; omega
    rw [if_neg this]; rfl
  | succ n ih =>
    rw [List.range_succ, List.foldl_concat]
    rw [copy_row_get_obj ids (fun j => F n j) (margin + (n : Int)) margin _ m x y, ih]
    have hc : ((List.range n).foldl
        (fun (t : MazeGame) (i : Nat) =>
          (List.range m).foldl
            (fun (u : MazeGame) (j : Nat) =>
              set_obj u (margin + (i : Int)) (margin + (j : Int)) (F i j)) t) s).grid.contains x y
          = s.grid.contains x y :=
      foldl_contains _
        (fun _ _ _ _ => foldl_contains _ (fun u _ x y => set_obj_contains u _ _ _ x y) _ _ _ _)
        _ _ _ _
    rw [hc]
    by_cases h1 : s.grid.contains x y = true ∧ x = margin + (n : Int) ∧ margin ≤ y ∧
        y < margin + (m : Int)
    · obtain ⟨h1a, h1b, h1c, h1d⟩ := h1
      rw [if_pos ⟨h1a, h1b, h1c, h1d⟩, if_pos ⟨h1a, by omega, by push_cast; omega, h1c, h1d⟩]
      congr 1
      omega
    · rw [if_neg h1]
      by_cases h2 : s.grid.contains x y = true ∧ margin ≤ x ∧ x < margin + (n : Int) ∧
          margin ≤ y ∧ y < margin + (m : Int)
      · rw [if_pos h2, if_pos ⟨h2.1, h2.2.1, by push_cast; omega, h2.2.2.2⟩]
      · rw [if_neg h2, if_neg]
        rintro ⟨h3, h4, h5, h6, h7⟩
        push_cast at h5
        by_cases h8 : x = margin + (n : Int)
        · exact h1 ⟨h3, h8, h6, h7⟩
        · exact h2 ⟨h3, h4, by omega, h6, h7⟩

/-- World cells after the maze copy. -/
theorem copy_maze_get_obj (ids : ObjectIds) (mg : MazeGen) (maze_dim margin : Int)
    (s : MazeGame) (hd : 0 ≤ maze_dim) (x y : Int) :
    get_obj ids (copy_maze ids mg maze_dim margin s) x y =
      if s.grid.contains x y = true ∧ in_maze_region maze_dim margin x y then
        mg.grid.get (x - margin + ids.MAZE_OFFSET) (y - margin + ids.MAZE_OFFSET)
      else get_obj ids s x y := by
  have h := copy_rows_get_obj ids
    (fun i j => mg.grid.get ((i : Int) + ids.MAZE_OFFSET) ((j : Int) + ids.MAZE_OFFSET))
    margin s maze_dim.toNat maze_dim.toNat x y
  have e : ((maze_dim.toNat : Nat) : Int) = maze_dim := Int.toNat_of_nonneg hd
  rw [e] at h
  unfold copy_maze
  rw [h]
  by_cases hc : s.grid.contains x y = true ∧ in_maze_region maze_dim margin x y
  · have hc2 : s.grid.contains x y = true ∧ margin ≤ x ∧ x < margin + maze_dim ∧
        margin ≤ y ∧ y < margin + maze_dim := hc
    rw [if_pos hc, if_pos hc2]
    obtain ⟨-, h1, h2, h3, h4⟩ := hc2
    show mg.grid.get (((x - margin).toNat : Int) + ids.MAZE_OFFSET)
      (((y - margin).toNat : Int) + ids.MAZE_OFFSET) = _
    rw [Int.toNat_of_nonneg (by omega), Int.toNat_of_nonneg (by omega)]
  · have hc2 : ¬ (s.grid.contains x y = true ∧ margin ≤ x ∧ x < margin + maze_dim ∧
        margin ≤ y ∧ y < margin + maze_dim) := hc
    rw [if_neg hc, if_neg hc2]

theorem copy_maze_contains (ids : ObjectIds) (mg : MazeGen) (maze_dim margin : Int)
    (s : MazeGame) (x y : Int) :
    (copy_maze ids mg maze_dim margin s).grid.contains x y = s.grid.contains x y :=
  foldl_contains _
    (fun _ _ _ _ => foldl_contains _ (fun u _ x y => set_obj_contains u _ _ _ x y) _ _ _ _)
    _ _ _ _

/-- A wall written outside the maze region changes no cell of the region. -/
theorem set_obj_wall_outside (ids : ObjectIds) (maze_dim margin : Int) (t : MazeGame)
    (a b : Int) (hab : ¬ in_maze_region maze_dim margin a b) (x y : Int) :
    get_obj ids (set_obj t a b ids.WALL_OBJ) x y = get_obj ids t x y ∨
      (get_obj ids (set_obj t a b ids.WALL_OBJ) x y = ids.WALL_OBJ ∧
        ¬ in_maze_region maze_dim margin x y) := by
  rw [get_obj_set_obj]
  split
  · rename_i h
    right
    obtain ⟨-, rfl, rfl⟩ := h
    exact ⟨rfl, hab⟩
  · left; rfl

theorem wall_outside_trans (ids : ObjectIds) (maze_dim margin : Int) (s t u : MazeGame)
    (h1 : ∀ x y, get_obj ids t x y = get_obj ids s x y ∨
      (get_obj ids t x y = ids.WALL_OBJ ∧ ¬ in_maze_region maze_dim margin x y))
    (h2 : ∀ x y, get_obj ids u x y = get_obj ids t x y ∨
      (get_obj ids u x y = ids.WALL_OBJ ∧ ¬ in_maze_region maze_dim margin x y)) :
    ∀ x y, get_obj ids u x y = get_obj ids s x y ∨
      (get_obj ids u x y = ids.WALL_OBJ ∧ ¬ in_maze_region maze_dim margin x y) := by
  intro x y
  rcases h2 x y with e2 | e2
  · rcases h1 x y with e1 | e1
    · left; rw [e2, e1]
    · right; exact ⟨by rw [e2, e1.1], e1.2⟩
  · right; exact e2

theorem stamp_frame_step_get_obj (ids : ObjectIds) (maze_dim margin : Int) (t : MazeGame)
    (i : Int) :
    ∀ x y, get_obj ids (stamp_frame_step ids maze_dim margin t i) x y = get_obj ids t x y ∨
      (get_obj ids (stamp_frame_step ids maze_dim margin t i) x y = ids.WALL_OBJ ∧
        ¬ in_maze_region maze_dim margin x y) := by
  unfold stamp_frame_step
  apply wall_outside_trans ids maze_dim margin _ _ _ _
    (set_obj_wall_outside ids maze_dim margin _ _ _ (by unfold in_maze_region; omega))
  apply wall_outside_trans ids maze_dim margin _ _ _ _
    (set_obj_wall_outside ids maze_dim margin _ _ _ (by unfold in_maze_region; omega))
  apply wall_outside_trans ids maze_dim margin _ _ _ _
    (set_obj_wall_outside ids maze_dim margin _ _ _ (by unfold in_maze_region; omega))
  exact set_obj_wall_outside ids maze_dim margin _ _ _ (by unfold in_maze_region; omega)

/-- The frame stamping leaves every cell as it was or writes a wall outside the maze
region. -/
theorem stamp_frame_get_obj (ids : ObjectIds) (maze_dim margin : Int) (s : MazeGame) :
    ∀ x y, get_obj ids (stamp_frame ids maze_dim margin s) x y = get_obj ids s x y ∨
      (get_obj ids (stamp_frame ids maze_dim margin s) x y = ids.WALL_OBJ ∧
        ¬ in_maze_region maze_dim margin x y) := by
  unfold stamp_frame
  split
  · generalize List.range (maze_dim + 2).toNat = l
    induction l generalizing s with
    | nil => intro x y; left; rfl
    | cons a l ih =>
      simp only [List.foldl_cons]
      exact wall_outside_trans ids maze_dim margin _ _ _
        (stamp_frame_step_get_obj ids maze_dim margin s a) (ih _)
  · intro x y; left; rfl

theorem stamp_frame_contains (ids : ObjectIds) (maze_dim margin : Int) (s : MazeGame)
    (x y : Int) :
    (stamp_frame ids maze_dim margin s).grid.contains x y = s.grid.contains x y := by
  unfold stamp_frame
  split
  · exact foldl_contains _
      (fun _ _ _ _ => by
        unfold stamp_frame_step
        simp only [set_obj_contains]) _ _ _ _
  · rfl

theorem fill_walls_frame (ids : ObjectIds) (s : MazeGame) :
    ∃ g, fill_walls ids s = with_grid s g :=
  foldl_frame _ (fun t _ => set_obj_index_frame t _ _) _ _

theorem copy_maze_frame (ids : ObjectIds) (mg : MazeGen) (maze_dim margin : Int)
    (s : MazeGame) : ∃ g, copy_maze ids mg maze_dim margin s = with_grid s g :=
  foldl_frame _ (fun t _ => foldl_frame _ (fun u _ => set_obj_frame u _ _ _) _ t) _ _

theorem stamp_frame_frame (ids : ObjectIds) (maze_dim margin : Int) (s : MazeGame) :
    ∃ g, stamp_frame ids maze_dim margin s = with_grid s g := by
  unfold stamp_frame
  split
  · exact foldl_frame _ (fun t _ => ⟨_, rfl⟩) _ _
  · exact ⟨s.grid, rfl⟩

/-- The three loops of the reset only change the world grid. -/
theorem reset_loops_frame (ids : ObjectIds) (mg : MazeGen) (maze_dim margin : Int)
    (s : MazeGame) :
    ∃ g, stamp_frame ids maze_dim margin (copy_maze ids mg maze_dim margin (fill_walls ids s))
      = with_grid s g := by
  obtain ⟨g1, h1⟩ := fill_walls_frame ids s
  obtain ⟨g2, h2⟩ := copy_maze_frame ids mg maze_dim margin (fill_walls ids s)
  obtain ⟨g3, h3⟩ := stamp_frame_frame ids maze_dim margin
    (copy_maze ids mg maze_dim margin (fill_walls ids s))
  exact ⟨g3, by rw [h3, h2, h1]; rfl⟩

/-- World cells after the three loops of the reset. -/
theorem reset_loops_get_obj (ids : ObjectIds) (mg : MazeGen) (maze_dim margin : Int)
    (s : MazeGame) (hgs : s.grid_size = s.grid.w * s.grid.h) (hd : 0 ≤ maze_dim) (x y : Int) :
    get_obj ids
        (stamp_frame ids maze_dim margin (copy_maze ids mg maze_dim margin (fill_walls ids s)))
        x y =
      if s.grid.contains x y = true ∧ in_maze_region maze_dim margin x y then
        mg.grid.get (x - margin + ids.MAZE_OFFSET) (y - margin + ids.MAZE_OFFSET)
      else ids.WALL_OBJ := by
  have hcopy := copy_maze_get_obj ids mg maze_dim margin (fill_walls ids s) hd x y
  rw [fill_walls_contains, fill_walls_get_obj ids s hgs] at hcopy
  rcases stamp_frame_get_obj ids maze_dim margin
    (copy_maze ids mg maze_dim margin (fill_walls ids s)) x y with h | ⟨h, hout⟩
  · rw [h, hcopy]
  · rw [h, if_neg (fun hc => hout hc.2)]

theorem reset_loops_contains (ids : ObjectIds) (mg : MazeGen) (maze_dim margin : Int)
    (s : MazeGame) (x y : Int) :
    (stamp_frame ids maze_dim margin
      (copy_maze ids mg maze_dim margin (fill_walls ids s))).grid.contains x y
      = s.grid.contains x y := by
  rw [stamp_frame_contains, copy_maze_contains, fill_walls_contains]

/-- The reset as one record update followed by a change of the world grid. -/
theorem game_reset_frame (ids : ObjectIds) (base : MazeGame → MazeGame) (ops : MazeGenOps)
    (s0 : MazeGame) :
    ∃ g, game_reset ids base ops s0 =
      with_grid
        { base s0 with
          grid_step := true
          maze_dim := maze_dim_of_draw (reset_draw (base s0)).1
          maze_gen := some (reset_maze_gen ops (base s0))
          rand_gen := (reset_maze_gen ops (base s0)).rand_gen
          center_agent := decide ((base s0).distribution_mode = ids.MemoryMode)
          agent :=
            { (base s0).agent with
              rx := 1 / 2
              ry := 1 / 2
              x := margin_of (base s0).world_dim (maze_dim_of_draw (reset_draw (base s0)).1) + 1 / 2
              y := margin_of (base s0).world_dim (maze_dim_of_draw (reset_draw (base s0)).1) + 1 / 2 } }
        g := by
  simp only [game_reset]
  exact reset_loops_frame ids _ _ _ _

theorem game_reset_maze_dim (ids : ObjectIds) (base : MazeGame → MazeGame) (ops : MazeGenOps)
    (s0 : MazeGame) :
    (game_reset ids base ops s0).maze_dim = maze_dim_of_draw (reset_draw (base s0)).1 := by
  obtain ⟨g, h⟩ := game_reset_frame ids base ops s0
  rw [h]; rfl

theorem game_reset_world_dim (ids : ObjectIds) (base : MazeGame → MazeGame) (ops : MazeGenOps)
    (s0 : MazeGame) : (game_reset ids base ops s0).world_dim = (base s0).world_dim := by
  obtain ⟨g, h⟩ := game_reset_frame ids base ops s0
  rw [h]; rfl

theorem game_reset_maze_gen (ids : ObjectIds) (base : MazeGame → MazeGame) (ops : MazeGenOps)
    (s0 : MazeGame) :
    (game_reset ids base ops s0).maze_gen = some (reset_maze_gen ops (base s0)) := by
  obtain ⟨g, h⟩ := game_reset_frame ids base ops s0
  rw [h]; rfl

theorem game_reset_contains (ids : ObjectIds) (base : MazeGame → MazeGame) (ops : MazeGenOps)
    (s0 : MazeGame) (x y : Int) :
    (game_reset ids base ops s0).grid.contains x y = (base s0).grid.contains x y := by
  simp only [game_reset]
  rw [reset_loops_contains]

/-- The maze dimension and the margin of a reset over a sized world. -/
theorem game_reset_arith (ids : ObjectIds) (base : MazeGame → MazeGame) (ops : MazeGenOps)
    (s0 : MazeGame) (hws : WorldSized (base s0)) :
    (game_reset ids base ops s0).maze_dim % 2 = 1 ∧
      3 ≤ (game_reset ids base ops s0).maze_dim ∧
      (game_reset ids base ops s0).maze_dim ≤ (game_reset ids base ops s0).world_dim ∧
      0 ≤ margin_of (game_reset ids base ops s0).world_dim (game_reset ids base ops s0).maze_dim ∧
      margin_of (game_reset ids base ops s0).world_dim (game_reset ids base ops s0).maze_dim
        + (game_reset ids base ops s0).maze_dim ≤ (base s0).world_dim := by
  rw [game_reset_maze_dim, game_reset_world_dim]
  have hn : 0 < Int.tdiv ((base s0).world_dim - 1) 2 := by
    rw [Int.tdiv_eq_ediv (by have := hws.1; omega) (by norm_num)]
    have := hws.1
    omega
  obtain ⟨h0, h1⟩ := randn_range (base s0).rand_gen _ hn
  exact reset_arith (base s0).world_dim _ hws.1 h0 h1

/-- World cells after a reset over a sized world. -/
theorem game_reset_get_obj (ids : ObjectIds) (base : MazeGame → MazeGame) (ops : MazeGenOps)
    (s0 : MazeGame) (hws : WorldSized (base s0)) (x y : Int) :
    get_obj ids (game_reset ids base ops s0) x y =
      if in_maze_region (game_reset ids base ops s0).maze_dim
          (margin_of (game_reset ids base ops s0).world_dim (game_reset ids base ops s0).maze_dim)
          x y then
        (reset_maze_gen ops (base s0)).grid.get
          (x - margin_of (game_reset ids base ops s0).world_dim
            (game_reset ids base ops s0).maze_dim + ids.MAZE_OFFSET)
          (y - margin_of (game_reset ids base ops s0).world_dim
            (game_reset ids base ops s0).maze_dim + ids.MAZE_OFFSET)
      else ids.WALL_OBJ := by
  obtain ⟨-, h3, -, h0, h1⟩ := game_reset_arith ids base ops s0 hws
  simp only [game_reset_maze_dim, game_reset_world_dim] at h3 h0 h1 ⊢
  obtain ⟨-, hgw, hgh, hgs⟩ := hws
  have key := reset_loops_get_obj ids (reset_maze_gen ops (base s0))
    (maze_dim_of_draw (reset_draw (base s0)).1)
    (margin_of (base s0).world_dim (maze_dim_of_draw (reset_draw (base s0)).1))
    { base s0 with
      grid_step := true
      maze_dim := maze_dim_of_draw (reset_draw (base s0)).1
      maze_gen := some (reset_maze_gen ops (base s0))
      rand_gen := (reset_maze_gen ops (base s0)).rand_gen
      center_agent := decide ((base s0).distribution_mode = ids.MemoryMode)
      agent :=
        { (base s0).agent with
          rx := 1 / 2
          ry := 1 / 2
          x := margin_of (base s0).world_dim (maze_dim_of_draw (reset_draw (base s0)).1) + 1 / 2
          y := margin_of (base s0).world_dim (maze_dim_of_draw (reset_draw (base s0)).1) + 1 / 2 } }
    (by show (base s0).grid_size = (base s0).grid.w * (base s0).grid.h; rw [hgs, hgw, hgh])
    (by omega) x y
  have e : get_obj ids (game_reset ids base ops s0) x y = _ := key
  rw [e]
  by_cases hr : in_maze_region (maze_dim_of_draw (reset_draw (base s0)).1)
      (margin_of (base s0).world_dim (maze_dim_of_draw (reset_draw (base s0)).1)) x y
  · have hc : (base s0).grid.contains x y = true := by
      rw [Grid.contains_iff, hgw, hgh]
      obtain ⟨a1, a2, a3, a4⟩ := hr
      exact ⟨by omega, by omega, by omega, by omega⟩
    rw [if_pos hr, if_pos ⟨hc, hr⟩]
  · rw [if_neg hr, if_neg (fun h => hr h.2)]

end MazeGame

/-! ## Maze dimension (C6) -/

namespace MazeGame

theorem draw_bound_values :
    Int.tdiv (15 - 1) 2 = 7 ∧ Int.tdiv (25 - 1) 2 = 12 ∧ Int.tdiv (31 - 1) 2 = 15 := by
  decide

/-- C6: for `world_dim` in {15, 25, 31}, the values `choose_world_dim` selects, and
every draw `r` with `0 <= r < (world_dim - 1) / 2`, the maze dimension `2 * r + 3` is odd
and lies in `[3, world_dim]`; the map from draws to maze dimensions is a bijection from
the draw range onto the odd integers of `[3, world_dim]`; for `world_dim = 25` the
dimensions are exactly 3, 5, ..., 25; the `maze_dim` that `game_reset` stores is
`2 * r + 3` for the very `r` that `randn((world_dim - 1) / 2)` returned on the random
source the base reset left, that `r` lies in the draw range, and the stored value is odd
and in `[3, world_dim]`; when the next raw value of the source is `t`, the stored value
is `2 * (t % ((world_dim - 1) / 2)) + 3`; and every odd `m` of `[3, world_dim]` is
stored by the reset whose source produces `(m - 3) / 2` next. -/
theorem game_reset_maze_dim_range (world_dim : Int)
    (hw : world_dim = 15 ∨ world_dim = 25 ∨ world_dim = 31) :
    (∀ r : Int, 0 ≤ r → r < Int.tdiv (world_dim - 1) 2 →
      maze_dim_of_draw r = 2 * r + 3 ∧
      maze_dim_of_draw r % 2 = 1 ∧ 3 ≤ maze_dim_of_draw r ∧ maze_dim_of_draw r ≤ world_dim) ∧
    Set.BijOn maze_dim_of_draw {r : Int | 0 ≤ r ∧ r < Int.tdiv (world_dim - 1) 2}
      {m : Int | m % 2 = 1 ∧ 3 ≤ m ∧ m ≤ world_dim} ∧
    (world_dim = 25 →
      (List.range (Int.tdiv (world_dim - 1) 2).toNat).map (fun r : Nat => maze_dim_of_draw r)
        = [3, 5, 7, 9, 11, 13, 15, 17, 19, 21, 23, 25]) ∧
    (∀ (ids : ObjectIds) (base : MazeGame → MazeGame) (ops : MazeGenOps) (s0 : MazeGame),
      (base s0).world_dim = world_dim →
      0 ≤ ((base s0).rand_gen.randn (Int.tdiv (world_dim - 1) 2)).1 ∧
      ((base s0).rand_gen.randn (Int.tdiv (world_dim - 1) 2)).1 < Int.tdiv (world_dim - 1) 2 ∧
      (game_reset ids base ops s0).maze_dim =
        2 * ((base s0).rand_gen.randn (Int.tdiv (world_dim - 1) 2)).1 + 3 ∧
      (game_reset ids base ops s0).maze_dim % 2 = 1 ∧
      3 ≤ (game_reset ids base ops s0).maze_dim ∧
      (game_reset ids base ops s0).maze_dim ≤ world_dim) ∧
    (∀ (ids : ObjectIds) (base : MazeGame → MazeGame) (ops : MazeGenOps) (s0 : MazeGame)
      (t : Nat) (rest : List Nat),
      (base s0).world_dim = world_dim → (base s0).rand_gen.tape = t :: rest →
      (game_reset ids base ops s0).maze_dim = 2 * ((t : Int) % Int.tdiv (world_dim - 1) 2) + 3) ∧
    (∀ (ids : ObjectIds) (base : MazeGame → MazeGame) (ops : MazeGenOps) (s0 : MazeGame)
      (m : Int) (rest : List Nat),
      (base s0).world_dim = world_dim → m % 2 = 1 → 3 ≤ m → m ≤ world_dim →
      (base s0).rand_gen.tape = ((m - 3) / 2).toNat :: rest →
      (game_reset ids base ops s0).maze_dim = m) ∧
    (∀ (ids : ObjectIds) (s : MazeGame),
      s.distribution_mode = ids.EasyMode ∨ s.distribution_mode = ids.HardMode ∨
        s.distribution_mode = ids.MemoryMode →
      (choose_world_dim ids s).world_dim = 15 ∨ (choose_world_dim ids s).world_dim = 25 ∨
        (choose_world_dim ids s).world_dim = 31) := by
  obtain ⟨e15, e25, e31⟩ := draw_bound_values
  have hn : Int.tdiv (world_dim - 1) 2 * 2 + 1 = world_dim := by
    rcases hw with rfl | rfl | rfl
    · rw [e15]; rfl
    · rw [e25]; rfl
    · rw [e31]; rfl
  have hpos : 0 < Int.tdiv (world_dim - 1) 2 := by omega
  have hstored : ∀ (ids : ObjectIds) (base : MazeGame → MazeGame) (ops : MazeGenOps)
      (s0 : MazeGame), (game_reset ids base ops s0).maze_dim =
        2 * ((base s0).rand_gen.randn (Int.tdiv ((base s0).world_dim - 1) 2)).1 + 3 := by
    intro ids base ops s0
    rw [game_reset_maze_dim]
    unfold maze_dim_of_draw reset_draw
    omega
  have htape : ∀ (ids : ObjectIds) (base : MazeGame → MazeGame) (ops : MazeGenOps)
      (s0 : MazeGame) (t : Nat) (rest : List Nat),
      (base s0).world_dim = world_dim → (base s0).rand_gen.tape = t :: rest →
      (game_reset ids base ops s0).maze_dim =
        2 * ((t : Int) % Int.tdiv (world_dim - 1) 2) + 3 := by
    intro ids base ops s0 t rest hwd ht
    rw [hstored, hwd]
    unfold RandGen.randn
    rw [ht]
  refine ⟨?_, ⟨?_, ?_, ?_⟩, ?_, ?_, htape, ?_, ?_⟩
  · intro r h0 h1
    unfold maze_dim_of_draw
    omega
  · intro r hr
    obtain ⟨h0, h1⟩ := hr
    show maze_dim_of_draw r % 2 = 1 ∧ 3 ≤ maze_dim_of_draw r ∧ maze_dim_of_draw r ≤ world_dim
    unfold maze_dim_of_draw
    omega
  · intro a _ b _ hab
    unfold maze_dim_of_draw at hab
    omega
  · intro m hm
    obtain ⟨h0, h1, h2⟩ := hm
    refine ⟨(m - 3) / 2, ⟨by omega, by omega⟩, ?_⟩
    show maze_dim_of_draw ((m - 3) / 2) = m
    unfold maze_dim_of_draw
    omega
  · rintro rfl
    rw [e25]
    decide
  · intro ids base ops s0 hwd
    obtain ⟨h0, h1⟩ := randn_range (base s0).rand_gen _ hpos
    have hs := hstored ids base ops s0
    rw [hwd] at hs
    refine ⟨h0, h1, hs, ?_, ?_, ?_⟩ <;> omega
  · intro ids base ops s0 m rest hwd hm1 hm3 hmw ht
    rw [htape ids base ops s0 _ rest hwd ht, Int.toNat_of_nonneg (by omega),
      Int.emod_eq_of_lt (by omega) (by omega)]
    omega
  · intro ids s hmode
    simp only [choose_world_dim]
    split_ifs with h1 h2 h3
    · exact Or.inl rfl
    · exact Or.inr (Or.inl rfl)
    · exact Or.inr (Or.inr rfl)
    · rcases hmode with h | h | h
      · exact absurd h h1
      · exact absurd h h2
      · exact absurd h h3

/-- Witness of C6: the hard mode, `world_dim = 25`; the random source produces the raw
value 23, the draw is `23 % 12 = 11`, and `game_reset` stores the maze dimension 25. -/
theorem game_reset_maze_dim_range_witness :
    ((25 : Int) = 15 ∨ (25 : Int) = 25 ∨ (25 : Int) = 31) ∧
      (id (sampleHardGame [23])).world_dim = 25 ∧
      (game_reset sampleIds id sampleOps (sampleHardGame [23])).maze_dim = 25 := by
  have h := (game_reset_maze_dim_range 25 (Or.inr (Or.inl rfl))).2.2.2.1
    sampleIds id sampleOps (sampleHardGame [23]) rfl
  refine ⟨Or.inr (Or.inl rfl), rfl, ?_⟩
  rw [h.2.2.1]
  decide

end MazeGame

/-! ## World composition (C8, C9) -/

namespace MazeGame

theorem margin_of_bounds (world_dim maze_dim : Int) (h : maze_dim ≤ world_dim) :
    2 * margin_of world_dim maze_dim ≤ world_dim - maze_dim ∧
      world_dim - maze_dim ≤ 2 * margin_of world_dim maze_dim + 1 := by
  unfold margin_of
  rw [Int.tdiv_eq_ediv (by omega) (by norm_num)]
  omega

/-- C8: after `game_reset` over a sized world, every cell `(margin + i, margin + j)` with
`0 <= i, j < maze_dim` is a world cell that equals the maze-grid cell read at
`(i + MAZE_OFFSET, j + MAZE_OFFSET)`; every cell outside the square
`[margin, margin + maze_dim)^2` reads `WALL_OBJ`; and when `margin > 0` every cell of
the one-cell frame around the square is a world cell that reads `WALL_OBJ`. -/
theorem game_reset_world_composition (ids : ObjectIds) (base : MazeGame → MazeGame)
    (ops : MazeGenOps) (s0 : MazeGame) (hws : WorldSized (base s0)) :
    ∃ mg : MazeGen, (game_reset ids base ops s0).maze_gen = some mg ∧
      (∀ i j : Int, 0 ≤ i → i < (game_reset ids base ops s0).maze_dim →
        0 ≤ j → j < (game_reset ids base ops s0).maze_dim →
        (game_reset ids base ops s0).grid.contains
          (margin_of (game_reset ids base ops s0).world_dim
            (game_reset ids base ops s0).maze_dim + i)
          (margin_of (game_reset ids base ops s0).world_dim
            (game_reset ids base ops s0).maze_dim + j) = true ∧
        get_obj ids (game_reset ids base ops s0)
          (margin_of (game_reset ids base ops s0).world_dim
            (game_reset ids base ops s0).maze_dim + i)
          (margin_of (game_reset ids base ops s0).world_dim
            (game_reset ids base ops s0).maze_dim + j)
          = mg.grid.get (i + ids.MAZE_OFFSET) (j + ids.MAZE_OFFSET)) ∧
      (∀ x y : Int,
        ¬ in_maze_region (game_reset ids base ops s0).maze_dim
          (margin_of (game_reset ids base ops s0).world_dim
            (game_reset ids base ops s0).maze_dim) x y →
        get_obj ids (game_reset ids base ops s0) x y = ids.WALL_OBJ) ∧
      (0 < margin_of (game_reset ids base ops s0).world_dim
          (game_reset ids base ops s0).maze_dim →
        ∀ x y : Int,
          margin_of (game_reset ids base ops s0).world_dim
            (game_reset ids base ops s0).maze_dim - 1 ≤ x →
          x ≤ margin_of (game_reset ids base ops s0).world_dim
            (game_reset ids base ops s0).maze_dim + (game_reset ids base ops s0).maze_dim →
          margin_of (game_reset ids base ops s0).world_dim
            (game_reset ids base ops s0).maze_dim - 1 ≤ y →
          y ≤ margin_of (game_reset ids base ops s0).world_dim
            (game_reset ids base ops s0).maze_dim + (game_reset ids base ops s0).maze_dim →
          ¬ in_maze_region (game_reset ids base ops s0).maze_dim
            (margin_of (game_reset ids base ops s0).world_dim
              (game_reset ids base ops s0).maze_dim) x y →
          (game_reset ids base ops s0).grid.contains x y = true ∧
            get_obj ids (game_reset ids base ops s0) x y = ids.WALL_OBJ) := by
  obtain ⟨-, h3, hle, h0, h1⟩ := game_reset_arith ids base ops s0 hws
  have hwd := game_reset_world_dim ids base ops s0
  obtain ⟨hm1, -⟩ := margin_of_bounds _ _ hle
  obtain ⟨hgw, hgh⟩ : (base s0).grid.w = (base s0).world_dim ∧
      (base s0).grid.h = (base s0).world_dim := ⟨hws.2.1, hws.2.2.1⟩
  refine ⟨reset_maze_gen ops (base s0), game_reset_maze_gen ids base ops s0, ?_, ?_, ?_⟩
  · intro i j hi0 hi1 hj0 hj1
    constructor
    · rw [game_reset_contains, Grid.contains_iff, hgw, hgh]
      exact ⟨by omega, by omega, by omega, by omega⟩
    · rw [game_reset_get_obj ids base ops s0 hws, if_pos ⟨by omega, by omega, by omega, by omega⟩]
      congr 1 <;> omega
  · intro x y hout
    rw [game_reset_get_obj ids base ops s0 hws, if_neg hout]
  · intro hpos x y hx0 hx1 hy0 hy1 hout
    constructor
    · rw [game_reset_contains, Grid.contains_iff, hgw, hgh]
      exact ⟨by omega, by omega, by omega, by omega⟩
    · rw [game_reset_get_obj ids base ops s0 hws, if_neg hout]

theorem sample_reset_sized : WorldSized (id sampleResetGame) :=
  ⟨by decide, rfl, rfl, rfl⟩

theorem sample_reset_margin :
    margin_of (game_reset sampleIds id sampleOps sampleResetGame).world_dim
      (game_reset sampleIds id sampleOps sampleResetGame).maze_dim = 1 := by
  rw [game_reset_world_dim, game_reset_maze_dim]
  decide

theorem sample_reset_maze_dim :
    (game_reset sampleIds id sampleOps sampleResetGame).maze_dim = 3 := by
  rw [game_reset_maze_dim]
  decide

/-- Witness of C8: the reset of the 5 by 5 sample world; the maze is 3 by 3 with margin 1,
the goal of the maze grid appears at world cell `(1, 3)` and the corner `(0, 0)` is a
wall. -/
theorem game_reset_world_composition_witness :
    WorldSized (id sampleResetGame) ∧
      get_obj sampleIds (game_reset sampleIds id sampleOps sampleResetGame) (1 + 0) (1 + 2)
        = GOAL ∧
      get_obj sampleIds (game_reset sampleIds id sampleOps sampleResetGame) 0 0
        = sampleIds.WALL_OBJ := by
  obtain ⟨mg, hmg, hcopy, hout, -⟩ :=
    game_reset_world_composition sampleIds id sampleOps sampleResetGame sample_reset_sized
  rw [game_reset_maze_gen] at hmg
  have hmg2 : mg = reset_maze_gen sampleOps (id sampleResetGame) := (Option.some.inj hmg).symm
  rw [sample_reset_margin, sample_reset_maze_dim] at hcopy hout
  refine ⟨sample_reset_sized, ?_, ?_⟩
  · rw [(hcopy 0 2 (by decide) (by decide) (by decide) (by decide)).2, hmg2]
    rfl
  · exact hout 0 0 (by unfold in_maze_region; omega)

/-- C9: after `game_reset` over a sized world, if the maze grid holds exactly one `GOAL`
in its `maze_dim` by `maze_dim` region, the world grid holds exactly one `GOAL` cell; it
lies in the maze sub-region, at margin plus the goal's maze-local coordinate. -/
theorem game_reset_single_goal (ids : ObjectIds) (base : MazeGame → MazeGame)
    (ops : MazeGenOps) (s0 : MazeGame) (hws : WorldSized (base s0)) (mg : MazeGen)
    (hmg : (game_reset ids base ops s0).maze_gen = some mg)
    (hone : ∃! q : Int × Int,
      (0 ≤ q.1 ∧ q.1 < (game_reset ids base ops s0).maze_dim ∧
        0 ≤ q.2 ∧ q.2 < (game_reset ids base ops s0).maze_dim) ∧
      mg.grid.get (q.1 + ids.MAZE_OFFSET) (q.2 + ids.MAZE_OFFSET) = GOAL) :
    (∃! p : Int × Int, get_obj ids (game_reset ids base ops s0) p.1 p.2 = GOAL) ∧
    (∀ q : Int × Int,
      0 ≤ q.1 → q.1 < (game_reset ids base ops s0).maze_dim →
      0 ≤ q.2 → q.2 < (game_reset ids base ops s0).maze_dim →
      mg.grid.get (q.1 + ids.MAZE_OFFSET) (q.2 + ids.MAZE_OFFSET) = GOAL →
      get_obj ids (game_reset ids base ops s0)
        (margin_of (game_reset ids base ops s0).world_dim
          (game_reset ids base ops s0).maze_dim + q.1)
        (margin_of (game_reset ids base ops s0).world_dim
          (game_reset ids base ops s0).maze_dim + q.2) = GOAL) ∧
    (∀ x y : Int, get_obj ids (game_reset ids base ops s0) x y = GOAL →
      in_maze_region (game_reset ids base ops s0).maze_dim
        (margin_of (game_reset ids base ops s0).world_dim
          (game_reset ids base ops s0).maze_dim) x y ∧
      (game_reset ids base ops s0).grid.contains x y = true) := by
  rw [game_reset_maze_gen] at hmg
  have hmg2 : reset_maze_gen ops (base s0) = mg := Option.some.inj hmg
  have hget := game_reset_get_obj ids base ops s0 hws
  rw [hmg2] at hget
  have hfwd : ∀ q : Int × Int,
      0 ≤ q.1 → q.1 < (game_reset ids base ops s0).maze_dim →
      0 ≤ q.2 → q.2 < (game_reset ids base ops s0).maze_dim →
      mg.grid.get (q.1 + ids.MAZE_OFFSET) (q.2 + ids.MAZE_OFFSET) = GOAL →
      get_obj ids (game_reset ids base ops s0)
        (margin_of (game_reset ids base ops s0).world_dim
          (game_reset ids base ops s0).maze_dim + q.1)
        (margin_of (game_reset ids base ops s0).world_dim
          (game_reset ids base ops s0).maze_dim + q.2) = GOAL := by
    intro q a1 a2 a3 a4 hq
    rw [hget, if_pos ⟨by omega, by omega, by omega, by omega⟩, ← hq]
    congr 1 <;> omega
  have hback : ∀ x y : Int, get_obj ids (game_reset ids base ops s0) x y = GOAL →
      in_maze_region (game_reset ids base ops s0).maze_dim
        (margin_of (game_reset ids base ops s0).world_dim
          (game_reset ids base ops s0).maze_dim) x y ∧
      mg.grid.get
        (x - margin_of (game_reset ids base ops s0).world_dim
          (game_reset ids base ops s0).maze_dim + ids.MAZE_OFFSET)
        (y - margin_of (game_reset ids base ops s0).world_dim
          (game_reset ids base ops s0).maze_dim + ids.MAZE_OFFSET) = GOAL := by
    intro x y h
    rw [hget] at h
    split at h
    · rename_i hr
      exact ⟨hr, h⟩
    · exact absurd h ids.wall_ne_goal
  obtain ⟨q, ⟨⟨a1, a2, a3, a4⟩, hq⟩, huniq⟩ := hone
  refine ⟨⟨(margin_of (game_reset ids base ops s0).world_dim
      (game_reset ids base ops s0).maze_dim + q.1,
    margin_of (game_reset ids base ops s0).world_dim
      (game_reset ids base ops s0).maze_dim + q.2), hfwd q a1 a2 a3 a4 hq, ?_⟩, hfwd, ?_⟩
  · rintro ⟨x, y⟩ h
    obtain ⟨⟨b1, b2, b3, b4⟩, hv⟩ := hback x y h
    have := huniq (x - margin_of (game_reset ids base ops s0).world_dim
        (game_reset ids base ops s0).maze_dim,
      y - margin_of (game_reset ids base ops s0).world_dim
        (game_reset ids base ops s0).maze_dim)
      ⟨⟨by show 0 ≤ x - _; omega, by show x - _ < _; omega, by show 0 ≤ y - _; omega,
        by show y - _ < _; omega⟩, hv⟩
    have e1 : x - margin_of (game_reset ids base ops s0).world_dim
        (game_reset ids base ops s0).maze_dim = q.1 := congrArg Prod.fst this
    have e2 : y - margin_of (game_reset ids base ops s0).world_dim
        (game_reset ids base ops s0).maze_dim = q.2 := congrArg Prod.snd this
    exact Prod.ext (by show x = _; omega) (by show y = _; omega)
  · intro x y h
    exact ⟨(hback x y h).1, contains_of_get_obj_goal ids _ x y h⟩

theorem sample_maze_unique_goal :
    ∃! q : Int × Int,
      (0 ≤ q.1 ∧ q.1 < (game_reset sampleIds id sampleOps sampleResetGame).maze_dim ∧
        0 ≤ q.2 ∧ q.2 < (game_reset sampleIds id sampleOps sampleResetGame).maze_dim) ∧
      (reset_maze_gen sampleOps (id sampleResetGame)).grid.get (q.1 + sampleIds.MAZE_OFFSET)
        (q.2 + sampleIds.MAZE_OFFSET) = GOAL := by
  rw [sample_reset_maze_dim]
  refine ⟨(0, 2), ⟨⟨by decide, by decide, by decide, by decide⟩, rfl⟩, ?_⟩
  rintro ⟨a, b⟩ ⟨⟨h1, h2, h3, h4⟩, hv⟩
  have h1 : 0 ≤ a := h1
  have h2 : a < 3 := h2
  have h3 : 0 ≤ b := h3
  have h4 : b < 3 := h4
  have hv : sampleMazeGrid.get (a + 1) (b + 1) = GOAL := hv
  interval_cases a <;> interval_cases b <;> first | rfl | (exact absurd hv (by decide))

/-- Witness of C9: the reset of the 5 by 5 sample world, whose maze grid holds its only
goal at maze-local `(0, 2)`. -/
theorem game_reset_single_goal_witness :
    WorldSized (id sampleResetGame) ∧
      ∃! p : Int × Int,
        get_obj sampleIds (game_reset sampleIds id sampleOps sampleResetGame) p.1 p.2 = GOAL :=
  ⟨sample_reset_sized,
    (game_reset_single_goal sampleIds id sampleOps sampleResetGame sample_reset_sized
      (reset_maze_gen sampleOps (id sampleResetGame))
      (game_reset_maze_gen sampleIds id sampleOps sampleResetGame)
      sample_maze_unique_goal).1⟩

end MazeGame

/-! ## Checkpoint round trip (C10) -/

theorem read_int_at (l : List Int) (v : Int) (r : List Int) :
    ReadBuffer.read_int { data := l ++ v :: r, pos := l.length } =
      some (v, { data := l ++ v :: r, pos := l.length + 1 }) := by
  have h : (l ++ v :: r).get? l.length = some v := by
    rw [List.get?_eq_getElem?, List.getElem?_append_right (le_refl _)]
    simp
  simp only [ReadBuffer.read_int, h]

namespace MazeGame

/-- C10: `MazeGame::serialize` appends to what the base wrote exactly two integers,
`maze_dim` then `world_dim`; when the base `deserialize`, run on the written buffer from
the position where `serialize` started, consumes exactly what the base `serialize`
wrote, `MazeGame::deserialize` succeeds, consumes the whole buffer, and restores
`maze_dim` and `world_dim` to the serialized values (in that order). -/
theorem deserialize_serialize (baseS : MazeGame → WriteBuffer → WriteBuffer)
    (baseD : MazeGame → ReadBuffer → Option (MazeGame × ReadBuffer))
    (s t t1 : MazeGame) (wb : WriteBuffer)
    (hbase : baseD t { data := (serialize baseS s wb).data, pos := wb.data.length } =
      some (t1, { data := (serialize baseS s wb).data, pos := (baseS s wb).data.length })) :
    (serialize baseS s wb).data = (baseS s wb).data ++ [s.maze_dim, s.world_dim] ∧
    ∃ (t2 : MazeGame) (rb : ReadBuffer),
      deserialize baseD t { data := (serialize baseS s wb).data, pos := wb.data.length }
        = some (t2, rb) ∧
      t2.maze_dim = s.maze_dim ∧ t2.world_dim = s.world_dim ∧
      t2 = { t1 with maze_dim := s.maze_dim, world_dim := s.world_dim } ∧
      rb.pos = (serialize baseS s wb).data.length := by
  have hser : (serialize baseS s wb).data = (baseS s wb).data ++ [s.maze_dim, s.world_dim] := by
    simp [serialize, WriteBuffer.write_int]
  refine ⟨hser, ?_⟩
  unfold deserialize
  rw [hbase]
  simp only []
  rw [hser]
  have e1 := read_int_at (baseS s wb).data s.maze_dim [s.world_dim]
  have e2 := read_int_at ((baseS s wb).data ++ [s.maze_dim]) s.world_dim []
  simp only [List.append_assoc, List.singleton_append, List.length_append, List.length_singleton]
    at e1 e2
  rw [e1]
  simp only []
  rw [e2]
  exact ⟨_, _, rfl, rfl, rfl, rfl, by simp⟩

/-- Witness of C10: a base that serializes one integer; the sample game is written behind
two earlier entries of the buffer and read back into another game. -/
theorem deserialize_serialize_witness :
    ∃ (t2 : MazeGame) (rb : ReadBuffer),
      deserialize sampleBaseDeserialize sampleResetGame
          { data := (serialize sampleBaseSerialize (sampleGame 0 0 0) { data := [7, 8] }).data,
            pos := 2 } = some (t2, rb) ∧
        t2.maze_dim = 3 ∧ t2.world_dim = 3 := by
  obtain ⟨-, t2, rb, h, h1, h2, -, -⟩ :=
    deserialize_serialize sampleBaseSerialize sampleBaseDeserialize (sampleGame 0 0 0)
      sampleResetGame
      { sampleResetGame with agent := { sampleResetGame.agent with is_reflected := false } }
      { data := [7, 8] } (by rfl)
  exact ⟨t2, rb, h, h1, h2⟩

end MazeGame

/-! ## Union-find lemmas -/

namespace UnionFind

theorem create_upto (N k : Nat) (hk : k ≤ N) :
    ((List.range k).foldl make_set { label := List.replicate N 0 }).label.length = N ∧
      ∀ i, i < k →
        ((List.range k).foldl make_set { label := List.replicate N 0 }).label[i]? = some i := by
  induction k with
  | zero => exact ⟨by simp, fun i hi => absurd hi (Nat.not_lt_zero i)⟩
  | succ k ih =>
    obtain ⟨hlen, hget⟩ := ih (Nat.le_of_succ_le hk)
    rw [List.range_succ, List.foldl_concat]
    refine ⟨by simp [make_set, hlen], ?_⟩
    intro i hi
    simp only [make_set, List.getElem?_set]
    by_cases hik : k = i
    · subst hik
      have : k < ((List.range k).foldl make_set { label := List.replicate N 0 }).label.length := by
        rw [hlen]; omega
      simp [this]
    · rw [if_neg hik]
      exact hget i (by omega)

theorem create_length (N : Nat) : (create N).label.length = N :=
  (create_upto N N (le_refl N)).1

theorem create_find (N i : Nat) : (create N).find i = i := by
  unfold find
  rw [List.getD_eq_getElem?_getD]
  by_cases hi : i < N
  · have := (create_upto N N (le_refl N)).2 i hi
    unfold create
    rw [this]
    rfl
  · have : (create N).label[i]? = none := by
      rw [List.getElem?_eq_none_iff, create_length]
      omega
    rw [this]
    rfl

theorem create_valid (N : Nat) : (create N).Valid N :=
  ⟨create_length N, fun i hi => ⟨by rw [create_find]; exact hi, by rw [create_find]⟩⟩

theorem union_snd (u : UnionFind) (a b : Nat) :
    (u.union a b).2 = true ↔ u.find a ≠ u.find b := by
  unfold union
  by_cases h : u.find a = u.find b
  · simp [h]
  · simp [h]

theorem union_fst_of_eq (u : UnionFind) (a b : Nat) (h : u.find a = u.find b) :
    (u.union a b).1 = u := by
  unfold union
  simp [h]

/-- The representatives after a merge. -/
theorem union_find_of_ne (u : UnionFind) (a b i : Nat) (h : u.find a ≠ u.find b)
    (hi : i < u.label.length) :
    (u.union a b).1.find i = if u.find i = u.find b then u.find a else u.find i := by
  have hfi : u.find i = u.label[i] := by
    unfold find
    rw [List.getD_eq_getElem?_getD, List.getElem?_eq_getElem hi]
    rfl
  unfold union
  simp only [if_neg h]
  show (List.map (fun l => if l = u.find b then u.find a else l) u.label).getD i i = _
  rw [List.getD_eq_getElem?_getD, List.getElem?_map, List.getElem?_eq_getElem hi, hfi]
  rfl

theorem union_valid (u : UnionFind) (N a b : Nat) (hv : u.Valid N) (ha : a < N) :
    (u.union a b).1.Valid N := by
  by_cases h : u.find a = u.find b
  · rw [union_fst_of_eq u a b h]; exact hv
  · obtain ⟨hlen, hval⟩ := hv
    have hlen2 : (u.union a b).1.label.length = N := by
      unfold union
      simp only [if_neg h, List.length_map]
      exact hlen
    refine ⟨hlen2, ?_⟩
    intro i hi
    have hra := hval a ha
    rw [union_find_of_ne u a b i h (by rw [hlen]; exact hi)]
    by_cases hib : u.find i = u.find b
    · rw [if_pos hib, union_find_of_ne u a b _ h (by rw [hlen]; exact hra.1)]
      rw [hra.2, if_neg h]
      exact ⟨hra.1, rfl⟩
    · rw [if_neg hib, union_find_of_ne u a b _ h (by rw [hlen]; exact (hval i hi).1)]
      rw [(hval i hi).2, if_neg hib]
      exact ⟨(hval i hi).1, rfl⟩

/-- A merge removes exactly one representative. -/
theorem union_roots_card (u : UnionFind) (N a b : Nat) (hv : u.Valid N) (ha : a < N)
    (hb : b < N) (h : u.find a ≠ u.find b) :
    ((u.union a b).1.roots N).card + 1 = (u.roots N).card := by
  obtain ⟨hlen, hval⟩ := hv
  have hrb : u.find b ∈ u.roots N := by
    simp only [roots, Finset.mem_filter, Finset.mem_range]
    exact hval b hb
  have he : (u.union a b).1.roots N = (u.roots N).erase (u.find b) := by
    ext i
    simp only [roots, Finset.mem_filter, Finset.mem_range, Finset.mem_erase]
    constructor
    · rintro ⟨hi, hfix⟩
      rw [union_find_of_ne u a b i h (by rw [hlen]; exact hi)] at hfix
      by_cases hib : u.find i = u.find b
      · rw [if_pos hib] at hfix
        exfalso
        have := (hval a ha).2
        rw [hfix] at this
        rw [hfix] at h
        exact h (this.symm ▸ hib)
      · rw [if_neg hib] at hfix
        refine ⟨?_, hi, hfix⟩
        intro hi2
        rw [hi2, (hval b hb).2] at hib
        exact hib rfl
    · rintro ⟨hne, hi, hfix⟩
      refine ⟨hi, ?_⟩
      rw [union_find_of_ne u a b i h (by rw [hlen]; exact hi)]
      have : u.find i ≠ u.find b := by
        rw [hfix]; exact hne
      rw [if_neg this]
      exact hfix
  rw [he, Finset.card_erase_of_mem hrb]
  have : 0 < (u.roots N).card := Finset.card_pos.mpr ⟨_, hrb⟩
  omega

end UnionFind

/-! ## Kruskal on the union-find -/

namespace MazeGen

theorem joined_symm (n : Nat) (E : List (Nat × Nat)) : Symmetric (joined n E) := by
  rintro a b ⟨w, hw, h⟩
  exact ⟨w, hw, h.symm⟩

theorem connected_symm (n : Nat) (E : List (Nat × Nat)) (a b : Nat)
    (h : connected n E a b) : connected n E b a :=
  Relation.ReflTransGen.symmetric (joined_symm n E) h

theorem connected_mono (n : Nat) (E F : List (Nat × Nat)) (hEF : ∀ w ∈ E, w ∈ F) (a b : Nat)
    (h : connected n E a b) : connected n F a b :=
  Relation.ReflTransGen.mono (fun _ _ ⟨w, hw, h⟩ => ⟨w, hEF w hw, h⟩) h

theorem connected_of_wall (n : Nat) (E : List (Nat × Nat)) (w : Nat × Nat) (hw : w ∈ E) :
    connected n E (wall_rooms n w).1 (wall_rooms n w).2 :=
  Relation.ReflTransGen.single ⟨w, hw, Or.inl rfl⟩

theorem kruskal_concat (n : Nat) (ws : List (Nat × Nat)) (w : Nat × Nat) :
    kruskal n (ws ++ [w]) = kruskal_step n (kruskal n ws) w := by
  unfold kruskal
  rw [List.foldl_concat]

/-- One step of Kruskal's loop keeps the invariant. -/
theorem kruskal_step_inv (n : Nat) (ps : List (Nat × Nat)) (st : UnionFind × List (Nat × Nat))
    (w : Nat × Nat) (hps : ∀ v ∈ ps, (wall_rooms n v).1 < n * n ∧ (wall_rooms n v).2 < n * n)
    (hw : (wall_rooms n w).1 < n * n ∧ (wall_rooms n w).2 < n * n)
    (hinv : KruskalInv n ps st) : KruskalInv n (ps ++ [w]) (kruskal_step n st w) := by
  obtain ⟨hvalid, hproc, hconn, hcard, hsub, hnodup, hlen⟩ := hinv
  obtain ⟨ha, hb⟩ := hw
  by_cases h : st.1.find (wall_rooms n w).1 = st.1.find (wall_rooms n w).2
  · have hu : ¬ (st.1.union (wall_rooms n w).1 (wall_rooms n w).2).2 = true := by
      rw [UnionFind.union_snd]; exact fun hne => hne h
    unfold kruskal_step
    rw [if_neg hu, UnionFind.union_fst_of_eq _ _ _ h]
    refine ⟨hvalid, ?_, hconn, hcard, ?_, hnodup, ?_⟩
    · intro v hv
      rcases List.mem_append.mp hv with hv | hv
      · exact hproc v hv
      · rw [List.mem_singleton.mp hv]; exact h
    · intro v hv
      exact List.mem_append_left _ (hsub v hv)
    · simp only [List.length_append, List.length_singleton]
      omega
  · have hu : (st.1.union (wall_rooms n w).1 (wall_rooms n w).2).2 = true := by
      rw [UnionFind.union_snd]; exact h
    have hfind : ∀ i, i < n * n →
        (st.1.union (wall_rooms n w).1 (wall_rooms n w).2).1.find i =
          if st.1.find i = st.1.find (wall_rooms n w).2 then st.1.find (wall_rooms n w).1
          else st.1.find i :=
      fun i hi => UnionFind.union_find_of_ne _ _ _ i h (by rw [hvalid.1]; exact hi)
    unfold kruskal_step
    rw [if_pos hu]
    refine ⟨UnionFind.union_valid _ _ _ _ hvalid ha, ?_, ?_, ?_, ?_, ?_, ?_⟩
    · intro v hv
      rcases List.mem_append.mp hv with hv | hv
      · show (st.1.union _ _).1.find _ = (st.1.union _ _).1.find _
        rw [hfind _ (hps v hv).1, hfind _ (hps v hv).2, hproc v hv]
      · rw [List.mem_singleton.mp hv]
        show (st.1.union _ _).1.find _ = (st.1.union _ _).1.find _
        rw [hfind _ ha, hfind _ hb, if_neg h, if_pos rfl]
    · intro r1 r2 h1 h2 heq
      have heq2 : (st.1.union (wall_rooms n w).1 (wall_rooms n w).2).1.find r1 =
          (st.1.union (wall_rooms n w).1 (wall_rooms n w).2).1.find r2 := heq
      rw [hfind r1 h1, hfind r2 h2] at heq2
      have hmono : ∀ x y, connected n st.2 x y → connected n (w :: st.2) x y :=
        fun x y hxy => connected_mono n _ _ (fun v hv => List.mem_cons_of_mem _ hv) x y hxy
      have hab : connected n (w :: st.2) (wall_rooms n w).1 (wall_rooms n w).2 :=
        connected_of_wall n _ w (List.mem_cons_self _ _)
      show connected n (w :: st.2) r1 r2
      by_cases c1 : st.1.find r1 = st.1.find (wall_rooms n w).2
      · by_cases c2 : st.1.find r2 = st.1.find (wall_rooms n w).2
        · exact hmono _ _ (hconn r1 r2 h1 h2 (c1.trans c2.symm))
        · rw [if_pos c1, if_neg c2] at heq2
          exact ((hmono _ _ (hconn r1 _ h1 hb c1)).trans
            (connected_symm n _ _ _ hab)).trans (hmono _ _ (hconn _ r2 ha h2 heq2))
      · by_cases c2 : st.1.find r2 = st.1.find (wall_rooms n w).2
        · rw [if_neg c1, if_pos c2] at heq2
          exact ((hmono _ _ (hconn r1 _ h1 ha heq2)).trans hab).trans
            (hmono _ _ (hconn _ r2 hb h2 c2.symm))
        · rw [if_neg c1, if_neg c2] at heq2
          exact hmono _ _ (hconn r1 r2 h1 h2 heq2)
    · have := UnionFind.union_roots_card st.1 (n * n) _ _ hvalid ha hb h
      show ((st.1.union _ _).1.roots (n * n)).card + (w :: st.2).length = n * n
      rw [List.length_cons]
      omega
    · intro v hv
      rcases List.mem_cons.mp hv with hv | hv
      · rw [hv]; exact List.mem_append_right _ (List.mem_singleton_self _)
      · exact List.mem_append_left _ (hsub v hv)
    · show (w :: st.2).Nodup
      rw [List.nodup_cons]
      exact ⟨fun hw => h (hproc w (hsub w hw)), hnodup⟩
    · show (w :: st.2).length ≤ (ps ++ [w]).length
      simp only [List.length_cons, List.length_append, List.length_singleton]
      omega

/-- Kruskal's loop establishes the invariant for the whole edge list. -/
theorem kruskal_inv (n : Nat) (ws : List (Nat × Nat))
    (hws : ∀ v ∈ ws, (wall_rooms n v).1 < n * n ∧ (wall_rooms n v).2 < n * n) :
    KruskalInv n ws (kruskal n ws) := by
  induction ws using List.reverseRecOn with
  | nil =>
    refine ⟨UnionFind.create_valid _, fun w hw => absurd hw (List.not_mem_nil w), ?_, ?_,
      fun w hw => absurd hw (List.not_mem_nil w), List.nodup_nil, le_refl _⟩
    · intro r1 r2 _ _ h
      have h2 : (UnionFind.create (n * n)).find r1 = (UnionFind.create (n * n)).find r2 := h
      rw [UnionFind.create_find, UnionFind.create_find] at h2
      rw [h2]
      exact Relation.ReflTransGen.refl
    · show ((UnionFind.create (n * n)).roots (n * n)).card + 0 = n * n
      have : (UnionFind.create (n * n)).roots (n * n) = Finset.range (n * n) := by
        ext i
        simp [UnionFind.roots, UnionFind.create_find]
      rw [this, Finset.card_range]
      rfl
  | append_singleton l w ih =>
    rw [kruskal_concat]
    exact kruskal_step_inv n l _ w (fun v hv => hws v (List.mem_append_left _ hv))
      (hws w (List.mem_append_right _ (List.mem_singleton_self _)))
      (ih (fun v hv => hws v (List.mem_append_left _ hv)))

/-- Rooms linked by processed walls share a representative. -/
theorem find_eq_of_connected (n : Nat) (ps : List (Nat × Nat))
    (st : UnionFind × List (Nat × Nat)) (hinv : KruskalInv n ps st) (a b : Nat)
    (h : connected n ps a b) : st.1.find a = st.1.find b := by
  induction h with
  | refl => rfl
  | tail _ hstep ih =>
    obtain ⟨w, hw, hwr⟩ := hstep
    have := hinv.2.1 w hw
    rcases hwr with e | e
    · rw [e] at this; exact ih.trans this
    · rw [e] at this; exact ih.trans this.symm

/-- When the processed walls link every room to room 0, exactly `n * n - 1` walls were
opened and the opened walls link every two rooms. -/
theorem kruskal_spanning (n : Nat) (ps : List (Nat × Nat)) (st : UnionFind × List (Nat × Nat))
    (hn : 0 < n) (hinv : KruskalInv n ps st)
    (hall : ∀ r, r < n * n → connected n ps r 0) :
    st.2.length + 1 = n * n ∧
      ∀ r1 r2, r1 < n * n → r2 < n * n → connected n st.2 r1 r2 := by
  have hN : 0 < n * n := Nat.mul_pos hn hn
  have hfind : ∀ r, r < n * n → st.1.find r = st.1.find 0 :=
    fun r hr => find_eq_of_connected n ps st hinv r 0 (hall r hr)
  obtain ⟨hvalid, -, hconn, hcard, -, -, -⟩ := hinv
  have hroots : st.1.roots (n * n) = {st.1.find 0} := by
    ext i
    simp only [UnionFind.roots, Finset.mem_filter, Finset.mem_range, Finset.mem_singleton]
    constructor
    · rintro ⟨hi, hfix⟩
      rw [← hfix, hfind i hi]
    · intro hi
      rw [hi]
      exact hvalid.2 0 hN
  rw [hroots, Finset.card_singleton] at hcard
  refine ⟨by omega, ?_⟩
  intro r1 r2 h1 h2
  exact hconn r1 r2 h1 h2 ((hfind r1 h1).trans (hfind r2 h2).symm)

/-- Every opened wall is a bridge: without it, its two rooms are no longer linked. -/
theorem opened_wall_is_bridge (n : Nat) (ps : List (Nat × Nat))
    (st : UnionFind × List (Nat × Nat)) (hn : 0 < n)
    (hps : ∀ v ∈ ps, (wall_rooms n v).1 < n * n ∧ (wall_rooms n v).2 < n * n)
    (hinv : KruskalInv n ps st) (hall : ∀ r, r < n * n → connected n ps r 0)
    (w : Nat × Nat) (hw : w ∈ st.2) :
    ¬ connected n (st.2.erase w) (wall_rooms n w).1 (wall_rooms n w).2 := by
  intro hc
  obtain ⟨hlen, hconn⟩ := kruskal_spanning n ps st hn hinv hall
  have hred : ∀ x y, connected n st.2 x y → connected n (st.2.erase w) x y := by
    intro x y hxy
    induction hxy with
    | refl => exact Relation.ReflTransGen.refl
    | tail _ hstep ih =>
      obtain ⟨v, hv, hvr⟩ := hstep
      by_cases hvw : v = w
      · subst hvw
        rcases hvr with e | e
        · rw [e] at hc; exact ih.trans hc
        · rw [e] at hc; exact ih.trans (connected_symm n _ _ _ hc)
      · exact ih.tail ⟨v, (List.mem_erase_of_ne hvw).mpr hv, hvr⟩
  have hN : 0 < n * n := Nat.mul_pos hn hn
  have hall2 : ∀ r, r < n * n → connected n (st.2.erase w) r 0 :=
    fun r hr => hred r 0 (hconn r 0 hr hN)
  have hvalid2 : ∀ v ∈ st.2.erase w,
      (wall_rooms n v).1 < n * n ∧ (wall_rooms n v).2 < n * n :=
    fun v hv => hps v (hinv.2.2.2.2.1 v (List.mem_of_mem_erase hv))
  have hinv2 := kruskal_inv n (st.2.erase w) hvalid2
  obtain ⟨hlen2, -⟩ := kruskal_spanning n _ _ hn hinv2 hall2
  have h1 := hinv2.2.2.2.2.2.2
  have h2 := List.length_erase_of_mem hw
  have h3 : 0 < st.2.length := List.length_pos_of_mem hw
  omega

end MazeGen

/-! ## The lattice of rooms -/

namespace MazeGen

theorem mem_candidate_walls (d : Nat) (p : Nat × Nat) :
    p ∈ candidate_walls d ↔ p.1 < d ∧ p.2 < d ∧ (p.1 + p.2) % 2 = 1 := by
  obtain ⟨i, j⟩ := p
  simp [candidate_walls, List.mem_filter, and_assoc]

theorem candidate_walls_nodup (d : Nat) : (candidate_walls d).Nodup :=
  List.Nodup.filter _ (List.Nodup.product (List.nodup_range d) (List.nodup_range d))

theorem room_id_even (n x y : Nat) : room_id n (2 * x) (2 * y) = y * n + x := by
  unfold room_id
  rw [Nat.mul_div_cancel_left _ (by norm_num : 0 < 2),
    Nat.mul_div_cancel_left _ (by norm_num : 0 < 2)]

theorem room_lt (n x y : Nat) (hx : x < n) (hy : y < n) : y * n + x < n * n := by
  have : (y + 1) * n ≤ n * n := Nat.mul_le_mul_right n hy
  have e : (y + 1) * n = y * n + n := by ring
  omega

/-- The two rooms of a horizontal wall. -/
theorem wall_rooms_horizontal (n x y : Nat) :
    wall_rooms n (2 * x + 1, 2 * y) = (y * n + x, y * n + (x + 1)) := by
  unfold wall_rooms
  have h1 : (2 * x + 1) % 2 = 1 := by omega
  simp only [h1, if_true]
  have e1 : 2 * x + 1 - 1 = 2 * x := by omega
  have e2 : 2 * x + 1 + 1 = 2 * (x + 1) := by ring
  rw [e1, e2, room_id_even, room_id_even]

/-- The two rooms of a vertical wall. -/
theorem wall_rooms_vertical (n x y : Nat) :
    wall_rooms n (2 * x, 2 * y + 1) = (y * n + x, (y + 1) * n + x) := by
  unfold wall_rooms
  have h1 : ¬ (2 * x) % 2 = 1 := by omega
  simp only [h1, if_false]
  have e1 : 2 * y + 1 - 1 = 2 * y := by omega
  have e2 : 2 * y + 1 + 1 = 2 * (y + 1) := by ring
  rw [e1, e2, room_id_even, room_id_even]

/-- A candidate wall of an odd maze is horizontal or vertical, between two rooms. -/
theorem candidate_wall_cases (d : Nat) (hd : d % 2 = 1) (w : Nat × Nat)
    (hw : w ∈ candidate_walls d) :
    (∃ x y, w = (2 * x + 1, 2 * y) ∧ x + 1 < rooms_per_side d ∧ y < rooms_per_side d) ∨
      (∃ x y, w = (2 * x, 2 * y + 1) ∧ x < rooms_per_side d ∧ y + 1 < rooms_per_side d) := by
  rw [mem_candidate_walls] at hw
  obtain ⟨h1, h2, h3⟩ := hw
  unfold rooms_per_side
  by_cases hp : w.1 % 2 = 1
  · left
    refine ⟨w.1 / 2, w.2 / 2, Prod.ext (by show w.1 = _; omega) (by show w.2 = _; omega),
      by omega, by omega⟩
  · right
    refine ⟨w.1 / 2, w.2 / 2, Prod.ext (by show w.1 = _; omega) (by show w.2 = _; omega),
      by omega, by omega⟩

theorem candidate_wall_rooms_lt (d : Nat) (hd : d % 2 = 1) (w : Nat × Nat)
    (hw : w ∈ candidate_walls d) :
    (wall_rooms (rooms_per_side d) w).1 < rooms_per_side d * rooms_per_side d ∧
      (wall_rooms (rooms_per_side d) w).2 < rooms_per_side d * rooms_per_side d := by
  rcases candidate_wall_cases d hd w hw with ⟨x, y, rfl, hx, hy⟩ | ⟨x, y, rfl, hx, hy⟩
  · rw [wall_rooms_horizontal]
    exact ⟨room_lt _ _ _ (by omega) hy, room_lt _ _ _ hx hy⟩
  · rw [wall_rooms_vertical]
    exact ⟨room_lt _ _ _ hx (by omega), room_lt _ _ _ hx hy⟩

/-- The candidate walls link every room of an odd maze to room 0. -/
theorem lattice_connected (d : Nat) (hd : d % 2 = 1) (r : Nat)
    (hr : r < rooms_per_side d * rooms_per_side d) :
    connected (rooms_per_side d) (candidate_walls d) r 0 := by
  have hn : 0 < rooms_per_side d := by
    rcases Nat.eq_zero_or_pos (rooms_per_side d) with h | h
    · rw [h] at hr; omega
    · exact h
  have hdn : d + 1 = 2 * rooms_per_side d := by unfold rooms_per_side; omega
  have hrow : ∀ x y, x < rooms_per_side d → y < rooms_per_side d →
      connected (rooms_per_side d) (candidate_walls d) (y * rooms_per_side d + x)
        (y * rooms_per_side d + 0) := by
    intro x y hx hy
    induction x with
    | zero => exact Relation.ReflTransGen.refl
    | succ x ih =>
      have hmem : (2 * x + 1, 2 * y) ∈ candidate_walls d := by
        rw [mem_candidate_walls]
        exact ⟨by show 2 * x + 1 < d; omega, by show 2 * y < d; omega,
          by show (2 * x + 1 + 2 * y) % 2 = 1; omega⟩
      have hstep := connected_of_wall (rooms_per_side d) _ _ hmem
      rw [wall_rooms_horizontal] at hstep
      exact (connected_symm _ _ _ _ hstep).trans (ih (by omega))
  have hcol : ∀ y, y < rooms_per_side d →
      connected (rooms_per_side d) (candidate_walls d) (y * rooms_per_side d + 0) 0 := by
    intro y hy
    induction y with
    | zero =>
      rw [Nat.zero_mul]
      exact Relation.ReflTransGen.refl
    | succ y ih =>
      have hmem : (2 * 0, 2 * y + 1) ∈ candidate_walls d := by
        rw [mem_candidate_walls]
        exact ⟨by show 2 * 0 < d; omega, by show 2 * y + 1 < d; omega,
          by show (2 * 0 + (2 * y + 1)) % 2 = 1; omega⟩
      have hstep := connected_of_wall (rooms_per_side d) _ _ hmem
      rw [wall_rooms_vertical] at hstep
      exact (connected_symm _ _ _ _ hstep).trans (ih (by omega))
  have hx : r % rooms_per_side d < rooms_per_side d := Nat.mod_lt _ hn
  have hy : r / rooms_per_side d < rooms_per_side d := Nat.div_lt_of_lt_mul hr
  have e : r = r / rooms_per_side d * rooms_per_side d + r % rooms_per_side d :=
    (Nat.div_add_mod' r _).symm
  rw [e]
  exact (hrow _ _ hx hy).trans (hcol _ hy)

end MazeGen

/-! ## The generator's grid -/

theorem Grid.filled_get (w h : Nat) (v x y : Int)
    (hc : (Grid.filled w h v).contains x y = true) : (Grid.filled w h v).get x y = v := by
  have hb := Grid.to_index_bounds _ x y hc
  unfold Grid.get Grid.get_index
  rw [List.getD_eq_getElem?_getD]
  have hlt : ((Grid.filled w h v).to_index x y).toNat < w * h := by
    have h2 : (Grid.filled w h v).to_index x y < (w : Int) * (h : Int) := hb.2
    have h3 : ((w * h : Nat) : Int) = (w : Int) * (h : Int) := by push_cast; ring
    omega
  show ((List.replicate (w * h) v)[((Grid.filled w h v).to_index x y).toNat]?).getD 0 = v
  rw [List.getElem?_replicate, if_pos hlt]
  rfl

namespace MazeGen

theorem cell_set_contains (ids : ObjectIds) (g : Grid) (i j : Nat) (v x y : Int) :
    (cell_set ids g i j v).contains x y = g.contains x y :=
  Grid.set_contains _ _ _ _ _ _

/-- Reading a cell of the maze after writing one. -/
theorem cell_get_cell_set (ids : ObjectIds) (g : Grid) (i j : Nat) (v : Int) (i1 j1 : Nat)
    (hc : g.contains ((i1 : Int) + ids.MAZE_OFFSET) ((j1 : Int) + ids.MAZE_OFFSET) = true) :
    cell_get ids (cell_set ids g i j v) i1 j1 =
      if i1 = i ∧ j1 = j then v else cell_get ids g i1 j1 := by
  unfold cell_get cell_set
  rw [Grid.get_set _ _ _ _ _ _ hc]
  by_cases h : i1 = i ∧ j1 = j
  · obtain ⟨rfl, rfl⟩ := h
    simp
  · have : ¬ ((i1 : Int) + ids.MAZE_OFFSET = (i : Int) + ids.MAZE_OFFSET ∧
        (j1 : Int) + ids.MAZE_OFFSET = (j : Int) + ids.MAZE_OFFSET) := by
      rintro ⟨h1, h2⟩
      exact h ⟨by omega, by omega⟩
    rw [if_neg this, if_neg h]

/-- A loop that writes `v` to the cells `f r` for `r` in `L`. -/
theorem foldl_cell_set {α : Type} (ids : ObjectIds) (v : Int) (f : α → Nat × Nat)
    (L : List α) (g : Grid) :
    (∀ x y, (L.foldl (fun (g : Grid) (r : α) => cell_set ids g (f r).1 (f r).2 v) g).contains x y
      = g.contains x y) ∧
    ∀ i j : Nat,
      g.contains ((i : Int) + ids.MAZE_OFFSET) ((j : Int) + ids.MAZE_OFFSET) = true →
      ((∃ r ∈ L, f r = (i, j)) →
        cell_get ids (L.foldl (fun (g : Grid) (r : α) => cell_set ids g (f r).1 (f r).2 v) g) i j
          = v) ∧
      ((¬ ∃ r ∈ L, f r = (i, j)) →
        cell_get ids (L.foldl (fun (g : Grid) (r : α) => cell_set ids g (f r).1 (f r).2 v) g) i j
          = cell_get ids g i j) := by
  induction L generalizing g with
  | nil =>
    refine ⟨fun _ _ => rfl, fun i j _ => ⟨?_, fun _ => rfl⟩⟩
    rintro ⟨r, hr, -⟩
    exact absurd hr (List.not_mem_nil r)
  | cons a L ih =>
    obtain ⟨ihc, ihg⟩ := ih (cell_set ids g (f a).1 (f a).2 v)
    simp only [List.foldl_cons]
    refine ⟨fun x y => by rw [ihc, cell_set_contains], ?_⟩
    intro i j hc
    have hc2 : (cell_set ids g (f a).1 (f a).2 v).contains ((i : Int) + ids.MAZE_OFFSET)
        ((j : Int) + ids.MAZE_OFFSET) = true := by rw [cell_set_contains]; exact hc
    obtain ⟨h1, h2⟩ := ihg i j hc2
    have hset := cell_get_cell_set ids g (f a).1 (f a).2 v i j hc
    constructor
    · rintro ⟨r, hr, hfr⟩
      by_cases hL : ∃ r ∈ L, f r = (i, j)
      · exact h1 hL
      · rw [h2 hL, hset]
        rcases List.mem_cons.mp hr with rfl | hr
        · rw [if_pos ⟨by rw [hfr], by rw [hfr]⟩]
        · exact absurd ⟨r, hr, hfr⟩ hL
    · intro hno
      have hL : ¬ ∃ r ∈ L, f r = (i, j) := by
        rintro ⟨r, hr, hfr⟩
        exact hno ⟨r, List.mem_cons_of_mem _ hr, hfr⟩
      rw [h2 hL, hset, if_neg]
      rintro ⟨e1, e2⟩
      exact hno ⟨a, List.mem_cons_self _ _, Prod.ext e1.symm e2.symm⟩

/-- The cells of the maze, and those of the offset border, are cells of the initial
grid. -/
theorem initial_grid_contains (ids : ObjectIds) (d : Nat) (hoff : 0 ≤ ids.MAZE_OFFSET)
    (i j : Nat) (hi : i < d) (hj : j < d) :
    (initial_grid ids d).contains ((i : Int) + ids.MAZE_OFFSET)
      ((j : Int) + ids.MAZE_OFFSET) = true := by
  unfold initial_grid
  rw [(foldl_cell_set ids ids.SPACE (fun r : Nat × Nat => (2 * r.1, 2 * r.2)) _ _).1]
  rw [Grid.contains_iff]
  show 0 ≤ _ ∧ _ < ((d + 2 * ids.MAZE_OFFSET.toNat : Nat) : Int) ∧ 0 ≤ _ ∧
    _ < ((d + 2 * ids.MAZE_OFFSET.toNat : Nat) : Int)
  push_cast
  rw [Int.toNat_of_nonneg hoff]
  omega

/-- The initial grid: rooms read `SPACE`, every other cell of the maze reads
`WALL_OBJ`. -/
theorem initial_grid_cell (ids : ObjectIds) (d : Nat) (hoff : 0 ≤ ids.MAZE_OFFSET)
    (i j : Nat) (hi : i < d) (hj : j < d) :
    cell_get ids (initial_grid ids d) i j =
      if i % 2 = 0 ∧ j % 2 = 0 then ids.SPACE else ids.WALL_OBJ := by
  have hc : (Grid.filled (d + 2 * ids.MAZE_OFFSET.toNat) (d + 2 * ids.MAZE_OFFSET.toNat)
      ids.WALL_OBJ).contains ((i : Int) + ids.MAZE_OFFSET) ((j : Int) + ids.MAZE_OFFSET) = true := by
    rw [Grid.contains_iff]
    show 0 ≤ _ ∧ _ < ((d + 2 * ids.MAZE_OFFSET.toNat : Nat) : Int) ∧ 0 ≤ _ ∧
      _ < ((d + 2 * ids.MAZE_OFFSET.toNat : Nat) : Int)
    push_cast
    rw [Int.toNat_of_nonneg hoff]
    omega
  obtain ⟨h1, h2⟩ := (foldl_cell_set ids ids.SPACE (fun r : Nat × Nat => (2 * r.1, 2 * r.2))
    (List.product (List.range (rooms_per_side d)) (List.range (rooms_per_side d)))
    (Grid.filled (d + 2 * ids.MAZE_OFFSET.toNat) (d + 2 * ids.MAZE_OFFSET.toNat)
      ids.WALL_OBJ)).2 i j hc
  unfold initial_grid
  by_cases hp : i % 2 = 0 ∧ j % 2 = 0
  · rw [if_pos hp]
    apply h1
    refine ⟨(i / 2, j / 2), ?_, Prod.ext (by show 2 * (i / 2) = i; omega)
      (by show 2 * (j / 2) = j; omega)⟩
    have hi2 : i / 2 < rooms_per_side d := by unfold rooms_per_side; omega
    have hj2 : j / 2 < rooms_per_side d := by unfold rooms_per_side; omega
    exact List.mem_product.mpr ⟨List.mem_range.mpr hi2, List.mem_range.mpr hj2⟩
  · rw [if_neg hp, h2]
    · unfold cell_get
      exact Grid.filled_get _ _ _ _ _ hc
    · rintro ⟨r, -, hr⟩
      have e1 : 2 * r.1 = i := congrArg Prod.fst hr
      have e2 : 2 * r.2 = j := congrArg Prod.snd hr
      exact hp ⟨by omega, by omega⟩

/-- Removing the entry at an index and putting it in front permutes a list. -/
theorem perm_cons_eraseIdx {α : Type} (l : List α) (i : Nat) (x : α) (h : l.get? i = some x) :
    (x :: l.eraseIdx i).Perm l := by
  induction l generalizing i with
  | nil => simp at h
  | cons a t ih =>
    cases i with
    | zero =>
      simp only [List.get?_cons_zero, Option.some.injEq] at h
      rw [h]
      exact List.Perm.refl _
    | succ i =>
      simp only [List.get?_cons_succ] at h
      show (x :: a :: t.eraseIdx i).Perm (a :: t)
      exact (List.Perm.swap a x _).trans (List.Perm.cons a (ih i h))

/-- The shuffle returns a permutation of its input. -/
theorem shuffle_perm {α : Type} (k : Nat) (rg : RandGen) (l : List α) (hk : k = l.length) :
    (shuffle k rg l).1.Perm l := by
  induction k generalizing rg l with
  | zero =>
    have : l = [] := List.length_eq_zero.mp hk.symm
    subst this
    exact List.Perm.refl _
  | succ k ih =>
    have hpos : (0 : Int) < (l.length : Int) := by omega
    obtain ⟨h0, h1⟩ := MazeGame.randn_range rg (l.length : Int) hpos
    have hidx : (rg.randn (l.length : Int)).1.toNat < l.length := by omega
    have hget : l.get? (rg.randn (l.length : Int)).1.toNat
        = some (l.get ⟨(rg.randn (l.length : Int)).1.toNat, hidx⟩) := List.get?_eq_get hidx
    unfold shuffle
    rw [hget]
    have hlen : k = (l.eraseIdx (rg.randn (l.length : Int)).1.toNat).length := by
      rw [List.length_eraseIdx, if_pos hidx]
      omega
    exact (List.Perm.cons _ (ih _ _ hlen)).trans (perm_cons_eraseIdx l _ _ hget)

theorem process_wall_concat (ids : ObjectIds) (n : Nat) (ws : List (Nat × Nat))
    (w : Nat × Nat) (st : UnionFind × Grid) :
    (ws ++ [w]).foldl (process_wall ids n) st
      = process_wall ids n (ws.foldl (process_wall ids n) st) w :=
  List.foldl_concat _ _ _ _

/-- The loop over the walls: its union-find is that of `kruskal`, and its grid is the
initial grid with the opened walls set to `SPACE`. -/
theorem process_fold (ids : ObjectIds) (n : Nat) (ws : List (Nat × Nat)) (g0 : Grid) :
    (ws.foldl (process_wall ids n) (UnionFind.create (n * n), g0)).1 = (kruskal n ws).1 ∧
    (∀ x y, (ws.foldl (process_wall ids n) (UnionFind.create (n * n), g0)).2.contains x y
      = g0.contains x y) ∧
    ∀ i j : Nat,
      g0.contains ((i : Int) + ids.MAZE_OFFSET) ((j : Int) + ids.MAZE_OFFSET) = true →
      ((i, j) ∈ (kruskal n ws).2 →
        cell_get ids (ws.foldl (process_wall ids n) (UnionFind.create (n * n), g0)).2 i j
          = ids.SPACE) ∧
      ((i, j) ∉ (kruskal n ws).2 →
        cell_get ids (ws.foldl (process_wall ids n) (UnionFind.create (n * n), g0)).2 i j
          = cell_get ids g0 i j) := by
  induction ws using List.reverseRecOn with
  | nil =>
    refine ⟨rfl, fun _ _ => rfl, fun i j _ => ⟨fun h => ?_, fun _ => rfl⟩⟩
    exact absurd h (List.not_mem_nil _)
  | append_singleton l w ih =>
    obtain ⟨ihu, ihc, ihg⟩ := ih
    rw [process_wall_concat, kruskal_concat]
    generalize l.foldl (process_wall ids n) (UnionFind.create (n * n), g0) = st at ihu ihc ihg ⊢
    unfold process_wall kruskal_step
    rw [ihu]
    by_cases hu : ((kruskal n l).1.union (wall_rooms n w).1 (wall_rooms n w).2).2 = true
    · simp only [if_pos hu]
      refine ⟨trivial, fun x y => by rw [cell_set_contains, ihc], ?_⟩
      intro i j hc
      have hc2 : st.2.contains
          ((i : Int) + ids.MAZE_OFFSET) ((j : Int) + ids.MAZE_OFFSET) = true := by
        rw [ihc]; exact hc
      rw [cell_get_cell_set ids _ _ _ _ _ _ hc2]
      obtain ⟨h1, h2⟩ := ihg i j hc
      constructor
      · intro hm
        by_cases hij : i = w.1 ∧ j = w.2
        · rw [if_pos hij]
        · rw [if_neg hij]
          rcases List.mem_cons.mp hm with e | hm
          · exact absurd ⟨congrArg Prod.fst e, congrArg Prod.snd e⟩ hij
          · exact h1 hm
      · intro hm
        have hne : ¬ (i = w.1 ∧ j = w.2) := by
          rintro ⟨e1, e2⟩
          exact hm (List.mem_cons.mpr (Or.inl (Prod.ext e1 e2)))
        rw [if_neg hne]
        exact h2 (fun h => hm (List.mem_cons_of_mem _ h))
    · simp only [if_neg hu]
      exact ⟨trivial, ihc, ihg⟩

end MazeGen

/-! ## The generated maze -/

namespace MazeGen

theorem toNat_odd (m : Int) (hodd : m % 2 = 1) (hpos : 0 < m) :
    m.toNat % 2 = 1 ∧ 0 < rooms_per_side m.toNat ∧ m.toNat + 1 = 2 * rooms_per_side m.toNat := by
  unfold rooms_per_side
  omega

theorem shuffled_mem (mg : MazeGen) (w : Nat × Nat) :
    w ∈ (shuffle (candidate_walls mg.maze_dim.toNat).length mg.rand_gen
      (candidate_walls mg.maze_dim.toNat)).1 ↔ w ∈ candidate_walls mg.maze_dim.toNat :=
  (shuffle_perm _ _ _ rfl).mem_iff

/-- The invariant of Kruskal's loop holds after `generate_maze`. -/
theorem generate_maze_inv (mg : MazeGen) (hodd : mg.maze_dim % 2 = 1) (hpos : 0 < mg.maze_dim) :
    KruskalInv (rooms_per_side mg.maze_dim.toNat)
      (shuffle (candidate_walls mg.maze_dim.toNat).length mg.rand_gen
        (candidate_walls mg.maze_dim.toNat)).1
      (kruskal (rooms_per_side mg.maze_dim.toNat)
        (shuffle (candidate_walls mg.maze_dim.toNat).length mg.rand_gen
          (candidate_walls mg.maze_dim.toNat)).1) :=
  kruskal_inv _ _ (fun v hv =>
    candidate_wall_rooms_lt _ (toNat_odd _ hodd hpos).1 v ((shuffled_mem mg v).mp hv))

theorem generate_maze_all_linked (mg : MazeGen) (hodd : mg.maze_dim % 2 = 1)
    (hpos : 0 < mg.maze_dim) (r : Nat)
    (hr : r < rooms_per_side mg.maze_dim.toNat * rooms_per_side mg.maze_dim.toNat) :
    connected (rooms_per_side mg.maze_dim.toNat)
      (shuffle (candidate_walls mg.maze_dim.toNat).length mg.rand_gen
        (candidate_walls mg.maze_dim.toNat)).1 r 0 :=
  connected_mono _ _ _ (fun v hv => (shuffled_mem mg v).mpr hv) _ _
    (lattice_connected _ (toNat_odd _ hodd hpos).1 r hr)

theorem opened_walls_candidate (mg : MazeGen) (hodd : mg.maze_dim % 2 = 1)
    (hpos : 0 < mg.maze_dim) (w : Nat × Nat) (hw : w ∈ opened_walls mg) :
    w ∈ candidate_walls mg.maze_dim.toNat :=
  (shuffled_mem mg w).mp ((generate_maze_inv mg hodd hpos).2.2.2.2.1 w hw)

theorem opened_walls_nodup (mg : MazeGen) (hodd : mg.maze_dim % 2 = 1)
    (hpos : 0 < mg.maze_dim) : (opened_walls mg).Nodup :=
  (generate_maze_inv mg hodd hpos).2.2.2.2.2.1

/-- The walls opened by `generate_maze` number `rooms - 1` and link every two rooms. -/
theorem opened_walls_spanning (mg : MazeGen) (hodd : mg.maze_dim % 2 = 1)
    (hpos : 0 < mg.maze_dim) :
    (opened_walls mg).length + 1
        = rooms_per_side mg.maze_dim.toNat * rooms_per_side mg.maze_dim.toNat ∧
      ∀ r1 r2, r1 < rooms_per_side mg.maze_dim.toNat * rooms_per_side mg.maze_dim.toNat →
        r2 < rooms_per_side mg.maze_dim.toNat * rooms_per_side mg.maze_dim.toNat →
        connected (rooms_per_side mg.maze_dim.toNat) (opened_walls mg) r1 r2 :=
  kruskal_spanning _ _ _ (toNat_odd _ hodd hpos).2.1 (generate_maze_inv mg hodd hpos)
    (generate_maze_all_linked mg hodd hpos)

/-- The cells of the generated maze: an opened wall reads `SPACE`; any other cell reads
`SPACE` if it is a room and `WALL_OBJ` if not. -/
theorem generate_maze_cell (ids : ObjectIds) (mg : MazeGen) (hoff : 0 ≤ ids.MAZE_OFFSET)
    (i j : Nat) (hi : i < mg.maze_dim.toNat) (hj : j < mg.maze_dim.toNat) :
    ((i, j) ∈ opened_walls mg → maze_cell ids (generate_maze ids mg) i j = ids.SPACE) ∧
    ((i, j) ∉ opened_walls mg →
      maze_cell ids (generate_maze ids mg) i j =
        if i % 2 = 0 ∧ j % 2 = 0 then ids.SPACE else ids.WALL_OBJ) := by
  obtain ⟨-, -, hg⟩ := process_fold ids (rooms_per_side mg.maze_dim.toNat)
    (shuffle (candidate_walls mg.maze_dim.toNat).length mg.rand_gen
      (candidate_walls mg.maze_dim.toNat)).1 (initial_grid ids mg.maze_dim.toNat)
  obtain ⟨h1, h2⟩ := hg i j (initial_grid_contains ids _ hoff i j hi hj)
  refine ⟨fun hm => h1 hm, fun hm => ?_⟩
  rw [← initial_grid_cell ids _ hoff i j hi hj]
  exact h2 hm

/-- An open wall cell of the generated maze is an opened wall. -/
theorem generate_maze_wall_open_iff (ids : ObjectIds) (mg : MazeGen)
    (hoff : 0 ≤ ids.MAZE_OFFSET) (w : Nat × Nat) (hw : w ∈ candidate_walls mg.maze_dim.toNat) :
    maze_cell ids (generate_maze ids mg) w.1 w.2 = ids.SPACE ↔ w ∈ opened_walls mg := by
  rw [mem_candidate_walls] at hw
  obtain ⟨h1, h2, h3⟩ := hw
  obtain ⟨c1, c2⟩ := generate_maze_cell ids mg hoff w.1 w.2 h1 h2
  constructor
  · intro h
    by_contra hm
    rw [c2 hm, if_neg (by omega)] at h
    exact ids.wall_ne_space h
  · exact c1

/-- The number of open passages of the generated maze is the number of opened walls. -/
theorem open_passages_eq (ids : ObjectIds) (mg : MazeGen) (hoff : 0 ≤ ids.MAZE_OFFSET)
    (hodd : mg.maze_dim % 2 = 1) (hpos : 0 < mg.maze_dim) :
    open_passages ids (generate_maze ids mg) = (opened_walls mg).length := by
  have hcongr : open_passages ids (generate_maze ids mg) =
      (candidate_walls mg.maze_dim.toNat).countP (fun p => decide (p ∈ opened_walls mg)) := by
    unfold open_passages
    apply List.countP_congr
    intro p hp
    have := generate_maze_wall_open_iff ids mg hoff p hp
    simp only [decide_eq_true_eq]
    exact this
  rw [hcongr, List.countP_eq_length_filter]
  apply List.Perm.length_eq
  rw [List.perm_ext_iff_of_nodup (List.Nodup.filter _ (candidate_walls_nodup _))
    (opened_walls_nodup mg hodd hpos)]
  intro p
  rw [List.mem_filter]
  simp only [decide_eq_true_eq]
  exact ⟨fun h => h.2, fun h => ⟨opened_walls_candidate mg hodd hpos p h, h⟩⟩

theorem room_cell_eq (n x y : Nat) (hx : x < n) : room_cell n (y * n + x) = (2 * x, 2 * y) := by
  unfold room_cell
  have h1 : (y * n + x) % n = x := by
    rw [Nat.add_comm, Nat.add_mul_mod_self_right, Nat.mod_eq_of_lt hx]
  have h2 : (y * n + x) / n = y := by
    rw [Nat.add_comm, Nat.add_mul_div_right _ _ (by omega : 0 < n), Nat.div_eq_of_lt hx,
      Nat.zero_add]
  rw [h1, h2]

theorem adjacent_symm (p q : Nat × Nat) (h : adjacent p q) : adjacent q p := by
  unfold adjacent at h ⊢
  omega

theorem open_step_symm (ids : ObjectIds) (mg : MazeGen) : Symmetric (open_step ids mg) :=
  fun p q ⟨hp, hq, ha⟩ => ⟨hq, hp, adjacent_symm p q ha⟩

theorem reachable_symm (ids : ObjectIds) (mg : MazeGen) (p q : Nat × Nat)
    (h : reachable ids mg p q) : reachable ids mg q p :=
  Relation.ReflTransGen.symmetric (open_step_symm ids mg) h

/-- Every room of the generated maze is an open cell. -/
theorem generate_maze_room_open (ids : ObjectIds) (mg : MazeGen) (hoff : 0 ≤ ids.MAZE_OFFSET)
    (hodd : mg.maze_dim % 2 = 1) (hpos : 0 < mg.maze_dim) (x y : Nat)
    (hx : x < rooms_per_side mg.maze_dim.toNat) (hy : y < rooms_per_side mg.maze_dim.toNat) :
    open_cell ids (generate_maze ids mg) (2 * x, 2 * y) := by
  obtain ⟨-, -, hdn⟩ := toNat_odd _ hodd hpos
  have hx2 : 2 * x < mg.maze_dim.toNat := by omega
  have hy2 : 2 * y < mg.maze_dim.toNat := by omega
  refine ⟨?_, ?_, ?_⟩
  · show ((2 * x : Nat) : Int) < mg.maze_dim
    omega
  · show ((2 * y : Nat) : Int) < mg.maze_dim
    omega
  · obtain ⟨c1, c2⟩ := generate_maze_cell ids mg hoff (2 * x) (2 * y) hx2 hy2
    by_cases hm : (2 * x, 2 * y) ∈ opened_walls mg
    · exact c1 hm
    · show maze_cell ids (generate_maze ids mg) (2 * x) (2 * y) = ids.SPACE
      rw [c2 hm, if_pos ⟨by omega, by omega⟩]

/-- Every opened wall of the generated maze is an open cell. -/
theorem generate_maze_wall_open (ids : ObjectIds) (mg : MazeGen) (hoff : 0 ≤ ids.MAZE_OFFSET)
    (hodd : mg.maze_dim % 2 = 1) (hpos : 0 < mg.maze_dim) (w : Nat × Nat)
    (hw : w ∈ opened_walls mg) : open_cell ids (generate_maze ids mg) w := by
  have hc := opened_walls_candidate mg hodd hpos w hw
  have hc2 := (mem_candidate_walls _ _).mp hc
  refine ⟨?_, ?_, (generate_maze_wall_open_iff ids mg hoff w hc).mpr hw⟩
  · show (w.1 : Int) < mg.maze_dim
    omega
  · show (w.2 : Int) < mg.maze_dim
    omega

/-- The two rooms of an opened wall are reachable from each other through the wall. -/
theorem reachable_through_wall (ids : ObjectIds) (mg : MazeGen) (hoff : 0 ≤ ids.MAZE_OFFSET)
    (hodd : mg.maze_dim % 2 = 1) (hpos : 0 < mg.maze_dim) (w : Nat × Nat)
    (hw : w ∈ opened_walls mg) :
    reachable ids (generate_maze ids mg)
      (room_cell (rooms_per_side mg.maze_dim.toNat)
        (wall_rooms (rooms_per_side mg.maze_dim.toNat) w).1)
      (room_cell (rooms_per_side mg.maze_dim.toNat)
        (wall_rooms (rooms_per_side mg.maze_dim.toNat) w).2) := by
  have hwo := generate_maze_wall_open ids mg hoff hodd hpos w hw
  have hroom := generate_maze_room_open ids mg hoff hodd hpos
  rcases candidate_wall_cases _ (toNat_odd _ hodd hpos).1 w
    (opened_walls_candidate mg hodd hpos w hw) with ⟨x, y, rfl, hx, hy⟩ | ⟨x, y, rfl, hx, hy⟩
  · rw [wall_rooms_horizontal, room_cell_eq _ _ _ (by omega), room_cell_eq _ _ _ hx]
    have s1 : open_step ids (generate_maze ids mg) (2 * x, 2 * y) (2 * x + 1, 2 * y) :=
      ⟨hroom x y (by omega) hy, hwo, Or.inr ⟨rfl, Or.inl rfl⟩⟩
    have s2 : open_step ids (generate_maze ids mg) (2 * x + 1, 2 * y) (2 * (x + 1), 2 * y) :=
      ⟨hwo, hroom (x + 1) y hx hy, Or.inr ⟨rfl, Or.inl (by show 2 * x + 1 + 1 = 2 * (x + 1); ring)⟩⟩
    exact (Relation.ReflTransGen.single s1).tail s2
  · rw [wall_rooms_vertical, room_cell_eq _ _ _ hx, room_cell_eq _ _ _ hx]
    have s1 : open_step ids (generate_maze ids mg) (2 * x, 2 * y) (2 * x, 2 * y + 1) :=
      ⟨hroom x y hx (by omega), hwo, Or.inl ⟨rfl, Or.inl rfl⟩⟩
    have s2 : open_step ids (generate_maze ids mg) (2 * x, 2 * y + 1) (2 * x, 2 * (y + 1)) :=
      ⟨hwo, hroom x (y + 1) hx hy, Or.inl ⟨rfl, Or.inl (by show 2 * y + 1 + 1 = 2 * (y + 1); ring)⟩⟩
    exact (Relation.ReflTransGen.single s1).tail s2

/-- Rooms linked by opened walls are reachable from each other through open cells. -/
theorem reachable_of_connected (ids : ObjectIds) (mg : MazeGen) (hoff : 0 ≤ ids.MAZE_OFFSET)
    (hodd : mg.maze_dim % 2 = 1) (hpos : 0 < mg.maze_dim) (a b : Nat)
    (h : connected (rooms_per_side mg.maze_dim.toNat) (opened_walls mg) a b) :
    reachable ids (generate_maze ids mg) (room_cell (rooms_per_side mg.maze_dim.toNat) a)
      (room_cell (rooms_per_side mg.maze_dim.toNat) b) := by
  induction h with
  | refl => exact Relation.ReflTransGen.refl
  | tail _ hstep ih =>
    obtain ⟨w, hw, hwr⟩ := hstep
    have hr := reachable_through_wall ids mg hoff hodd hpos w hw
    rcases hwr with e | e
    · rw [e] at hr; exact ih.trans hr
    · rw [e] at hr; exact ih.trans (reachable_symm ids _ _ _ hr)

/-! ### Closing a passage -/

theorem generate_maze_contains (ids : ObjectIds) (mg : MazeGen) (hoff : 0 ≤ ids.MAZE_OFFSET)
    (i j : Nat) (hi : i < mg.maze_dim.toNat) (hj : j < mg.maze_dim.toNat) :
    (generate_maze ids mg).grid.contains ((i : Int) + ids.MAZE_OFFSET)
      ((j : Int) + ids.MAZE_OFFSET) = true := by
  obtain ⟨-, hc, -⟩ := process_fold ids (rooms_per_side mg.maze_dim.toNat)
    (shuffle (candidate_walls mg.maze_dim.toNat).length mg.rand_gen
      (candidate_walls mg.maze_dim.toNat)).1 (initial_grid ids mg.maze_dim.toNat)
  exact (hc _ _).trans (initial_grid_contains ids _ hoff i j hi hj)

/-- The cells of the generated maze after the passage `w` is closed again. -/
theorem close_passage_cell (ids : ObjectIds) (mg : MazeGen) (hoff : 0 ≤ ids.MAZE_OFFSET)
    (w : Nat × Nat) (i j : Nat) (hi : i < mg.maze_dim.toNat) (hj : j < mg.maze_dim.toNat) :
    maze_cell ids (close_passage ids (generate_maze ids mg) w) i j =
      if i = w.1 ∧ j = w.2 then ids.WALL_OBJ else maze_cell ids (generate_maze ids mg) i j :=
  cell_get_cell_set ids _ _ _ _ _ _ (generate_maze_contains ids mg hoff i j hi hj)

/-- An open cell of the maze with the passage `w` closed is a room or another opened
wall. -/
theorem close_passage_open_cell (ids : ObjectIds) (mg : MazeGen) (hoff : 0 ≤ ids.MAZE_OFFSET)
    (hpos : 0 < mg.maze_dim) (w p : Nat × Nat)
    (h : open_cell ids (close_passage ids (generate_maze ids mg) w) p) :
    (p.1 % 2 = 0 ∧ p.2 % 2 = 0) ∨ p ∈ (opened_walls mg).erase w := by
  obtain ⟨h1, h2, h3⟩ := h
  have h1 : (p.1 : Int) < mg.maze_dim := h1
  have h2 : (p.2 : Int) < mg.maze_dim := h2
  have hi : p.1 < mg.maze_dim.toNat := by omega
  have hj : p.2 < mg.maze_dim.toNat := by omega
  rw [close_passage_cell ids mg hoff w p.1 p.2 hi hj] at h3
  by_cases hpw : p.1 = w.1 ∧ p.2 = w.2
  · rw [if_pos hpw] at h3
    exact absurd h3 ids.wall_ne_space
  · rw [if_neg hpw] at h3
    obtain ⟨c1, c2⟩ := generate_maze_cell ids mg hoff p.1 p.2 hi hj
    by_cases hm : (p.1, p.2) ∈ opened_walls mg
    · right
      have hne : p ≠ w := fun e => hpw ⟨by rw [e], by rw [e]⟩
      exact (List.mem_erase_of_ne hne).mpr hm
    · left
      rw [c2 hm] at h3
      by_contra hpar
      rw [if_neg hpar] at h3
      exact ids.wall_ne_space h3

/-- A room next to a wall cell is one of the two rooms of that wall. -/
theorem endpoint_of_adjacent (n : Nat) (r q : Nat × Nat) (hr : r.1 % 2 = 0 ∧ r.2 % 2 = 0)
    (hq : (q.1 + q.2) % 2 = 1) (hadj : adjacent r q) :
    room_id n r.1 r.2 = (wall_rooms n q).1 ∨ room_id n r.1 r.2 = (wall_rooms n q).2 := by
  unfold adjacent at hadj
  unfold wall_rooms
  by_cases hp : q.1 % 2 = 1
  · rw [if_pos hp]
    rcases hadj with ⟨e, -⟩ | ⟨e1, e2 | e2⟩
    · omega
    · left
      have : r.1 = q.1 - 1 := by omega
      rw [this, e1]
    · right
      have : r.1 = q.1 + 1 := by omega
      rw [this, e1]
  · rw [if_neg hp]
    rcases hadj with ⟨e1, e2 | e2⟩ | ⟨e, -⟩
    · left
      have : r.2 = q.2 - 1 := by omega
      rw [this, e1]
    · right
      have : r.2 = q.2 + 1 := by omega
      rw [this, e1]
    · omega

theorem room_id_room_cell (n r : Nat) : room_id n (room_cell n r).1 (room_cell n r).2 = r := by
  unfold room_cell
  rw [room_id_even]
  exact Nat.div_add_mod' r n

/-- In the maze with the passage `w` closed, a cell reachable from the room `a` is a room
linked to `a` by the other opened walls, or an opened wall whose two rooms are. -/
theorem connected_of_reachable_closed (ids : ObjectIds) (mg : MazeGen)
    (hoff : 0 ≤ ids.MAZE_OFFSET) (hodd : mg.maze_dim % 2 = 1) (hpos : 0 < mg.maze_dim)
    (w : Nat × Nat) (a : Nat) (q : Nat × Nat)
    (h : reachable ids (close_passage ids (generate_maze ids mg) w)
      (room_cell (rooms_per_side mg.maze_dim.toNat) a) q) :
    (q.1 % 2 = 0 ∧ q.2 % 2 = 0 →
      connected (rooms_per_side mg.maze_dim.toNat) ((opened_walls mg).erase w) a
        (room_id (rooms_per_side mg.maze_dim.toNat) q.1 q.2)) ∧
    (q ∈ (opened_walls mg).erase w →
      connected (rooms_per_side mg.maze_dim.toNat) ((opened_walls mg).erase w) a
        (wall_rooms (rooms_per_side mg.maze_dim.toNat) q).1 ∧
      connected (rooms_per_side mg.maze_dim.toNat) ((opened_walls mg).erase w) a
        (wall_rooms (rooms_per_side mg.maze_dim.toNat) q).2) := by
  have hodd_sum : ∀ v, v ∈ (opened_walls mg).erase w → (v.1 + v.2) % 2 = 1 := fun v hv =>
    ((mem_candidate_walls _ _).mp
      (opened_walls_candidate mg hodd hpos v (List.mem_of_mem_erase hv))).2.2
  induction h with
  | refl =>
    constructor
    · intro _
      rw [room_id_room_cell]
      exact Relation.ReflTransGen.refl
    · intro hm
      have := hodd_sum _ hm
      have e1 : (room_cell (rooms_per_side mg.maze_dim.toNat) a).1
          = 2 * (a % rooms_per_side mg.maze_dim.toNat) := rfl
      have e2 : (room_cell (rooms_per_side mg.maze_dim.toNat) a).2
          = 2 * (a / rooms_per_side mg.maze_dim.toNat) := rfl
      omega
  | @tail q0 q1 _ hstep ih =>
    obtain ⟨ho0, ho1, hadj⟩ := hstep
    have hc0 := close_passage_open_cell ids mg hoff hpos w q0 ho0
    have hc1 := close_passage_open_cell ids mg hoff hpos w q1 ho1
    have hadj2 : (q0.1 = q1.1 ∧ (q0.2 + 1 = q1.2 ∨ q1.2 + 1 = q0.2)) ∨
        (q0.2 = q1.2 ∧ (q0.1 + 1 = q1.1 ∨ q1.1 + 1 = q0.1)) := hadj
    constructor
    · intro hpar
      rcases hc0 with hr0 | hm0
      · omega
      · have hs := hodd_sum _ hm0
        obtain ⟨c1, c2⟩ := ih.2 hm0
        rcases endpoint_of_adjacent (rooms_per_side mg.maze_dim.toNat) q1 q0 hpar hs
          (adjacent_symm _ _ hadj) with e | e
        · rw [e]; exact c1
        · rw [e]; exact c2
    · intro hm1
      have hs := hodd_sum _ hm1
      rcases hc0 with hr0 | hm0
      · have c := ih.1 hr0
        have hj : connected (rooms_per_side mg.maze_dim.toNat) ((opened_walls mg).erase w)
            (wall_rooms (rooms_per_side mg.maze_dim.toNat) q1).1
            (wall_rooms (rooms_per_side mg.maze_dim.toNat) q1).2 :=
          connected_of_wall _ _ q1 hm1
        rcases endpoint_of_adjacent (rooms_per_side mg.maze_dim.toNat) q0 q1 hr0 hs hadj
          with e | e
        · rw [e] at c
          exact ⟨c, c.trans hj⟩
        · rw [e] at c
          exact ⟨c.trans (connected_symm _ _ _ _ hj), c⟩
      · have hs0 := hodd_sum _ hm0
        omega

/-- Every open passage of the generated maze is a bridge: with the passage closed again,
its two rooms are not reachable from each other. -/
theorem generate_maze_passage_is_bridge (ids : ObjectIds) (mg : MazeGen)
    (hoff : 0 ≤ ids.MAZE_OFFSET) (hodd : mg.maze_dim % 2 = 1) (hpos : 0 < mg.maze_dim)
    (w : Nat × Nat) (hw : w ∈ candidate_walls mg.maze_dim.toNat)
    (hopen : maze_cell ids (generate_maze ids mg) w.1 w.2 = ids.SPACE) :
    ¬ reachable ids (close_passage ids (generate_maze ids mg) w)
      (room_cell (rooms_per_side mg.maze_dim.toNat)
        (wall_rooms (rooms_per_side mg.maze_dim.toNat) w).1)
      (room_cell (rooms_per_side mg.maze_dim.toNat)
        (wall_rooms (rooms_per_side mg.maze_dim.toNat) w).2) := by
  intro h
  have hwo : w ∈ opened_walls mg := (generate_maze_wall_open_iff ids mg hoff w hw).mp hopen
  have hc := (connected_of_reachable_closed ids mg hoff hodd hpos w _ _ h).1
    ⟨by show 2 * _ % 2 = 0; omega, by show 2 * _ % 2 = 0; omega⟩
  rw [room_id_room_cell] at hc
  exact opened_wall_is_bridge _ _ _ (toNat_odd _ hodd hpos).2.1
    (fun v hv => candidate_wall_rooms_lt _ (toNat_odd _ hodd hpos).1 v ((shuffled_mem mg v).mp hv))
    (generate_maze_inv mg hodd hpos) (generate_maze_all_linked mg hodd hpos) w hwo hc

end MazeGen

/-! ## Spanning tree (C7) -/

namespace MazeGen

/-- C7: for every odd positive `maze_dim` and every state of the random source, the maze
produced by `generate_maze` is a spanning tree over its `((maze_dim + 1) / 2)^2` rooms:
every room is an open cell, every room is reachable from every other room through open
cells, the number of open passages is exactly `rooms - 1`, and closing any open passage
disconnects its two rooms (so there is no cycle). -/
theorem generate_maze_spanning_tree (ids : ObjectIds) (mg : MazeGen)
    (hoff : 0 ≤ ids.MAZE_OFFSET) (hodd : mg.maze_dim % 2 = 1) (hpos : 0 < mg.maze_dim) :
    (∀ x y : Nat, x < rooms_per_side mg.maze_dim.toNat → y < rooms_per_side mg.maze_dim.toNat →
      open_cell ids (generate_maze ids mg) (2 * x, 2 * y)) ∧
    (∀ x1 y1 x2 y2 : Nat,
      x1 < rooms_per_side mg.maze_dim.toNat → y1 < rooms_per_side mg.maze_dim.toNat →
      x2 < rooms_per_side mg.maze_dim.toNat → y2 < rooms_per_side mg.maze_dim.toNat →
      reachable ids (generate_maze ids mg) (2 * x1, 2 * y1) (2 * x2, 2 * y2)) ∧
    open_passages ids (generate_maze ids mg)
      = rooms_per_side mg.maze_dim.toNat * rooms_per_side mg.maze_dim.toNat - 1 ∧
    (∀ w ∈ candidate_walls mg.maze_dim.toNat,
      maze_cell ids (generate_maze ids mg) w.1 w.2 = ids.SPACE →
      ¬ reachable ids (close_passage ids (generate_maze ids mg) w)
        (room_cell (rooms_per_side mg.maze_dim.toNat)
          (wall_rooms (rooms_per_side mg.maze_dim.toNat) w).1)
        (room_cell (rooms_per_side mg.maze_dim.toNat)
          (wall_rooms (rooms_per_side mg.maze_dim.toNat) w).2)) := by
  obtain ⟨hlen, hconn⟩ := opened_walls_spanning mg hodd hpos
  refine ⟨generate_maze_room_open ids mg hoff hodd hpos, ?_, ?_,
    generate_maze_passage_is_bridge ids mg hoff hodd hpos⟩
  · intro x1 y1 x2 y2 hx1 hy1 hx2 hy2
    have h := reachable_of_connected ids mg hoff hodd hpos _ _
      (hconn (y1 * rooms_per_side mg.maze_dim.toNat + x1)
        (y2 * rooms_per_side mg.maze_dim.toNat + x2)
        (room_lt _ _ _ hx1 hy1) (room_lt _ _ _ hx2 hy2))
    rw [room_cell_eq _ _ _ hx1, room_cell_eq _ _ _ hx2] at h
    exact h
  · rw [open_passages_eq ids mg hoff hodd hpos]
    omega

/-- Witness of C7: the 3 by 3 maze generated from the tape 3, 1, 2, 0 has four rooms and
exactly three open passages. -/
theorem generate_maze_spanning_tree_witness :
    open_passages sampleIds (generate_maze sampleIds (sampleMazeGen [3, 1, 2, 0])) = 3 :=
  (generate_maze_spanning_tree sampleIds (sampleMazeGen [3, 1, 2, 0])
    (by decide) (by decide) (by decide)).2.2.1

end MazeGen

/-! ## Termination flag (C17) -/

namespace MazeGame

theorem with_done_goal_at_agent (ids : ObjectIds) (b : MazeGame) (d : Bool) :
    goal_at_agent ids (with_done b d) = goal_at_agent ids b := rfl

theorem game_step_maze_with_done (ids : ObjectIds) (b : MazeGame) (d : Bool) :
    game_step_maze ids (with_done b d) = game_step_maze ids b := by
  have hao : after_orientation (with_done b d) = with_done (after_orientation b) d := by
    simp only [after_orientation, with_done]
    split_ifs <;> rfl
  cases hg : goal_at_agent ids b
  · rw [game_step_maze_of_no_goal ids b hg,
      game_step_maze_of_no_goal ids (with_done b d) (by rw [with_done_goal_at_agent]; exact hg),
      hao]
    rfl
  · rw [game_step_maze_of_goal ids b hg,
      game_step_maze_of_goal ids (with_done b d) (by rw [with_done_goal_at_agent]; exact hg),
      hao]
    rfl

/-- C17: after every `game_step`, `done` is true if and only if the step reward is
strictly positive; the result does not depend on the value `done` had before the
maze-specific part of the step; and `game_step` never reports `done = true` together
with reward 0. -/
theorem game_step_done_iff_reward (ids : ObjectIds) (base : MazeGame → MazeGame)
    (s : MazeGame) :
    ((game_step ids base s).step_data.done = true ↔
      (game_step ids base s).step_data.reward > 0) ∧
    (∀ d : Bool, game_step_maze ids (with_done (base s) d) = game_step ids base s) ∧
    ¬ ((game_step ids base s).step_data.done = true ∧
      (game_step ids base s).step_data.reward = 0) := by
  have hd : (game_step ids base s).step_data.done =
      decide ((game_step ids base s).step_data.reward > 0) := step_done ids (base s)
  refine ⟨?_, fun d => game_step_maze_with_done ids (base s) d, ?_⟩
  · rw [hd, decide_eq_true_eq]
  · rintro ⟨h1, h2⟩
    rw [hd, decide_eq_true_eq, h2] at h1
    exact lt_irrefl _ h1

end MazeGame

/-! ## Out-of-bounds cell under the agent (C15) -/

namespace MazeGame

/-- C15: the constructor configures `out_of_bounds_object = WALL_OBJ`; when the agent's
truncated cell lies outside `[0, world_dim) x [0, world_dim)` of a world of side
`world_dim`, the cell query of `game_step` returns `WALL_OBJ`, and the tick grants no
reward, does not set `level_complete` and modifies no world cell. -/
theorem game_step_out_of_bounds (ids : ObjectIds) (base : MazeGame → MazeGame) (s : MazeGame)
    (hw : (base s).grid.w = (base s).world_dim) (hh : (base s).grid.h = (base s).world_dim)
    (hout : ¬ (0 ≤ truncToInt (base s).agent.x ∧
      truncToInt (base s).agent.x < (base s).world_dim ∧
      0 ≤ truncToInt (base s).agent.y ∧
      truncToInt (base s).agent.y < (base s).world_dim)) :
    out_of_bounds_object ids = ids.WALL_OBJ ∧
    get_obj ids (base s) (truncToInt (base s).agent.x) (truncToInt (base s).agent.y)
      = ids.WALL_OBJ ∧
    (game_step ids base s).step_data.reward = (base s).step_data.reward ∧
    (game_step ids base s).step_data.level_complete = (base s).step_data.level_complete ∧
    (game_step ids base s).grid = (base s).grid ∧
    (∀ x y : Int, get_obj ids (game_step ids base s) x y = get_obj ids (base s) x y) := by
  have hc : ¬ (base s).grid.contains (truncToInt (base s).agent.x)
      (truncToInt (base s).agent.y) = true := by
    rw [Grid.contains_iff, hw, hh]
    exact hout
  have hget : get_obj ids (base s) (truncToInt (base s).agent.x)
      (truncToInt (base s).agent.y) = ids.WALL_OBJ := by
    unfold get_obj
    rw [if_neg hc]
    rfl
  have hg : goal_at_agent ids (base s) = false := by
    rw [goal_at_agent_eq_false, hget]
    exact ids.wall_ne_goal
  have hgrid : (game_step ids base s).grid = (base s).grid := by
    unfold game_step
    rw [game_step_maze_of_no_goal ids (base s) hg]
    exact after_orientation_grid (base s)
  refine ⟨rfl, hget, ?_, ?_, hgrid, fun x y => get_obj_congr ids _ _ hgrid x y⟩
  · exact step_reward_of_no_goal ids (base s) hg
  · unfold game_step
    rw [game_step_maze_of_no_goal ids (base s) hg]

theorem sample_trunc_seven_halves : truncToInt (7 / 2 : ℚ) = 3 :=
  truncToInt_eq _ 3 (by norm_num) (by norm_num) (by norm_num)

/-- Witness of C15: the agent stands at `(3.5, 0.5)`, right of the 3 by 3 sample world;
the step grants no reward and leaves the world as it was. -/
theorem game_step_out_of_bounds_witness :
    (game_step sampleIds id (sampleGame (7 / 2) (1 / 2) 0)).step_data.reward = 0 ∧
      (game_step sampleIds id (sampleGame (7 / 2) (1 / 2) 0)).grid = sampleWorld := by
  have h := game_step_out_of_bounds sampleIds id (sampleGame (7 / 2) (1 / 2) 0) rfl rfl
    (by
      show ¬ (0 ≤ truncToInt (7 / 2 : ℚ) ∧ truncToInt (7 / 2 : ℚ) < 3 ∧ _ ∧ _)
      rw [sample_trunc_seven_halves]
      rintro ⟨-, h, -, -⟩
      exact absurd h (by decide))
  exact ⟨h.2.2.1, h.2.2.2.2.1⟩

end MazeGame

/-! ## Centering of the maze region (C12) -/

namespace MazeGame

/-- C12: for odd `world_dim` and odd `maze_dim <= world_dim` (in particular for
`3 <= maze_dim <= world_dim`), the
margin `(world_dim - maze_dim) / 2` satisfies `2 * margin + maze_dim = world_dim` and
`margin >= 0`, and every coordinate `margin + i` with `0 <= i < maze_dim` that the copy
loop of `game_reset` writes lies in `[0, world_dim)`, so the written cells are cells of a
world of side `world_dim`. -/
theorem margin_centered (world_dim maze_dim : Int) (hw : world_dim % 2 = 1)
    (hm : maze_dim % 2 = 1) (hle : maze_dim ≤ world_dim) :
    2 * margin_of world_dim maze_dim + maze_dim = world_dim ∧
    0 ≤ margin_of world_dim maze_dim ∧
    (∀ i : Int, 0 ≤ i → i < maze_dim →
      0 ≤ margin_of world_dim maze_dim + i ∧ margin_of world_dim maze_dim + i < world_dim) ∧
    (∀ (t : MazeGame), t.grid.w = world_dim → t.grid.h = world_dim →
      ∀ i j : Int, 0 ≤ i → i < maze_dim → 0 ≤ j → j < maze_dim →
        t.grid.contains (margin_of world_dim maze_dim + i) (margin_of world_dim maze_dim + j)
          = true) := by
  have e : margin_of world_dim maze_dim = (world_dim - maze_dim) / 2 := by
    unfold margin_of
    exact Int.tdiv_eq_ediv (by omega) (by norm_num)
  rw [e]
  refine ⟨by omega, by omega, fun i h0 h1 => ⟨by omega, by omega⟩, ?_⟩
  intro t htw hth i j hi0 hi1 hj0 hj1
  rw [Grid.contains_iff, htw, hth]
  exact ⟨by omega, by omega, by omega, by omega⟩

/-- Witness of C12: the easy mode world of side 15 with a 9 by 9 maze; the margin is 3 on
each side. -/
theorem margin_centered_witness :
    2 * margin_of 15 9 + 9 = 15 ∧ 0 ≤ margin_of 15 9 :=
  ⟨(margin_centered 15 9 (by decide) (by decide) (by decide)).1,
    (margin_centered 15 9 (by decide) (by decide) (by decide)).2.1⟩

end MazeGame

/-! ## Agent start (C13) -/

namespace MazeGame

theorem truncToInt_add_half (m : Int) (hm : 0 ≤ m) : truncToInt ((m : ℚ) + 1 / 2) = m := by
  have h0 : (0 : ℚ) ≤ (m : ℚ) := by exact_mod_cast hm
  exact truncToInt_eq _ m (by linarith) (by linarith) (by linarith)

theorem game_reset_agent_x (ids : ObjectIds) (base : MazeGame → MazeGame) (ops : MazeGenOps)
    (s0 : MazeGame) :
    (game_reset ids base ops s0).agent.x =
      (margin_of (game_reset ids base ops s0).world_dim
        (game_reset ids base ops s0).maze_dim : ℚ) + 1 / 2 := by
  rw [game_reset_world_dim, game_reset_maze_dim]
  obtain ⟨g, h⟩ := game_reset_frame ids base ops s0
  rw [h]; rfl

theorem game_reset_agent_y (ids : ObjectIds) (base : MazeGame → MazeGame) (ops : MazeGenOps)
    (s0 : MazeGame) :
    (game_reset ids base ops s0).agent.y =
      (margin_of (game_reset ids base ops s0).world_dim
        (game_reset ids base ops s0).maze_dim : ℚ) + 1 / 2 := by
  rw [game_reset_world_dim, game_reset_maze_dim]
  obtain ⟨g, h⟩ := game_reset_frame ids base ops s0
  rw [h]; rfl

/-- C13: after `game_reset` over a sized world the agent's position is
`(margin + 0.5, margin + 0.5)`, its truncated cell is `(margin, margin)`, that cell is a
world cell, and it holds the maze grid's first cell, read at
`(MAZE_OFFSET, MAZE_OFFSET)`. -/
theorem game_reset_agent_start (ids : ObjectIds) (base : MazeGame → MazeGame)
    (ops : MazeGenOps) (s0 : MazeGame) (hws : WorldSized (base s0)) :
    (game_reset ids base ops s0).agent.x =
      (margin_of (game_reset ids base ops s0).world_dim
        (game_reset ids base ops s0).maze_dim : ℚ) + 1 / 2 ∧
    (game_reset ids base ops s0).agent.y =
      (margin_of (game_reset ids base ops s0).world_dim
        (game_reset ids base ops s0).maze_dim : ℚ) + 1 / 2 ∧
    truncToInt (game_reset ids base ops s0).agent.x =
      margin_of (game_reset ids base ops s0).world_dim (game_reset ids base ops s0).maze_dim ∧
    truncToInt (game_reset ids base ops s0).agent.y =
      margin_of (game_reset ids base ops s0).world_dim (game_reset ids base ops s0).maze_dim ∧
    (game_reset ids base ops s0).grid.contains
      (truncToInt (game_reset ids base ops s0).agent.x)
      (truncToInt (game_reset ids base ops s0).agent.y) = true ∧
    ∃ mg : MazeGen, (game_reset ids base ops s0).maze_gen = some mg ∧
      get_obj ids (game_reset ids base ops s0)
        (truncToInt (game_reset ids base ops s0).agent.x)
        (truncToInt (game_reset ids base ops s0).agent.y)
        = mg.grid.get ids.MAZE_OFFSET ids.MAZE_OFFSET := by
  obtain ⟨-, h3, hle, h0, h1⟩ := game_reset_arith ids base ops s0 hws
  have hx := game_reset_agent_x ids base ops s0
  have hy := game_reset_agent_y ids base ops s0
  have htx : truncToInt (game_reset ids base ops s0).agent.x =
      margin_of (game_reset ids base ops s0).world_dim (game_reset ids base ops s0).maze_dim := by
    rw [hx]; exact truncToInt_add_half _ h0
  have hty : truncToInt (game_reset ids base ops s0).agent.y =
      margin_of (game_reset ids base ops s0).world_dim (game_reset ids base ops s0).maze_dim := by
    rw [hy]; exact truncToInt_add_half _ h0
  have hgw : (base s0).grid.w = (base s0).world_dim := hws.2.1
  have hgh : (base s0).grid.h = (base s0).world_dim := hws.2.2.1
  refine ⟨hx, hy, htx, hty, ?_, reset_maze_gen ops (base s0),
    game_reset_maze_gen ids base ops s0, ?_⟩
  · rw [htx, hty, game_reset_contains, Grid.contains_iff, hgw, hgh]
    exact ⟨h0, by omega, h0, by omega⟩
  · rw [htx, hty, game_reset_get_obj ids base ops s0 hws,
      if_pos ⟨le_refl _, by omega, le_refl _, by omega⟩]
    congr 1 <;> omega

/-- Witness of C13: the reset of the 5 by 5 sample world; the agent starts at
`(1.5, 1.5)`, in the cell `(1, 1)`. -/
theorem game_reset_agent_start_witness :
    WorldSized (id sampleResetGame) ∧
      (game_reset sampleIds id sampleOps sampleResetGame).agent.x = 3 / 2 ∧
      truncToInt (game_reset sampleIds id sampleOps sampleResetGame).agent.x = 1 := by
  have h := game_reset_agent_start sampleIds id sampleOps sampleResetGame sample_reset_sized
  refine ⟨sample_reset_sized, ?_, ?_⟩
  · rw [h.1, sample_reset_margin]
    norm_num
  · rw [h.2.2.1, sample_reset_margin]

end MazeGame

/-! ## Orientation flag (C14) -/

namespace MazeGame

theorem after_orientation_flag (b : MazeGame) :
    (after_orientation b).agent.is_reflected =
      if b.action_vx > 0 then true else if b.action_vx < 0 then false
      else b.agent.is_reflected := by
  simp only [after_orientation]
  by_cases h1 : b.action_vx > 0
  · have h2 : ¬ b.action_vx < 0 := not_lt.mpr h1.le
    simp [h1, h2]
  · by_cases h2 : b.action_vx < 0
    · simp [h1, h2]
    · simp [h1, h2]

theorem game_step_maze_agent (ids : ObjectIds) (b : MazeGame) :
    (game_step_maze ids b).agent = (after_orientation b).agent := by
  cases hg : goal_at_agent ids b
  · rw [game_step_maze_of_no_goal ids b hg]
  · rw [game_step_maze_of_goal ids b hg]
    rfl

theorem game_step_maze_flag (ids : ObjectIds) (b : MazeGame) :
    (game_step_maze ids b).agent.is_reflected =
      if b.action_vx > 0 then true else if b.action_vx < 0 then false
      else b.agent.is_reflected := by
  rw [game_step_maze_agent, after_orientation_flag]

/-- The maze-specific part of the step, apart from the agent record, does not read the
orientation flag. -/
theorem game_step_maze_with_reflected (ids : ObjectIds) (b : MazeGame) (flag : Bool) :
    (game_step_maze ids (with_reflected b flag)).step_data = (game_step_maze ids b).step_data ∧
      (game_step_maze ids (with_reflected b flag)).grid = (game_step_maze ids b).grid := by
  have hgoal : goal_at_agent ids (with_reflected b flag) = goal_at_agent ids b := rfl
  have hgrid : (after_orientation (with_reflected b flag)).grid = (after_orientation b).grid := by
    rw [after_orientation_grid, after_orientation_grid]; rfl
  cases hg : goal_at_agent ids b
  · rw [game_step_maze_of_no_goal ids b hg,
      game_step_maze_of_no_goal ids (with_reflected b flag) (by rw [hgoal]; exact hg)]
    exact ⟨rfl, hgrid⟩
  · rw [game_step_maze_of_goal ids b hg,
      game_step_maze_of_goal ids (with_reflected b flag) (by rw [hgoal]; exact hg)]
    refine ⟨rfl, ?_⟩
    show (after_orientation (with_reflected b flag)).grid.set _ _ _
      = (after_orientation b).grid.set _ _ _
    rw [hgrid]
    rfl

theorem orientation_after_cons (r : Bool) (v : ℚ) (vs : List ℚ) :
    orientation_after r (v :: vs) =
      orientation_after (if v > 0 then true else if v < 0 then false else r) vs := rfl

theorem orientation_after_zeros (r : Bool) (vs : List ℚ) (h : ∀ v ∈ vs, v = 0) :
    orientation_after r vs = r := by
  induction vs generalizing r with
  | nil => rfl
  | cons v vs ih =>
    have hv : v = 0 := h v (List.mem_cons_self _ _)
    rw [orientation_after_cons, ih _ (fun u hu => h u (List.mem_cons_of_mem _ hu)), hv]
    simp

theorem orientation_after_last (r : Bool) (pre : List ℚ) (v : ℚ) (post : List ℚ)
    (hv : v ≠ 0) (hpost : ∀ u ∈ post, u = 0) :
    orientation_after r (pre ++ v :: post) = decide (v > 0) := by
  induction pre generalizing r with
  | nil =>
    show orientation_after r (v :: post) = _
    rw [orientation_after_cons, orientation_after_zeros _ post hpost]
    by_cases h1 : v > 0
    · simp [h1]
    · have h2 : v < 0 := lt_of_le_of_ne (not_lt.mp h1) hv
      simp [h1, h2]
  | cons u pre ih =>
    show orientation_after r (u :: (pre ++ v :: post)) = _
    rw [orientation_after_cons]
    exact ih _

theorem run_end_flag (ids : ObjectIds) (bases : List (MazeGame → MazeGame)) (s0 : MazeGame)
    (hkeep : ∀ base ∈ bases, ∀ t : MazeGame,
      (base t).action_vx = 0 → (base t).agent.is_reflected = t.agent.is_reflected) :
    (run_end ids bases s0).agent.is_reflected =
      orientation_after s0.agent.is_reflected (velocities ids bases s0) := by
  induction bases generalizing s0 with
  | nil => rfl
  | cons base rest ih =>
    have hrest := ih (tick ids base s0) (fun c hc => hkeep c (List.mem_cons_of_mem _ hc))
    have hb := hkeep base (List.mem_cons_self _ _) (begin_tick s0)
    show (run_end ids rest (tick ids base s0)).agent.is_reflected =
      orientation_after s0.agent.is_reflected
        ((checked_state base s0).action_vx :: velocities ids rest (tick ids base s0))
    rw [hrest, orientation_after_cons, tick_eq, game_step_maze_flag]
    by_cases h1 : (checked_state base s0).action_vx > 0
    · simp [h1]
    · by_cases h2 : (checked_state base s0).action_vx < 0
      · simp [h1, h2]
      · have h0 : (checked_state base s0).action_vx = 0 :=
          le_antisymm (not_lt.mp h1) (not_lt.mp h2)
        have hflag : (checked_state base s0).agent.is_reflected = s0.agent.is_reflected :=
          hb h0
        simp [h1, h2, hflag]

/-- C14: after `game_step` the orientation flag is true if `action_vx > 0`, false if
`action_vx < 0` and unchanged if `action_vx = 0`; over a run whose base steps leave the
flag alone when there is no horizontal velocity, the flag at the end mirrors the sign of
the last nonzero horizontal velocity (and is the initial flag if there was none); and
the reward, `done`, `level_complete` and world grid produced by the maze-specific part
of `game_step` do not depend on the prior value of the flag. -/
theorem orientation_flag (ids : ObjectIds) (bases : List (MazeGame → MazeGame))
    (s0 : MazeGame)
    (hkeep : ∀ base ∈ bases, ∀ t : MazeGame,
      (base t).action_vx = 0 → (base t).agent.is_reflected = t.agent.is_reflected) :
    (∀ (base : MazeGame → MazeGame) (s : MazeGame),
      ((base s).action_vx > 0 → (game_step ids base s).agent.is_reflected = true) ∧
      ((base s).action_vx < 0 → (game_step ids base s).agent.is_reflected = false) ∧
      ((base s).action_vx = 0 →
        (game_step ids base s).agent.is_reflected = (base s).agent.is_reflected)) ∧
    (run_end ids bases s0).agent.is_reflected =
      orientation_after s0.agent.is_reflected (velocities ids bases s0) ∧
    ((∀ v ∈ velocities ids bases s0, v = 0) →
      (run_end ids bases s0).agent.is_reflected = s0.agent.is_reflected) ∧
    (∀ (pre : List ℚ) (v : ℚ) (post : List ℚ),
      velocities ids bases s0 = pre ++ v :: post → v ≠ 0 → (∀ u ∈ post, u = 0) →
      (run_end ids bases s0).agent.is_reflected = decide (v > 0)) ∧
    (∀ (b : MazeGame) (flag : Bool),
      (game_step_maze ids (with_reflected b flag)).step_data = (game_step_maze ids b).step_data ∧
      (game_step_maze ids (with_reflected b flag)).grid = (game_step_maze ids b).grid) := by
  have hrun := run_end_flag ids bases s0 hkeep
  refine ⟨?_, hrun, ?_, ?_, game_step_maze_with_reflected ids⟩
  · intro base s
    have hf : (game_step ids base s).agent.is_reflected = _ := game_step_maze_flag ids (base s)
    refine ⟨fun h => ?_, fun h => ?_, fun h => ?_⟩
    · rw [hf, if_pos h]
    · rw [hf, if_neg (not_lt.mpr h.le), if_pos h]
    · rw [hf, h]; simp
  · intro hz
    rw [hrun, orientation_after_zeros _ _ hz]
  · intro pre v post he hv hpost
    rw [hrun, he, orientation_after_last _ pre v post hv hpost]

/-- Witness of C14: the agent moves right, then stands still; the flag, false at the
start, is true at the end. -/
theorem orientation_flag_witness :
    (run_end sampleIds [samplePush 1, samplePush 0]
      (sampleGame (1 / 2) (1 / 2) 0)).agent.is_reflected = true := by
  have h := (orientation_flag sampleIds [samplePush 1, samplePush 0]
    (sampleGame (1 / 2) (1 / 2) 0)
    (by
      intro base hm t _
      simp only [List.mem_cons, List.mem_singleton, List.not_mem_nil, or_false] at hm
      rcases hm with rfl | rfl <;> rfl)).2.2.2.1 [] 1 [0] rfl
    one_ne_zero (fun u hu => List.mem_singleton.mp hu)
  rw [h]
  simp

end MazeGame

/-! ## Grid equality -/

/-- Two grids of the same dimensions that agree at every index are equal. -/
theorem Grid.eq_of_get_index (g1 g2 : Grid) (hw : g1.w = g2.w) (hh : g1.h = g2.h)
    (hget : ∀ j : Int, 0 ≤ j → j < g1.w * g1.h → g1.get_index j = g2.get_index j) :
    g1 = g2 := by
  obtain ⟨w1, h1, d1, wf1⟩ := g1
  obtain ⟨w2, h2, d2, wf2⟩ := g2
  have hw2 : w1 = w2 := hw
  have hh2 : h1 = h2 := hh
  subst hw2
  subst hh2
  have hlen : d1.length = d2.length := by
    have a1 := wf1.2.2
    have a2 := wf2.2.2
    omega
  have hd : d1 = d2 := by
    apply List.ext_getElem hlen
    intro n hn1 hn2
    have hj := hget (n : Int) (by omega) (by
      show (n : Int) < w1 * h1
      have a1 : (d1.length : Int) = w1 * h1 := wf1.2.2
      omega)
    simp only [Grid.get_index, Int.toNat_ofNat] at hj
    rw [List.getD_eq_getElem _ _ hn1, List.getD_eq_getElem _ _ hn2] at hj
    exact hj
  subst hd
  rfl

/-- Writing the value that an index already holds changes nothing. -/
theorem Grid.set_index_self (g : Grid) (i v : Int) (h : g.get_index i = v) :
    g.set_index i v = g := by
  apply Grid.eq_of_get_index _ _ (Grid.set_index_w g i v) (Grid.set_index_h g i v)
  intro j h0 h1
  rw [Grid.set_index_w, Grid.set_index_h] at h1
  rw [Grid.get_index_set_index g i j v ⟨h0, h1⟩]
  split
  · rename_i hji
    rw [hji, h]
  · rfl

/-- Writing the value that a cell already holds changes nothing. -/
theorem Grid.set_self (g : Grid) (x y v : Int)
    (h : g.contains x y = true → g.get x y = v) : g.set x y v = g := by
  unfold Grid.set
  split
  · rename_i hc
    exact Grid.set_index_self g _ v (h hc)
  · rfl

namespace MazeGame

theorem set_obj_self (ids : ObjectIds) (s : MazeGame) (x y : Int)
    (h : get_obj ids s x y = ids.WALL_OBJ) : set_obj s x y ids.WALL_OBJ = s := by
  have hg : s.grid.set x y ids.WALL_OBJ = s.grid := by
    apply Grid.set_self
    intro hc
    unfold get_obj at h
    rw [if_pos hc] at h
    exact h
  unfold set_obj
  rw [hg]

/-- A loop whose body reads only the world grid: equal grids give equal grids. -/
theorem foldl_grid_congr {α : Type} (f : MazeGame → α → MazeGame)
    (hf : ∀ (s t : MazeGame) (a : α), s.grid = t.grid → (f s a).grid = (f t a).grid)
    (l : List α) (s t : MazeGame) (h : s.grid = t.grid) :
    (l.foldl f s).grid = (l.foldl f t).grid := by
  induction l generalizing s t with
  | nil => exact h
  | cons a l ih =>
    simp only [List.foldl_cons]
    exact ih _ _ (hf s t a h)

theorem set_obj_grid_congr (s t : MazeGame) (x y v : Int) (h : s.grid = t.grid) :
    (set_obj s x y v).grid = (set_obj t x y v).grid := by
  show s.grid.set x y v = t.grid.set x y v
  rw [h]

theorem copy_maze_grid_congr (ids : ObjectIds) (mg : MazeGen) (maze_dim margin : Int)
    (s t : MazeGame) (h : s.grid = t.grid) :
    (copy_maze ids mg maze_dim margin s).grid = (copy_maze ids mg maze_dim margin t).grid := by
  unfold copy_maze
  apply foldl_grid_congr _ _ _ s t h
  intro s1 t1 i h1
  apply foldl_grid_congr _ _ _ s1 t1 h1
  intro s2 t2 j h2
  exact set_obj_grid_congr s2 t2 _ _ _ h2

theorem stamp_frame_grid_congr (ids : ObjectIds) (maze_dim margin : Int)
    (s t : MazeGame) (h : s.grid = t.grid) :
    (stamp_frame ids maze_dim margin s).grid = (stamp_frame ids maze_dim margin t).grid := by
  unfold stamp_frame
  split
  · apply foldl_grid_congr _ _ _ s t h
    intro s1 t1 a h1
    unfold stamp_frame_step
    exact set_obj_grid_congr _ _ _ _ _ (set_obj_grid_congr _ _ _ _ _
      (set_obj_grid_congr _ _ _ _ _ (set_obj_grid_congr _ _ _ _ _ h1)))
  · exact h

/-- The wall fill erases the previous content of a sized grid: two grids of the same
dimensions are equal after it. -/
theorem fill_walls_grid_eq (ids : ObjectIds) (s t : MazeGame) (hw : s.grid.w = t.grid.w)
    (hh : s.grid.h = t.grid.h) (hgs : s.grid_size = t.grid_size)
    (hfill : s.grid_size = s.grid.w * s.grid.h) :
    (fill_walls ids s).grid = (fill_walls ids t).grid := by
  obtain ⟨hw1, hh1, hg1⟩ := fill_upto ids s s.grid_size.toNat
  obtain ⟨hw2, hh2, hg2⟩ := fill_upto ids t t.grid_size.toNat
  unfold fill_walls
  apply Grid.eq_of_get_index
  · rw [hw1, hw2, hw]
  · rw [hh1, hh2, hh]
  · intro j h0 h1
    rw [hw1, hh1] at h1
    rw [hg1 j h0 h1, hg2 j h0 (by rw [← hw, ← hh]; exact h1)]
    have c1 : j < (s.grid_size.toNat : Int) := by omega
    have c2 : j < (t.grid_size.toNat : Int) := by omega
    rw [if_pos c1, if_pos c2]

theorem game_reset_eq_loops (ids : ObjectIds) (base : MazeGame → MazeGame) (ops : MazeGenOps)
    (s0 : MazeGame) :
    game_reset ids base ops s0 =
      stamp_frame ids (maze_dim_of_draw (reset_draw (base s0)).1)
        (margin_of (base s0).world_dim (maze_dim_of_draw (reset_draw (base s0)).1))
        (copy_maze ids (reset_maze_gen ops (base s0))
          (maze_dim_of_draw (reset_draw (base s0)).1)
          (margin_of (base s0).world_dim (maze_dim_of_draw (reset_draw (base s0)).1))
          (fill_walls ids (reset_members ids ops (base s0)))) := rfl

theorem game_reset_without_frame_eq_loops (ids : ObjectIds) (base : MazeGame → MazeGame)
    (ops : MazeGenOps) (s0 : MazeGame) :
    game_reset_without_frame ids base ops s0 =
      copy_maze ids (reset_maze_gen ops (base s0))
        (maze_dim_of_draw (reset_draw (base s0)).1)
        (margin_of (base s0).world_dim (maze_dim_of_draw (reset_draw (base s0)).1))
        (fill_walls ids (reset_members ids ops (base s0))) := rfl

theorem game_reset_rand_gen (ids : ObjectIds) (base : MazeGame → MazeGame) (ops : MazeGenOps)
    (s0 : MazeGame) :
    (game_reset ids base ops s0).rand_gen = (reset_maze_gen ops (base s0)).rand_gen := by
  obtain ⟨g, h⟩ := game_reset_frame ids base ops s0
  rw [h]; rfl

theorem game_reset_center_agent (ids : ObjectIds) (base : MazeGame → MazeGame)
    (ops : MazeGenOps) (s0 : MazeGame) :
    (game_reset ids base ops s0).center_agent
      = decide ((base s0).distribution_mode = ids.MemoryMode) := by
  obtain ⟨g, h⟩ := game_reset_frame ids base ops s0
  rw [h]; rfl

end MazeGame

/-! ## Determinism of the reset (C11) -/

namespace MazeGame

/-- C11: for two states whose base reset results agree on `world_dim`, on the
distribution mode, on the state of the random source and on the size of the world grid
(which the wall fill covers), but may differ in the content of the world grid, in
`maze_dim`, in the generator and in the agent, `game_reset` produces the same
`maze_dim`, the same world grid (hence the same cell at every coordinate), the same
agent position, the same generator and the same state of the random source. -/
theorem game_reset_deterministic (ids : ObjectIds) (base : MazeGame → MazeGame)
    (ops : MazeGenOps) (s1 s2 : MazeGame)
    (hwd : (base s1).world_dim = (base s2).world_dim)
    (hmode : (base s1).distribution_mode = (base s2).distribution_mode)
    (hrng : (base s1).rand_gen = (base s2).rand_gen)
    (hw : (base s1).grid.w = (base s2).grid.w) (hh : (base s1).grid.h = (base s2).grid.h)
    (hgs : (base s1).grid_size = (base s2).grid_size)
    (hfill : (base s1).grid_size = (base s1).grid.w * (base s1).grid.h) :
    (game_reset ids base ops s1).maze_dim = (game_reset ids base ops s2).maze_dim ∧
    (game_reset ids base ops s1).grid = (game_reset ids base ops s2).grid ∧
    (∀ x y : Int, get_obj ids (game_reset ids base ops s1) x y
      = get_obj ids (game_reset ids base ops s2) x y) ∧
    (game_reset ids base ops s1).agent.x = (game_reset ids base ops s2).agent.x ∧
    (game_reset ids base ops s1).agent.y = (game_reset ids base ops s2).agent.y ∧
    (game_reset ids base ops s1).maze_gen = (game_reset ids base ops s2).maze_gen ∧
    (game_reset ids base ops s1).rand_gen = (game_reset ids base ops s2).rand_gen ∧
    (game_reset ids base ops s1).center_agent = (game_reset ids base ops s2).center_agent := by
  have hdraw : reset_draw (base s1) = reset_draw (base s2) := by
    unfold reset_draw
    rw [hrng, hwd]
  have hmg : reset_maze_gen ops (base s1) = reset_maze_gen ops (base s2) := by
    unfold reset_maze_gen
    rw [hdraw]
  have hmd : (game_reset ids base ops s1).maze_dim = (game_reset ids base ops s2).maze_dim := by
    rw [game_reset_maze_dim, game_reset_maze_dim, hdraw]
  have hwd2 : (game_reset ids base ops s1).world_dim = (game_reset ids base ops s2).world_dim := by
    rw [game_reset_world_dim, game_reset_world_dim, hwd]
  have hgrid : (game_reset ids base ops s1).grid = (game_reset ids base ops s2).grid := by
    rw [game_reset_eq_loops, game_reset_eq_loops, hdraw, hmg, hwd]
    apply stamp_frame_grid_congr
    apply copy_maze_grid_congr
    exact fill_walls_grid_eq ids _ _ hw hh hgs hfill
  refine ⟨hmd, hgrid, fun x y => get_obj_congr ids _ _ hgrid x y, ?_, ?_, ?_, ?_, ?_⟩
  · rw [game_reset_agent_x, game_reset_agent_x, hmd, hwd2]
  · rw [game_reset_agent_y, game_reset_agent_y, hmd, hwd2]
  · rw [game_reset_maze_gen, game_reset_maze_gen, hmg]
  · rw [game_reset_rand_gen, game_reset_rand_gen, hmg]
  · rw [game_reset_center_agent, game_reset_center_agent, hmode]

/-- Witness of C11: two 5 by 5 worlds left by different episodes, one empty and one full
of goals with another agent position and maze dimension, reset to the same world. -/
theorem game_reset_deterministic_witness :
    sampleResetGame.grid ≠ sampleResetGameUsed.grid ∧
      (game_reset sampleIds id sampleOps sampleResetGame).grid
        = (game_reset sampleIds id sampleOps sampleResetGameUsed).grid ∧
      (game_reset sampleIds id sampleOps sampleResetGame).agent.x
        = (game_reset sampleIds id sampleOps sampleResetGameUsed).agent.x := by
  have h := game_reset_deterministic sampleIds id sampleOps sampleResetGame sampleResetGameUsed
    rfl rfl rfl rfl rfl rfl rfl
  refine ⟨?_, h.2.1, h.2.2.2.1⟩
  intro he
  have hd : sampleResetGame.grid.data = sampleResetGameUsed.grid.data := by rw [he]
  exact absurd hd (by decide)

end MazeGame

/-! ## Redundancy of the frame stamping (C16) -/

namespace MazeGame

theorem pos_of_margin_pos (world_dim maze_dim : Int) (h : 0 < margin_of world_dim maze_dim) :
    0 < world_dim - maze_dim ∧ margin_of world_dim maze_dim = (world_dim - maze_dim) / 2 := by
  unfold margin_of at h ⊢
  have hpos : 0 < world_dim - maze_dim := by
    by_contra h1
    have h2 : 0 ≤ -(world_dim - maze_dim) := by omega
    have h3 : Int.tdiv (-(world_dim - maze_dim)) 2 = (-(world_dim - maze_dim)) / 2 :=
      Int.tdiv_eq_ediv h2 (by norm_num)
    have h4 : Int.tdiv (world_dim - maze_dim) 2 = - Int.tdiv (-(world_dim - maze_dim)) 2 := by
      rw [Int.neg_tdiv, neg_neg]
    omega
  exact ⟨hpos, Int.tdiv_eq_ediv hpos.le (by norm_num)⟩

/-- One iteration of the frame loop changes nothing when every cell outside the maze
region already reads `WALL_OBJ`. -/
theorem stamp_frame_step_id (ids : ObjectIds) (maze_dim margin : Int) (s : MazeGame) (i : Int)
    (hwall : ∀ x y : Int, ¬ in_maze_region maze_dim margin x y →
      get_obj ids s x y = ids.WALL_OBJ) :
    stamp_frame_step ids maze_dim margin s i = s := by
  have e1 : set_obj s (margin - 1) (margin + i - 1) ids.WALL_OBJ = s :=
    set_obj_self ids s _ _ (hwall _ _ (by unfold in_maze_region; omega))
  have e2 : set_obj s (margin + maze_dim) (margin + i - 1) ids.WALL_OBJ = s :=
    set_obj_self ids s _ _ (hwall _ _ (by unfold in_maze_region; omega))
  have e3 : set_obj s (margin + i - 1) (margin - 1) ids.WALL_OBJ = s :=
    set_obj_self ids s _ _ (hwall _ _ (by unfold in_maze_region; omega))
  have e4 : set_obj s (margin + i - 1) (margin + maze_dim) ids.WALL_OBJ = s :=
    set_obj_self ids s _ _ (hwall _ _ (by unfold in_maze_region; omega))
  simp only [stamp_frame_step, e1, e2, e3, e4]

/-- The frame stamping changes nothing when every cell outside the maze region already
reads `WALL_OBJ`. -/
theorem stamp_frame_id (ids : ObjectIds) (maze_dim margin : Int) (s : MazeGame)
    (hwall : ∀ x y : Int, ¬ in_maze_region maze_dim margin x y →
      get_obj ids s x y = ids.WALL_OBJ) :
    stamp_frame ids maze_dim margin s = s := by
  unfold stamp_frame
  split
  · generalize List.range (maze_dim + 2).toNat = l
    induction l with
    | nil => rfl
    | cons a l ih =>
      simp only [List.foldl_cons]
      rw [stamp_frame_step_id ids maze_dim margin s _ hwall]
      exact ih
  · rfl

/-- Before the frame stamping of a reset over a sized world, every cell outside the maze
region reads `WALL_OBJ`. -/
theorem game_reset_without_frame_wall (ids : ObjectIds) (base : MazeGame → MazeGame)
    (ops : MazeGenOps) (s0 : MazeGame) (hws : WorldSized (base s0)) (x y : Int)
    (hout : ¬ in_maze_region (maze_dim_of_draw (reset_draw (base s0)).1)
      (margin_of (base s0).world_dim (maze_dim_of_draw (reset_draw (base s0)).1)) x y) :
    get_obj ids (game_reset_without_frame ids base ops s0) x y = ids.WALL_OBJ := by
  obtain ⟨-, h3, -, -, -⟩ := game_reset_arith ids base ops s0 hws
  rw [game_reset_maze_dim] at h3
  have hgs : (reset_members ids ops (base s0)).grid_size =
      (reset_members ids ops (base s0)).grid.w * (reset_members ids ops (base s0)).grid.h := by
    show (base s0).grid_size = (base s0).grid.w * (base s0).grid.h
    rw [hws.2.2.2, hws.2.1, hws.2.2.1]
  rw [game_reset_without_frame_eq_loops, copy_maze_get_obj ids _ _ _ _ (by omega),
    if_neg (fun h => hout h.2), fill_walls_get_obj ids _ hgs]

/-- C16: for odd `world_dim` and odd `maze_dim` with `margin > 0`, the four writes of
every iteration `i` of the frame loop, `0 <= i < maze_dim + 2`, target coordinates in
`[0, world_dim)` and none targets a cell of the maze region; the frame stamping
changes nothing on a world whose cells outside the maze region already read `WALL_OBJ`;
and `game_reset` over a sized world yields the same state as the reset without the
frame loop. -/
theorem frame_stamping_redundant (ids : ObjectIds) (base : MazeGame → MazeGame)
    (ops : MazeGenOps) (s0 : MazeGame) (hws : WorldSized (base s0)) :
    (∀ world_dim maze_dim i : Int, world_dim % 2 = 1 → maze_dim % 2 = 1 →
      0 < margin_of world_dim maze_dim → 0 ≤ i → i < maze_dim + 2 →
      (0 ≤ margin_of world_dim maze_dim - 1 ∧ margin_of world_dim maze_dim - 1 < world_dim) ∧
      (0 ≤ margin_of world_dim maze_dim + i - 1 ∧
        margin_of world_dim maze_dim + i - 1 < world_dim) ∧
      (0 ≤ margin_of world_dim maze_dim + maze_dim ∧
        margin_of world_dim maze_dim + maze_dim < world_dim) ∧
      ¬ in_maze_region maze_dim (margin_of world_dim maze_dim)
        (margin_of world_dim maze_dim - 1) (margin_of world_dim maze_dim + i - 1) ∧
      ¬ in_maze_region maze_dim (margin_of world_dim maze_dim)
        (margin_of world_dim maze_dim + maze_dim) (margin_of world_dim maze_dim + i - 1) ∧
      ¬ in_maze_region maze_dim (margin_of world_dim maze_dim)
        (margin_of world_dim maze_dim + i - 1) (margin_of world_dim maze_dim - 1) ∧
      ¬ in_maze_region maze_dim (margin_of world_dim maze_dim)
        (margin_of world_dim maze_dim + i - 1) (margin_of world_dim maze_dim + maze_dim)) ∧
    (∀ (maze_dim margin : Int) (s : MazeGame),
      (∀ x y : Int, ¬ in_maze_region maze_dim margin x y → get_obj ids s x y = ids.WALL_OBJ) →
      stamp_frame ids maze_dim margin s = s) ∧
    game_reset ids base ops s0 = game_reset_without_frame ids base ops s0 ∧
    (game_reset ids base ops s0).grid = (game_reset_without_frame ids base ops s0).grid := by
  have hsame : game_reset ids base ops s0 = game_reset_without_frame ids base ops s0 := by
    rw [game_reset_eq_loops, ← game_reset_without_frame_eq_loops]
    exact stamp_frame_id ids _ _ _ (game_reset_without_frame_wall ids base ops s0 hws)
  refine ⟨?_, stamp_frame_id ids, hsame, by rw [hsame]⟩
  intro world_dim maze_dim i hw hm hpos hi0 hi1
  obtain ⟨hd, e⟩ := pos_of_margin_pos world_dim maze_dim hpos
  rw [e] at hpos ⊢
  unfold in_maze_region
  refine ⟨⟨by omega, by omega⟩, ⟨by omega, by omega⟩, ⟨by omega, by omega⟩,
    by omega, by omega, by omega, by omega⟩

/-- Witness of C16: the reset of the 5 by 5 sample world, whose margin is 1, so that the
frame loop runs; it leaves the state as the maze copy produced it. -/
theorem frame_stamping_redundant_witness :
    WorldSized (id sampleResetGame) ∧
      0 < margin_of (game_reset sampleIds id sampleOps sampleResetGame).world_dim
        (game_reset sampleIds id sampleOps sampleResetGame).maze_dim ∧
      game_reset sampleIds id sampleOps sampleResetGame
        = game_reset_without_frame sampleIds id sampleOps sampleResetGame :=
  ⟨sample_reset_sized, by rw [sample_reset_margin]; decide,
    (frame_stamping_redundant sampleIds id sampleOps sampleResetGame sample_reset_sized).2.2.1⟩

end MazeGame

end Maze
